import Mathlib

/-!
# CryptoSentinel: the decision engine and the indicator estimators

A shallow embedding of `internal/model/indicators.go`,
`internal/strategy/strategy_v2.go`, `internal/strategy/strategy.go`,
`internal/calculator/ahr999.go`, `internal/calculator/ma730.go`,
`internal/fetcher/mvrv.go` from the decoded response on, and the label
functions of `internal/notifier/formatter.go`.

Modelling conventions.

* The source is embedded twice where the reading of `float64` matters. In the
  first embedding a `float64` value is a finite number, modelled by the
  rational it denotes, arithmetic is exact, and the engine receives the value
  behind its snapshot pointer: it serves the claims about comparisons with
  constants and about printing, and those stated over exact arithmetic or
  over the reals. The namespace `ieee` embeds the engine, the dispersion
  estimator and `sqrt` over the type `Float64` of binary64 values
  (not-a-number, the infinities, the signed zeros, every operation rounded to
  nearest, ties to even) and passes the snapshot of `EvaluateV2` as a pointer
  that may be `nil`: it serves the claims whose truth depends on
  not-a-number, on rounding or on the `nil` pointer.
* The coin age of `AHR999Calculator.Calculate` is computed in `Float64`, as
  `Duration.Hours` does; the functions of package `math` are arguments.
* `time.Now().Format("2006-01-02")`, the only clock read, is the explicit
  argument `today` of `generateReport` and `EvaluateV2`.
* The `%.Nf` verbs of `fmt.Sprintf` are modelled by `formatFixed`.
* The HTTP retrieval is outside the model: an estimator takes the parsed series
  (or the transport error) as an argument.
-/

namespace CryptoSentinel

/-! ## Fixed-precision printing of a float -/

/-- Nearest natural number to a non-negative rational, a tie going to the
even neighbour. -/
def roundHalfEven (x : ℚ) : ℕ :=
  let f : ℕ := x.floor.toNat
  let r : ℚ := x - f
  if r < 1 / 2 then f
  else if 1 / 2 < r then f + 1
  else if f % 2 = 0 then f
  else f + 1

/-- Left-pad a digit string with zeros up to `width` characters. -/
def padZeros (width : ℕ) (s : String) : String :=
  String.mk (List.replicate (width - s.length) '0') ++ s

/-- The verb `%.<prec>f` applied to a finite value: sign, integer part and
`prec` fractional digits of the correctly rounded decimal expansion. -/
def formatFixed (prec : ℕ) (x : ℚ) : String :=
  let n : ℕ := roundHalfEven (|x| * (10 : ℚ) ^ prec)
  let sign : String := if x < 0 then "-" else ""
  let whole : String := toString (n / 10 ^ prec)
  if prec = 0 then sign ++ whole
  else sign ++ whole ++ "." ++ padZeros prec (toString (n % 10 ^ prec))

/-! ## The type `float64`

IEEE 754 binary64 as Go uses it: not-a-number, the two infinities, the two
zeros and the finite values. A finite value is carried as the rational number
it denotes; every operation computes the exact rational result and rounds it
to the nearest binary64 value, a tie going to the even significand, which is
what the hardware does for `+`, `-`, `*`, `/` and for conversions. Each
operation is rounded on its own (no fused multiply-add, as on amd64). -/

/-- A value of the Go type `float64`. `finite 0` is the positive zero, and
`negZero` the negative one. -/
inductive Float64 where
  | nan : Float64
  | posInf : Float64
  | negInf : Float64
  | negZero : Float64
  | finite (q : ℚ) : Float64
  deriving DecidableEq, Repr

namespace Float64

/-- The number a finite value denotes (0 for the other values, where it is not
used). -/
def val : Float64 → ℚ
  | finite q => q
  | _ => 0

/-- The sign bit, as the sign rules of `*` and `/` read it. -/
def signBit : Float64 → Bool
  | negInf => true
  | negZero => true
  | finite q => decide (q < 0)
  | _ => false

/-- Whether the value is one of the two zeros. -/
def isZero : Float64 → Bool
  | negZero => true
  | finite q => decide (q = 0)
  | _ => false

/-- Whether the value is one of the two infinities. -/
def isInf : Float64 → Bool
  | posInf => true
  | negInf => true
  | _ => false

/-- Whether the value is a zero or a finite number. -/
def isFinite : Float64 → Bool
  | negZero => true
  | finite _ => true
  | _ => false

/-- The zero of the given sign. -/
def zero (negative : Bool) : Float64 :=
  if negative then negZero else finite 0

/-- The infinity of the given sign. -/
def inf (negative : Bool) : Float64 :=
  if negative then negInf else posInf

/-- The loop of `log2Nat`: halve until below 2, counting the halvings. -/
def log2Loop : ℕ → ℕ → ℕ
  | 0, _ => 0
  | fuel + 1, n => if n < 2 then 0 else log2Loop fuel (n / 2) + 1

/-- The position of the leading bit of a positive natural number. -/
def log2Nat (n : ℕ) : ℕ := log2Loop n n

/-- The binary exponent of a non-zero rational: the `e` with
`2 ^ e ≤ |q| < 2 ^ (e + 1)`. -/
def floorLog2 (q : ℚ) : Int :=
  let e0 : Int := (log2Nat q.num.natAbs : Int) - (log2Nat q.den : Int)
  if (2 : ℚ) ^ e0 ≤ |q| then e0 else e0 - 1

/-- Rounding of an exact result to binary64, to nearest with ties to even: 53
significant bits down to the exponent -1022, the fixed spacing `2 ^ (-1074)`
below it (subnormal values), an infinity once the rounded magnitude reaches
`2 ^ 1024`. `zeroSign` is the sign of an exactly zero result, which the
operation decides; a result rounded to zero keeps the sign of `q`. -/
def round64 (q : ℚ) (zeroSign : Bool) : Float64 :=
  if q = 0 then zero zeroSign
  else
    let e : Int := max (floorLog2 q) (-1022)
    let ulp : ℚ := (2 : ℚ) ^ (e - 52)
    let r : ℚ := (roundHalfEven (|q| / ulp) : ℚ) * ulp
    if (2 : ℚ) ^ (1024 : ℕ) ≤ r then inf (decide (q < 0))
    else if r = 0 then zero (decide (q < 0))
    else finite (if q < 0 then -r else r)

/-- The unit roundoff of binary64, `2 ^ (-53)`: half the gap between 1 and the
next value. -/
@[irreducible]
def unitRoundoff : ℚ := 1 / 2 ^ 53

/-- The smallest positive normal value of binary64, `2 ^ (-1022)`. -/
@[irreducible]
def minNormal : ℚ := 1 / 2 ^ 1022

/-- A bound, `2 ^ 1023`, below which an exact result rounds to a finite value
(the largest finite value is just below `2 ^ 1024`). -/
@[irreducible]
def finiteBound : ℚ := 2 ^ 1023

/-- Conversion of a constant or of an integer to `float64`. -/
def ofRat (q : ℚ) : Float64 := round64 q false

/-- Go `float64(n)` for an integer `n`. -/
def ofInt (n : Int) : Float64 := round64 (n : ℚ) false

/-- Go `int(x)` for a finite `x`: truncation towards zero. The conversion of a
value outside the integer range is not defined by the language; the model
returns 0 for not-a-number and the infinities. -/
def toInt : Float64 → Int
  | finite q => if q < 0 then -((-q).floor) else q.floor
  | _ => 0

/-- Unary minus: the sign bit is flipped. -/
def neg : Float64 → Float64
  | nan => nan
  | posInf => negInf
  | negInf => posInf
  | negZero => finite 0
  | finite q => if q = 0 then negZero else finite (-q)

/-- Float addition. Opposite infinities give not-a-number; an exactly zero sum
is the positive zero unless both terms are the negative zero. -/
def add : Float64 → Float64 → Float64
  | nan, _ => nan
  | _, nan => nan
  | posInf, negInf => nan
  | negInf, posInf => nan
  | posInf, _ => posInf
  | _, posInf => posInf
  | negInf, _ => negInf
  | _, negInf => negInf
  | negZero, negZero => negZero
  | a, b => round64 (a.val + b.val) false

/-- Float subtraction, `a + (-b)`. -/
def sub (a b : Float64) : Float64 := add a (neg b)

/-- Float multiplication. The sign is the exclusive or of the sign bits; zero
times an infinity is not-a-number. -/
def mul (a b : Float64) : Float64 :=
  match a, b with
  | nan, _ => nan
  | _, nan => nan
  | a, b =>
    let s : Bool := xor a.signBit b.signBit
    if a.isInf || b.isInf then
      if a.isZero || b.isZero then nan else inf s
    else round64 (a.val * b.val) s

/-- Float division. Zero over zero and infinity over infinity are
not-a-number; a non-zero value over zero is an infinity; no division raises an
error. -/
def div (a b : Float64) : Float64 :=
  match a, b with
  | nan, _ => nan
  | _, nan => nan
  | a, b =>
    let s : Bool := xor a.signBit b.signBit
    if a.isInf then (if b.isInf then nan else inf s)
    else if b.isInf then zero s
    else if b.isZero then (if a.isZero then nan else inf s)
    else round64 (a.val / b.val) s

/-- The comparison `a < b`: false as soon as one side is not-a-number. -/
def lt : Float64 → Float64 → Bool
  | nan, _ => false
  | _, nan => false
  | posInf, _ => false
  | _, posInf => true
  | _, negInf => false
  | negInf, _ => true
  | a, b => decide (a.val < b.val)

/-- The comparison `a <= b`: false as soon as one side is not-a-number. -/
def le : Float64 → Float64 → Bool
  | nan, _ => false
  | _, nan => false
  | negInf, _ => true
  | _, posInf => true
  | posInf, _ => false
  | _, negInf => false
  | a, b => decide (a.val ≤ b.val)

instance : Add Float64 := ⟨add⟩

instance : Sub Float64 := ⟨sub⟩

instance : Mul Float64 := ⟨mul⟩

instance : Div Float64 := ⟨div⟩

instance : Neg Float64 := ⟨neg⟩

instance : LT Float64 := ⟨fun a b => lt a b = true⟩

instance : LE Float64 := ⟨fun a b => le a b = true⟩

instance decidableLT (a b : Float64) : Decidable (a < b) :=
  inferInstanceAs (Decidable (lt a b = true))

instance decidableLE (a b : Float64) : Decidable (a ≤ b) :=
  inferInstanceAs (Decidable (le a b = true))

instance (n : ℕ) : OfNat Float64 n := ⟨ofRat (n : ℚ)⟩

instance : OfScientific Float64 :=
  ⟨fun m s e => ofRat (OfScientific.ofScientific m s e)⟩

/-- The verb `%.<prec>f` of `fmt.Sprintf` on any `float64`. -/
def format (prec : ℕ) : Float64 → String
  | nan => "NaN"
  | posInf => "+Inf"
  | negInf => "-Inf"
  | negZero => "-" ++ formatFixed prec 0
  | finite q => formatFixed prec q

end Float64

/-! ## Package `model` -/

namespace model

/-- Go `type MaMultiplierState int`: any integer can be stored. -/
abbrev MaMultiplierState := Int

def MaStateNormal : MaMultiplierState := 0

def MaStateBearBottom : MaMultiplierState := 1

def MaStateBullTop : MaMultiplierState := 2

/-- Method `MaMultiplierState.String`. -/
def MaMultiplierState_String (s : MaMultiplierState) : String :=
  if s = MaStateNormal then "正常"
  else if s = MaStateBearBottom then "熊市底部"
  else if s = MaStateBullTop then "疯牛顶部"
  else "未知"

/-- Go `type EthRegressionState string`: any string can be stored. -/
abbrev EthRegressionState := String

def EthRegLower : EthRegressionState := "lower"

def EthRegMiddle : EthRegressionState := "middle"

def EthRegUpper : EthRegressionState := "upper"

/-- Struct `MarketIndicators`, the snapshot handed to the engine. -/
structure MarketIndicators where
  CurrentPriceBTC : ℚ
  CurrentPriceETH : ℚ
  AHR999 : ℚ
  MVRVZScore : ℚ
  MaMultiplierState : Int
  PiCycleCross : Bool
  EthRegressionState : String
  AccountLeverage : ℚ
  Timestamp : Int
  Source : String
  deriving DecidableEq, Repr

/-- Struct `TradeSignal`, the result of the engine. -/
structure TradeSignal where
  ActionBTC : String
  ActionETH : String
  AmountFactor : ℚ
  WarningMsg : String
  ReportMarkdown : String
  IsHalted : Bool
  deriving DecidableEq, Repr

def ActionHalt : String := "HALT"

def ActionSellAlert : String := "SELL_ALERT"

def ActionStrongBuy : String := "STRONG_BUY"

def ActionDCABuy : String := "DCA_BUY"

def ActionHold : String := "HOLD"

def ActionHoldCaution : String := "HOLD_CAUTION"

def ActionSell : String := "SELL"

def ActionETHBuyHeavy : String := "BUY_HEAVY"

def ActionETHSellOrSwap : String := "SELL_OR_SWAP_BTC"

def ActionETHFollowBTC : String := "FOLLOW_BTC"

end model

/-! ## Package `strategy`, file `strategy_v2.go` -/

namespace strategy

def MaxLeverage : ℚ := 1.5

def AHR999StrongBuy : ℚ := 0.45

def AHR999DCAUpper : ℚ := 1.20

def AHR999HoldUpper : ℚ := 5.00

def MVRVOverheat : ℚ := 6.0

/-- Function `getAHR999Description`. -/
def getAHR999Description (ahr999 : ℚ) : String :=
  if ahr999 < AHR999StrongBuy then "🟢 抄底区"
  else if ahr999 < AHR999DCAUpper then "🔵 定投区"
  else if ahr999 < AHR999HoldUpper then "🟡 持有区"
  else "🔴 逃顶区"

/-- Function `getEthPositionDescription`. -/
def getEthPositionDescription (state : model.EthRegressionState) : String :=
  if state = model.EthRegLower then "🟢 低估区"
  else if state = model.EthRegMiddle then "🟡 中间区"
  else if state = model.EthRegUpper then "🔴 高估区"
  else "❓ 未知"

/-- Function `getBTCActionDescription`. -/
def getBTCActionDescription (action : String) : String :=
  if action = model.ActionHalt then "🛑 熔断停止"
  else if action = model.ActionSellAlert then "🚨 逃顶警报"
  else if action = model.ActionStrongBuy then "💪 贪婪买入"
  else if action = model.ActionDCABuy then "📈 正常定投"
  else if action = model.ActionHold then "✋ 持有观望"
  else if action = model.ActionHoldCaution then "⚠️ 谨慎持有"
  else if action = model.ActionSell then "📉 逐步卖出"
  else action

/-- Function `getETHActionDescription`. -/
def getETHActionDescription (action : String) : String :=
  if action = model.ActionHalt then "🛑 熔断停止"
  else if action = model.ActionSellAlert then "🚨 逃顶警报"
  else if action = model.ActionETHBuyHeavy then "💪 重仓买入"
  else if action = model.ActionETHSellOrSwap then "🔄 卖出/换BTC"
  else if action = model.ActionETHFollowBTC then "👉 跟随BTC"
  else action

/-- Function `generateReport`; `today` is the formatted current date. -/
def generateReport (today : String) (indicators : model.MarketIndicators)
    (signal : model.TradeSignal) : String :=
  let leverageStatus : String :=
    if indicators.AccountLeverage > MaxLeverage then "❌ 危险"
    else if indicators.AccountLeverage > 1.2 then "⚠️ 警戒"
    else "✅ 安全"
  let piStatus : String := if indicators.PiCycleCross then "❌ 死叉" else "✅ 正常"
  let maStatus : String := model.MaMultiplierState_String indicators.MaMultiplierState
  let ahr999Desc : String := getAHR999Description indicators.AHR999
  let ethPosDesc : String := getEthPositionDescription indicators.EthRegressionState
  let btcActionDesc : String := getBTCActionDescription signal.ActionBTC
  let ethActionDesc : String := getETHActionDescription signal.ActionETH
  let warningSection : String :=
    if signal.WarningMsg ≠ "" then "\n⚠️ **警告**: " ++ signal.WarningMsg ++ "\n" else ""
  "🛡️ **CryptoSentinel 周报** [" ++ today ++ "]\n"
    ++ warningSection ++ "\n"
    ++ "**1. 风控检查**\n"
    ++ "- 杠杆率: " ++ formatFixed 2 indicators.AccountLeverage ++ "x (" ++ leverageStatus ++ ")\n"
    ++ "- 逃顶信号: Pi周期[" ++ piStatus ++ "] / MA状态[" ++ maStatus ++ "]\n"
    ++ "\n"
    ++ "**2. 核心指标**\n"
    ++ "- 📏 AHR999: " ++ formatFixed 4 indicators.AHR999 ++ " -> " ++ ahr999Desc ++ "\n"
    ++ "- 🌡️ MVRV-Z: " ++ formatFixed 2 indicators.MVRVZScore ++ "\n"
    ++ "- 💎 ETH位置: " ++ ethPosDesc ++ "\n"
    ++ "\n"
    ++ "**3. 执行建议**\n"
    ++ "- 🚀 **BTC 操作**: " ++ btcActionDesc ++ "\n"
    ++ "- 💰 **倍率**: " ++ formatFixed 1 signal.AmountFactor ++ "x\n"
    ++ "- Ξ **ETH 操作**: " ++ ethActionDesc ++ "\n"
    ++ "\n"
    ++ "_\"看着资产像树苗一样慢慢长高，本身就是一件枯燥的事情。\"_"

/-- The BTC base rule of `EvaluateV2` (second step): the signal after the
AHR999 zone has been applied, and the flag `btcAllowBuy`. -/
def btcBaseStep (indicators : model.MarketIndicators) (signal : model.TradeSignal) :
    model.TradeSignal × Bool :=
  if indicators.AHR999 < AHR999StrongBuy then
    ({ signal with ActionBTC := model.ActionStrongBuy, AmountFactor := 1.5 }, true)
  else if indicators.AHR999 ≥ AHR999StrongBuy ∧ indicators.AHR999 < AHR999DCAUpper then
    ({ signal with ActionBTC := model.ActionDCABuy, AmountFactor := 1.0 }, true)
  else if indicators.AHR999 ≥ AHR999DCAUpper ∧ indicators.AHR999 < AHR999HoldUpper then
    ({ signal with ActionBTC := model.ActionHold, AmountFactor := 0 }, false)
  else
    ({ signal with ActionBTC := model.ActionSell, AmountFactor := 0 }, false)

/-- The MVRV check of `EvaluateV2` (third step). -/
def mvrvStep (indicators : model.MarketIndicators) (st : model.TradeSignal × Bool) :
    model.TradeSignal × Bool :=
  if st.2 = true ∧ indicators.MVRVZScore > MVRVOverheat then
    ({ st.1 with
        ActionBTC := model.ActionHoldCaution
        AmountFactor := 0
        WarningMsg := "⚠️ MVRV-Z Score (" ++ formatFixed 2 indicators.MVRVZScore
          ++ ") 极度过热，暂停买入！" }, false)
  else st

/-- The ETH rule of `EvaluateV2` (fourth step), a switch on the band string. -/
def ethStep (indicators : model.MarketIndicators) (st : model.TradeSignal × Bool) :
    model.TradeSignal :=
  if indicators.EthRegressionState = model.EthRegLower then
    if st.2 = true then { st.1 with ActionETH := model.ActionETHBuyHeavy }
    else { st.1 with ActionETH := model.ActionETHFollowBTC }
  else if indicators.EthRegressionState = model.EthRegUpper then
    { st.1 with ActionETH := model.ActionETHSellOrSwap }
  else
    { st.1 with ActionETH := model.ActionETHFollowBTC }

/-- The signal `EvaluateV2` starts from (its first statement); the two strings
left out of the Go literal are empty. -/
def initialSignal : model.TradeSignal :=
  { ActionBTC := model.ActionHold
    ActionETH := model.ActionETHFollowBTC
    AmountFactor := 0
    WarningMsg := ""
    ReportMarkdown := ""
    IsHalted := false }

/-- Function `EvaluateV2`: leverage breaker, top-signal breaker, BTC zone,
MVRV check, ETH rule, report. -/
def EvaluateV2 (today : String) (indicators : model.MarketIndicators) : model.TradeSignal :=
  let signal : model.TradeSignal := initialSignal
  if indicators.AccountLeverage > MaxLeverage then
    let signal : model.TradeSignal :=
      { signal with
          ActionBTC := model.ActionHalt
          ActionETH := model.ActionHalt
          WarningMsg := "⚠️ 杠杆过高(" ++ formatFixed 2 indicators.AccountLeverage ++ "x > "
            ++ formatFixed 1 MaxLeverage ++ "x)！停止买入，请补充保证金！"
          IsHalted := true }
    { signal with ReportMarkdown := generateReport today indicators signal }
  else if indicators.PiCycleCross = true ∨ indicators.MaMultiplierState = model.MaStateBullTop then
    let signal : model.TradeSignal :=
      { signal with
          ActionBTC := model.ActionSellAlert
          ActionETH := model.ActionSellAlert
          WarningMsg := "🚨 逃顶信号触发！Pi周期死叉或突破两年红线！禁止买入！"
          IsHalted := true }
    { signal with ReportMarkdown := generateReport today indicators signal }
  else
    let signal : model.TradeSignal :=
      ethStep indicators (mvrvStep indicators (btcBaseStep indicators signal))
    { signal with ReportMarkdown := generateReport today indicators signal }

/-! ## Package `strategy`, file `strategy.go` (the legacy engine) -/

/-- Go `type Action string`. -/
abbrev Action := String

def ActionWarning : Action := "警告"

def ActionGreedyBuy : Action := "贪婪买入"

def ActionDCA : Action := "定投"

def ActionHold : Action := "持有观望"

def ActionSell : Action := "卖出"

/-- Struct `Decision`, the result of the legacy engine. -/
structure Decision where
  Action : String
  AmountFactor : ℚ
  Message : String
  deriving DecidableEq, Repr

def ThresholdBottomFishing : ℚ := 0.45

def ThresholdDCAUpper : ℚ := 0.80

def ThresholdHoldUpper : ℚ := 1.2

def ThresholdMaxLeverage : ℚ := 1.5

/-- Function `Evaluate`: leverage rule first, then the AHR999 zones. -/
def Evaluate (ahr999 : ℚ) (leverage : ℚ) : Decision :=
  if leverage > ThresholdMaxLeverage then
    { Action := ActionWarning
      AmountFactor := 0
      Message := "杠杆过高 (" ++ formatFixed 2 leverage ++ " > "
        ++ formatFixed 2 ThresholdMaxLeverage ++ ")，停止买入！请先降低杠杆率。" }
  else if ahr999 < ThresholdBottomFishing then
    { Action := ActionGreedyBuy
      AmountFactor := 1.5
      Message := "AHR999 = " ++ formatFixed 4 ahr999 ++ "，处于抄底区 (< "
        ++ formatFixed 2 ThresholdBottomFishing ++ ")，建议贪婪买入，资金倍率 1.5x" }
  else if ahr999 ≥ ThresholdBottomFishing ∧ ahr999 < ThresholdDCAUpper then
    { Action := ActionDCA
      AmountFactor := 1.0
      Message := "AHR999 = " ++ formatFixed 4 ahr999 ++ "，处于定投区 ("
        ++ formatFixed 2 ThresholdBottomFishing ++ " - " ++ formatFixed 2 ThresholdDCAUpper
        ++ ")，建议正常定投，资金倍率 1.0x" }
  else if ahr999 ≥ ThresholdDCAUpper ∧ ahr999 < ThresholdHoldUpper then
    { Action := ActionHold
      AmountFactor := 0
      Message := "AHR999 = " ++ formatFixed 4 ahr999 ++ "，处于持有区 ("
        ++ formatFixed 2 ThresholdDCAUpper ++ " - " ++ formatFixed 2 ThresholdHoldUpper
        ++ ")，建议持有观望，暂停定投" }
  else
    { Action := ActionSell
      AmountFactor := 0
      Message := "AHR999 = " ++ formatFixed 4 ahr999 ++ "，处于逃顶区 (> "
        ++ formatFixed 2 ThresholdHoldUpper ++ ")，建议卖出" }

/-! ## Reference definitions and sample snapshots -/

/-- Reference ETH sub-strategy, written from the specification: heavy buy on
the lower band while buying is still allowed, sell-or-swap on the upper band,
follow BTC otherwise. -/
def specEthSubStrategy (indicators : model.MarketIndicators) : String :=
  if indicators.EthRegressionState = model.EthRegLower ∧
      (indicators.AHR999 < 1.20 ∧ indicators.MVRVZScore ≤ 6.0) then model.ActionETHBuyHeavy
  else if indicators.EthRegressionState = model.EthRegUpper then model.ActionETHSellOrSwap
  else model.ActionETHFollowBTC

/-- Helper `newTestIndicators` of `strategy_v2_test.go`; the timestamp, which the
engine never reads, is fixed. -/
def newTestIndicators : model.MarketIndicators :=
  { CurrentPriceBTC := 95000
    CurrentPriceETH := 3500
    AHR999 := 0.70
    MVRVZScore := 2.5
    MaMultiplierState := model.MaStateNormal
    PiCycleCross := false
    EthRegressionState := model.EthRegMiddle
    AccountLeverage := 1.0
    Timestamp := 0
    Source := "" }

/-- The zero value of `MarketIndicators`: a default-filled snapshot. -/
def zeroIndicators : model.MarketIndicators :=
  { CurrentPriceBTC := 0
    CurrentPriceETH := 0
    AHR999 := 0
    MVRVZScore := 0
    MaMultiplierState := 0
    PiCycleCross := false
    EthRegressionState := ""
    AccountLeverage := 0
    Timestamp := 0
    Source := "" }

end strategy

/-! ## Package `calculator`

The functions that call package `math` take those library functions as
arguments (`Log`, `Exp`, `Log10`, `Pow`) and are generic in the ordered field
of values, so that they run on rationals and are read over the reals, with
`Real.log`, `Real.exp`, `Real.logb 10` and the real power, in the theorems.
The series returned by `fetchKlines` (the closes that parsed, or the transport
error) and the clock readings are explicit arguments. -/

namespace calculator

/-- Constant `ahr999Coefficient`. -/
def ahr999Coefficient {α : Type} [LinearOrderedField α] : α := 5.84

/-- Constant `ahr999Constant`. -/
def ahr999Constant {α : Type} [LinearOrderedField α] : α := -17.01

/-- Struct `AHR999Result`. -/
structure AHR999Result (α : Type) where
  AHR999 : α
  CurrentPrice : α
  DCA200Cost : α
  ExponentialValue : α
  CoinAgeDays : Int
  Timestamp : Int

/-- Function `calculateGeometricMean`: the loop adds `Log price` for the prices
above zero and the sum is divided by `len(prices)`. -/
def calculateGeometricMean {α : Type} [LinearOrderedField α] (Log Exp : α → α)
    (prices : List α) : α :=
  if prices.length = 0 then 0
  else
    let logSum : α :=
      prices.foldl (fun acc price => if price > 0 then acc + Log price else acc) 0
    Exp (logSum / (prices.length : α))

/-- Function `calculateExponentialValue`. -/
def calculateExponentialValue {α : Type} [LinearOrderedField α] (Log10 : α → α)
    (Pow : α → α → α) (coinAgeDays : Int) : α :=
  if coinAgeDays ≤ 0 then 0
  else
    let log10Days : α := Log10 (coinAgeDays : α)
    let exponent : α := ahr999Coefficient * log10Days + ahr999Constant
    Pow 10 exponent

/-- Method `Duration.Hours` of package `time`: the whole hours and the
remaining nanoseconds are converted to `float64` apart and added,
`float64(hour) + float64(nsec)/(60*60*1e9)`. -/
def Duration_Hours (d : Int) : Float64 :=
  let hour : Int := d.tdiv 3600000000000
  let nsec : Int := d.tmod 3600000000000
  Float64.ofInt hour + Float64.ofInt nsec / Float64.ofRat (60 * 60 * 1000000000)

/-- The expression `int(time.Since(genesisDate).Hours() / 24)`: the elapsed
hours as a `float64`, the float division by 24 and the truncation. -/
def coinAgeDaysOf (sinceGenesis : Int) : Int :=
  Float64.toInt (Duration_Hours sinceGenesis / 24)

/-- Method `AHR999Calculator.Calculate`. `fetched` is the outcome of
`c.fetchKlines(200)`, `sinceGenesis` the value of `time.Since(genesisDate)` in
nanoseconds and `now` the value of `time.Now()`. The index `len(prices)-1` is in
range on the path that reads it. -/
def AHR999Calculator.Calculate {α : Type} [LinearOrderedField α] (Log Exp Log10 : α → α)
    (Pow : α → α → α) (fetched : Except String (List α)) (sinceGenesis : Int) (now : Int) :
    Except String (AHR999Result α) :=
  match fetched with
  | Except.error err => Except.error ("获取K线数据失败: " ++ err)
  | Except.ok prices =>
    if prices.length < 200 then
      Except.error ("K线数据不足，需要200条，实际获取" ++ toString prices.length ++ "条")
    else
      let currentPrice : α := prices.getD (prices.length - 1) 0
      let dca200Cost : α := calculateGeometricMean Log Exp prices
      let coinAgeDays : Int := coinAgeDaysOf sinceGenesis
      let exponentialValue : α := calculateExponentialValue Log10 Pow coinAgeDays
      let ahr999 : α := (currentPrice / dca200Cost) * (currentPrice / exponentialValue)
      Except.ok
        { AHR999 := ahr999
          CurrentPrice := currentPrice
          DCA200Cost := dca200Cost
          ExponentialValue := exponentialValue
          CoinAgeDays := coinAgeDays
          Timestamp := now }

/-- Go `type MA730State int`. -/
abbrev MA730State := Int

def MA730Normal : MA730State := 0

def MA730Bottom : MA730State := 1

def MA730Top : MA730State := 2

/-- Struct `MA730Result`. -/
structure MA730Result where
  CurrentPrice : ℚ
  MA730 : ℚ
  MA730x5 : ℚ
  Multiplier : ℚ
  State : Int
  Timestamp : Int
  deriving DecidableEq, Repr

/-- Function `calculateSMA`. -/
def calculateSMA (prices : List ℚ) : ℚ :=
  if prices.length = 0 then 0
  else
    let sum : ℚ := prices.foldl (fun acc price => acc + price) 0
    sum / (prices.length : ℚ)

/-- Method `MA730Calculator.Calculate`. `fetched` is the outcome of
`c.fetchKlines(730)` and `now` the value of `time.Now()`. -/
def MA730Calculator.Calculate (fetched : Except String (List ℚ)) (now : Int) :
    Except String MA730Result :=
  match fetched with
  | Except.error err => Except.error ("获取K线数据失败: " ++ err)
  | Except.ok prices =>
    if prices.length < 730 then
      Except.error ("K线数据不足，需要730条，实际获取" ++ toString prices.length ++ "条")
    else
      let currentPrice : ℚ := prices.getD (prices.length - 1) 0
      let ma730 : ℚ := calculateSMA prices
      let ma730x5 : ℚ := ma730 * 5
      let multiplier : ℚ := currentPrice / ma730
      let state : MA730State :=
        if currentPrice < ma730 then MA730Bottom
        else if currentPrice > ma730x5 then MA730Top
        else MA730Normal
      Except.ok
        { CurrentPrice := currentPrice
          MA730 := ma730
          MA730x5 := ma730x5
          Multiplier := multiplier
          State := state
          Timestamp := now }

/-- Reference cost basis, written from the specification: the exponential of
the mean of `Log p` taken over the strictly positive prices only, the prices at
or below zero being left out of the sum and of the divisor count. -/
def specGeometricMean {α : Type} [LinearOrderedField α] (Log Exp : α → α)
    (prices : List α) : α :=
  Exp (((prices.filter (fun p => p > 0)).map Log).sum
    / ((prices.filter (fun p => p > 0)).length : α))

end calculator

/-! ## Package `fetcher`, the statistics of `FetchWithHistory`

A division by zero has no value among the rationals (the float code produces
not-a-number there), so `sqrt` and the statistics step return an `Option`. -/

namespace fetcher

/-- Struct `MVRVResult`. -/
structure MVRVResult where
  MVRV : ℚ
  ZScore : ℚ
  Timestamp : Int
  Source : String
  deriving DecidableEq, Repr

/-- The loop of `sqrt`: `n` more rounds of `z = z - (z*z-x)/(2*z)`; `none` as
soon as a round divides by zero. -/
def sqrtLoop (x : ℚ) : ℕ → ℚ → Option ℚ
  | 0, z => some z
  | n + 1, z => if 2 * z = 0 then none else sqrtLoop x n (z - (z * z - x) / (2 * z))

/-- Function `sqrt`: 0 for a negative operand, otherwise 100 Newton rounds
started at `x / 2`. -/
def sqrt (x : ℚ) : Option ℚ :=
  if x < 0 then some 0 else sqrtLoop x 100 (x / 2)

/-- The statistics step of `FetchWithHistory` on the parsed samples, most recent
first: current value, mean, sample variance with divisor `len - 1`, standard
deviation and Z-score. The caller has returned an error before this step when
no sample parsed, so the empty list is not reached. -/
def historyStatistics (mvrvValues : List ℚ) (dataTime : Int) : Option MVRVResult :=
  match mvrvValues with
  | [] => none
  | currentMVRV :: _ =>
    let sum : ℚ := mvrvValues.foldl (fun acc v => acc + v) 0
    let mean : ℚ := sum / (mvrvValues.length : ℚ)
    let varianceSum : ℚ := mvrvValues.foldl (fun acc v => acc + (v - mean) * (v - mean)) 0
    let stdOpt : Option ℚ :=
      if mvrvValues.length > 1 then
        let std : ℚ := varianceSum / ((mvrvValues.length - 1 : ℕ) : ℚ)
        if std > 0 then sqrt std else some std
      else some 0
    match stdOpt with
    | none => none
    | some std =>
      let zScore : ℚ := if std > 0 then (currentMVRV - mean) / std else 0
      some
        { MVRV := currentMVRV
          ZScore := zScore
          Timestamp := dataTime
          Source := "CoinMetrics Community API (" ++ toString mvrvValues.length ++ "天历史)" }

/-- Reference mean, written from the claim: the sum of the samples over their
number. -/
def specMean (xs : List ℚ) : ℚ :=
  xs.sum / (xs.length : ℚ)

/-- Reference unbiased sample variance, written from the claim: the sum of the
squared deviations from the mean over `N - 1`. -/
def specSampleVariance (xs : List ℚ) : ℚ :=
  (xs.map (fun v => (v - specMean xs) ^ 2)).sum / ((xs.length : ℚ) - 1)

/-- The value of `z` in `sqrt` after `n` rounds of the loop started at `z0`;
`none` once a round has divided by zero. -/
def sqrtIterate (x : ℚ) (z0 : ℚ) : ℕ → Option ℚ
  | 0 => some z0
  | n + 1 =>
    match sqrtIterate x z0 n with
    | none => none
    | some z => if 2 * z = 0 then none else some (z - (z * z - x) / (2 * z))

/-- One entry of `coinMetricsResponse.Data`. -/
structure DataRow where
  Asset : String
  Time : String
  CapMVRVCur : String
  deriving DecidableEq, Repr

/-- Method `MVRVFetcher.Fetch` from the decoded response on. `response` is the
outcome of the request and of the JSON decoding (the rows, or the error the
method returns at that point), `ParseFloat` is `strconv.ParseFloat(_, 64)` and
`ParseTime` the lenient `time.Parse` of the row time. -/
def Fetch (ParseFloat : String → Except String ℚ) (ParseTime : String → Int)
    (response : Except String (List DataRow)) : Except String MVRVResult :=
  match response with
  | Except.error err => Except.error err
  | Except.ok data =>
    match data with
    | [] => Except.error "API返回数据为空"
    | first :: _ =>
      match ParseFloat first.CapMVRVCur with
      | Except.error err => Except.error ("解析MVRV值失败: " ++ err)
      | Except.ok mvrv =>
        let historicalMean : ℚ := 1.5
        let historicalStd : ℚ := 1.2
        let zScore : ℚ := (mvrv - historicalMean) / historicalStd
        Except.ok
          { MVRV := mvrv
            ZScore := zScore
            Timestamp := ParseTime first.Time
            Source := "CoinMetrics Community API" }

/-- The collection loop of `FetchWithHistory`: the values that parse, in the
order of the rows; a row whose value does not parse is skipped. -/
def collectValues (ParseFloat : String → Except String ℚ) (data : List DataRow) : List ℚ :=
  data.filterMap (fun d =>
    match ParseFloat d.CapMVRVCur with
    | Except.ok v => some v
    | Except.error _ => none)

/-- Method `MVRVFetcher.FetchWithHistory` from the decoded response on, with
the arguments of `Fetch`. The result `Except.ok none` stands for a result with
an undefined number in it. -/
def FetchWithHistory (ParseFloat : String → Except String ℚ) (ParseTime : String → Int)
    (response : Except String (List DataRow)) : Except String (Option MVRVResult) :=
  match response with
  | Except.error err => Except.error err
  | Except.ok data =>
    match data with
    | [] => Except.error "API返回数据为空"
    | first :: _ =>
      let mvrvValues : List ℚ := collectValues ParseFloat data
      if mvrvValues.length = 0 then Except.error "无有效MVRV数据"
      else Except.ok (historyStatistics mvrvValues (ParseTime first.Time))

/-- Reference reading of "the Source labels the result as a fallback": the
Source says something that the Source of a history result does not say, that
is, it is not an initial part of the Source of a history result. -/
def specLabelsFallback (source : String) : Prop :=
  ¬ ∃ (n : ℕ) (rest : String),
      "CoinMetrics Community API (" ++ toString n ++ "天历史)" = source ++ rest

end fetcher

/-! ## Package `notifier`, the label functions of `formatter.go` -/

namespace notifier

/-- Function `getLeverageStatus`. -/
def getLeverageStatus (leverage : ℚ) : String :=
  if leverage > 1.5 then "❌ 危险"
  else if leverage > 1.2 then "⚠️ 警戒"
  else "✅ 安全"

/-- Function `getPiStatus`. -/
def getPiStatus (cross : Bool) : String :=
  if cross then "❌ 死叉" else "✅ 正常"

/-- Function `getAHR999Desc`. -/
def getAHR999Desc (ahr999 : ℚ) : String :=
  if ahr999 < 0.45 then "🟢 抄底区"
  else if ahr999 < 1.20 then "🔵 定投区"
  else if ahr999 < 5.00 then "🟡 持有区"
  else "🔴 逃顶区"

/-- Function `getETHPosition`. -/
def getETHPosition (state : model.EthRegressionState) : String :=
  if state = model.EthRegLower then "🟢 低估区"
  else if state = model.EthRegMiddle then "🟡 中间区"
  else if state = model.EthRegUpper then "🔴 高估区"
  else "❓ 未知"

/-- Function `getBTCAction`. -/
def getBTCAction (action : String) : String :=
  if action = model.ActionHalt then "🛑 熔断停止"
  else if action = model.ActionSellAlert then "🚨 逃顶警报"
  else if action = model.ActionStrongBuy then "💪 贪婪买入"
  else if action = model.ActionDCABuy then "📈 正常定投"
  else if action = model.ActionHold then "✋ 持有观望"
  else if action = model.ActionHoldCaution then "⚠️ 谨慎持有"
  else if action = model.ActionSell then "📉 逐步卖出"
  else action

/-- Function `getETHAction`. -/
def getETHAction (action : String) : String :=
  if action = model.ActionHalt then "🛑 熔断停止"
  else if action = model.ActionSellAlert then "🚨 逃顶警报"
  else if action = model.ActionETHBuyHeavy then "💪 重仓买入"
  else if action = model.ActionETHSellOrSwap then "🔄 卖出/换BTC"
  else if action = model.ActionETHFollowBTC then "👉 跟随BTC"
  else action

end notifier

/-! ## The engine and the dispersion estimator over `float64` and pointers

The definitions above read a `float64` as a finite number and a pointer as
the value behind it. The namespace `ieee` embeds the same source text once
more with what that reading leaves out: the fields are `Float64` values (so
not-a-number and the infinities are inputs, and every operation rounds), and
the snapshot pointer of `EvaluateV2` may be `nil`. -/

namespace ieee

namespace model

/-- Struct `MarketIndicators` with its `float64` fields. -/
structure MarketIndicators where
  CurrentPriceBTC : Float64
  CurrentPriceETH : Float64
  AHR999 : Float64
  MVRVZScore : Float64
  MaMultiplierState : Int
  PiCycleCross : Bool
  EthRegressionState : String
  AccountLeverage : Float64
  Timestamp : Int
  Source : String
  deriving DecidableEq, Repr

/-- Struct `TradeSignal` with its `float64` field. -/
structure TradeSignal where
  ActionBTC : String
  ActionETH : String
  AmountFactor : Float64
  WarningMsg : String
  ReportMarkdown : String
  IsHalted : Bool
  deriving DecidableEq, Repr

end model

namespace strategy

def MaxLeverage : Float64 := 1.5

def AHR999StrongBuy : Float64 := 0.45

def AHR999DCAUpper : Float64 := 1.20

def AHR999HoldUpper : Float64 := 5.00

def MVRVOverheat : Float64 := 6.0

/-- Function `getAHR999Description`. -/
def getAHR999Description (ahr999 : Float64) : String :=
  if ahr999 < AHR999StrongBuy then "🟢 抄底区"
  else if ahr999 < AHR999DCAUpper then "🔵 定投区"
  else if ahr999 < AHR999HoldUpper then "🟡 持有区"
  else "🔴 逃顶区"

/-- Function `generateReport`; `today` is the formatted current date. -/
def generateReport (today : String) (indicators : model.MarketIndicators)
    (signal : model.TradeSignal) : String :=
  let leverageStatus : String :=
    if indicators.AccountLeverage > MaxLeverage then "❌ 危险"
    else if indicators.AccountLeverage > 1.2 then "⚠️ 警戒"
    else "✅ 安全"
  let piStatus : String := if indicators.PiCycleCross then "❌ 死叉" else "✅ 正常"
  let maStatus : String :=
    CryptoSentinel.model.MaMultiplierState_String indicators.MaMultiplierState
  let ahr999Desc : String := getAHR999Description indicators.AHR999
  let ethPosDesc : String :=
    CryptoSentinel.strategy.getEthPositionDescription indicators.EthRegressionState
  let btcActionDesc : String :=
    CryptoSentinel.strategy.getBTCActionDescription signal.ActionBTC
  let ethActionDesc : String :=
    CryptoSentinel.strategy.getETHActionDescription signal.ActionETH
  let warningSection : String :=
    if signal.WarningMsg ≠ "" then "\n⚠️ **警告**: " ++ signal.WarningMsg ++ "\n" else ""
  "🛡️ **CryptoSentinel 周报** [" ++ today ++ "]\n"
    ++ warningSection ++ "\n"
    ++ "**1. 风控检查**\n"
    ++ "- 杠杆率: " ++ Float64.format 2 indicators.AccountLeverage
    ++ "x (" ++ leverageStatus ++ ")\n"
    ++ "- 逃顶信号: Pi周期[" ++ piStatus ++ "] / MA状态[" ++ maStatus ++ "]\n"
    ++ "\n"
    ++ "**2. 核心指标**\n"
    ++ "- 📏 AHR999: " ++ Float64.format 4 indicators.AHR999 ++ " -> " ++ ahr999Desc ++ "\n"
    ++ "- 🌡️ MVRV-Z: " ++ Float64.format 2 indicators.MVRVZScore ++ "\n"
    ++ "- 💎 ETH位置: " ++ ethPosDesc ++ "\n"
    ++ "\n"
    ++ "**3. 执行建议**\n"
    ++ "- 🚀 **BTC 操作**: " ++ btcActionDesc ++ "\n"
    ++ "- 💰 **倍率**: " ++ Float64.format 1 signal.AmountFactor ++ "x\n"
    ++ "- Ξ **ETH 操作**: " ++ ethActionDesc ++ "\n"
    ++ "\n"
    ++ "_\"看着资产像树苗一样慢慢长高，本身就是一件枯燥的事情。\"_"

/-- The BTC base rule of `EvaluateV2` (second step): the signal after the
AHR999 zone has been applied, and the flag `btcAllowBuy`. -/
def btcBaseStep (indicators : model.MarketIndicators) (signal : model.TradeSignal) :
    model.TradeSignal × Bool :=
  if indicators.AHR999 < AHR999StrongBuy then
    ({ signal with ActionBTC := CryptoSentinel.model.ActionStrongBuy, AmountFactor := 1.5 },
      true)
  else if indicators.AHR999 ≥ AHR999StrongBuy ∧ indicators.AHR999 < AHR999DCAUpper then
    ({ signal with ActionBTC := CryptoSentinel.model.ActionDCABuy, AmountFactor := 1.0 },
      true)
  else if indicators.AHR999 ≥ AHR999DCAUpper ∧ indicators.AHR999 < AHR999HoldUpper then
    ({ signal with ActionBTC := CryptoSentinel.model.ActionHold, AmountFactor := 0 }, false)
  else
    ({ signal with ActionBTC := CryptoSentinel.model.ActionSell, AmountFactor := 0 }, false)

/-- The MVRV check of `EvaluateV2` (third step). -/
def mvrvStep (indicators : model.MarketIndicators) (st : model.TradeSignal × Bool) :
    model.TradeSignal × Bool :=
  if st.2 = true ∧ indicators.MVRVZScore > MVRVOverheat then
    ({ st.1 with
        ActionBTC := CryptoSentinel.model.ActionHoldCaution
        AmountFactor := 0
        WarningMsg := "⚠️ MVRV-Z Score (" ++ Float64.format 2 indicators.MVRVZScore
          ++ ") 极度过热，暂停买入！" }, false)
  else st

/-- The ETH rule of `EvaluateV2` (fourth step), a switch on the band string. -/
def ethStep (indicators : model.MarketIndicators) (st : model.TradeSignal × Bool) :
    model.TradeSignal :=
  if indicators.EthRegressionState = CryptoSentinel.model.EthRegLower then
    if st.2 = true then { st.1 with ActionETH := CryptoSentinel.model.ActionETHBuyHeavy }
    else { st.1 with ActionETH := CryptoSentinel.model.ActionETHFollowBTC }
  else if indicators.EthRegressionState = CryptoSentinel.model.EthRegUpper then
    { st.1 with ActionETH := CryptoSentinel.model.ActionETHSellOrSwap }
  else
    { st.1 with ActionETH := CryptoSentinel.model.ActionETHFollowBTC }

/-- The signal `EvaluateV2` starts from (its first statement). -/
def initialSignal : model.TradeSignal :=
  { ActionBTC := CryptoSentinel.model.ActionHold
    ActionETH := CryptoSentinel.model.ActionETHFollowBTC
    AmountFactor := 0
    WarningMsg := ""
    ReportMarkdown := ""
    IsHalted := false }

/-- The run-time panic of Go on reading a field through a `nil` pointer. -/
def nilDereference : String :=
  "runtime error: invalid memory address or nil pointer dereference"

/-- Function `EvaluateV2` on its pointer argument: `none` is the `nil` pointer,
whose first field read (`indicators.AccountLeverage`) panics; on a snapshot the
function runs the leverage breaker, the top-signal breaker, the BTC zone, the
MVRV check, the ETH rule and the report. -/
def EvaluateV2 (today : String) (indicators : Option model.MarketIndicators) :
    Except String model.TradeSignal :=
  let signal : model.TradeSignal := initialSignal
  match indicators with
  | none => Except.error nilDereference
  | some indicators =>
    if indicators.AccountLeverage > MaxLeverage then
      let signal : model.TradeSignal :=
        { signal with
            ActionBTC := CryptoSentinel.model.ActionHalt
            ActionETH := CryptoSentinel.model.ActionHalt
            WarningMsg := "⚠️ 杠杆过高(" ++ Float64.format 2 indicators.AccountLeverage
              ++ "x > " ++ Float64.format 1 MaxLeverage ++ "x)！停止买入，请补充保证金！"
            IsHalted := true }
      Except.ok { signal with ReportMarkdown := generateReport today indicators signal }
    else if indicators.PiCycleCross = true
        ∨ indicators.MaMultiplierState = CryptoSentinel.model.MaStateBullTop then
      let signal : model.TradeSignal :=
        { signal with
            ActionBTC := CryptoSentinel.model.ActionSellAlert
            ActionETH := CryptoSentinel.model.ActionSellAlert
            WarningMsg := "🚨 逃顶信号触发！Pi周期死叉或突破两年红线！禁止买入！"
            IsHalted := true }
      Except.ok { signal with ReportMarkdown := generateReport today indicators signal }
    else
      let signal : model.TradeSignal :=
        ethStep indicators (mvrvStep indicators (btcBaseStep indicators signal))
      Except.ok { signal with ReportMarkdown := generateReport today indicators signal }

/-- Reference ETH sub-strategy, written from the claim and read on `float64`
values: heavy buy on the lower band while buying is still allowed (AHR999 below
1.20 and MVRV-Z at most 6.0), sell-or-swap on the upper band, follow BTC
otherwise. -/
def specEthSubStrategy (indicators : model.MarketIndicators) : String :=
  if indicators.EthRegressionState = CryptoSentinel.model.EthRegLower ∧
      (indicators.AHR999 < 1.20 ∧ indicators.MVRVZScore ≤ 6.0) then
    CryptoSentinel.model.ActionETHBuyHeavy
  else if indicators.EthRegressionState = CryptoSentinel.model.EthRegUpper then
    CryptoSentinel.model.ActionETHSellOrSwap
  else CryptoSentinel.model.ActionETHFollowBTC

/-- Reference ETH sub-strategy of the amended claim: as `specEthSubStrategy`,
with "MVRV-Z at most 6.0" replaced by "MVRV-Z not above 6.0", which also holds
of not-a-number. -/
def specEthSubStrategyNotAbove (indicators : model.MarketIndicators) : String :=
  if indicators.EthRegressionState = CryptoSentinel.model.EthRegLower ∧
      (indicators.AHR999 < 1.20 ∧ ¬ indicators.MVRVZScore > 6.0) then
    CryptoSentinel.model.ActionETHBuyHeavy
  else if indicators.EthRegressionState = CryptoSentinel.model.EthRegUpper then
    CryptoSentinel.model.ActionETHSellOrSwap
  else CryptoSentinel.model.ActionETHFollowBTC

/-- Helper `newTestIndicators` of `strategy_v2_test.go`; the timestamp, which the
engine never reads, is fixed. -/
def newTestIndicators : model.MarketIndicators :=
  { CurrentPriceBTC := 95000
    CurrentPriceETH := 3500
    AHR999 := 0.70
    MVRVZScore := 2.5
    MaMultiplierState := CryptoSentinel.model.MaStateNormal
    PiCycleCross := false
    EthRegressionState := CryptoSentinel.model.EthRegMiddle
    AccountLeverage := 1.0
    Timestamp := 0
    Source := "" }

/-- The zero value of `MarketIndicators`: a default-filled snapshot. -/
def zeroIndicators : model.MarketIndicators :=
  { CurrentPriceBTC := 0
    CurrentPriceETH := 0
    AHR999 := 0
    MVRVZScore := 0
    MaMultiplierState := 0
    PiCycleCross := false
    EthRegressionState := ""
    AccountLeverage := 0
    Timestamp := 0
    Source := "" }

/-- A snapshot whose `float64` fields are all not-a-number. -/
def nanIndicators : model.MarketIndicators :=
  { CurrentPriceBTC := Float64.nan
    CurrentPriceETH := Float64.nan
    AHR999 := Float64.nan
    MVRVZScore := Float64.nan
    MaMultiplierState := 0
    PiCycleCross := false
    EthRegressionState := CryptoSentinel.model.EthRegLower
    AccountLeverage := Float64.nan
    Timestamp := 0
    Source := "" }

/-- The test snapshot in the bottom-fishing zone on the lower band, with a
not-a-number MVRV-Z. -/
def nanScoreIndicators : model.MarketIndicators :=
  { newTestIndicators with
      AHR999 := 0.30
      MVRVZScore := Float64.nan
      EthRegressionState := CryptoSentinel.model.EthRegLower }

end strategy

namespace fetcher

/-- Struct `MVRVResult` with its `float64` fields. -/
structure MVRVResult where
  MVRV : Float64
  ZScore : Float64
  Timestamp : Int
  Source : String
  deriving DecidableEq, Repr

/-- The loop of `sqrt`: `n` more rounds of `z = z - (z*z-x)/(2*z)`. -/
def sqrtLoop (x : Float64) : ℕ → Float64 → Float64
  | 0, z => z
  | n + 1, z => sqrtLoop x n (z - (z * z - x) / (2 * z))

/-- Function `sqrt`: 0 for a negative operand, otherwise 100 Newton rounds
started at `x / 2`. -/
def sqrt (x : Float64) : Float64 :=
  if x < 0 then 0 else sqrtLoop x 100 (x / 2)

/-- The local `mean` of `FetchWithHistory`. -/
def historyMean (mvrvValues : List Float64) : Float64 :=
  let sum : Float64 := mvrvValues.foldl (fun acc v => acc + v) 0
  sum / Float64.ofInt (mvrvValues.length : Int)

/-- The local `std` of `FetchWithHistory` once its block has run: 0 for a
single sample, otherwise the sample variance with divisor `len - 1`, replaced
by its Newton root when it is above zero. -/
def historyStd (mvrvValues : List Float64) : Float64 :=
  let mean : Float64 := historyMean mvrvValues
  let varianceSum : Float64 :=
    mvrvValues.foldl (fun acc v => acc + (v - mean) * (v - mean)) 0
  if mvrvValues.length > 1 then
    let std : Float64 := varianceSum / Float64.ofInt ((mvrvValues.length : Int) - 1)
    if std > 0 then sqrt std else std
  else 0

/-- The statistics step of `FetchWithHistory` on the parsed samples, most recent
first. The caller has returned an error before this step when no sample parsed,
so the empty list is not reached. -/
def historyStatistics (mvrvValues : List Float64) (dataTime : Int) : Option MVRVResult :=
  match mvrvValues with
  | [] => none
  | currentMVRV :: _ =>
    let mean : Float64 := historyMean mvrvValues
    let std : Float64 := historyStd mvrvValues
    let zScore : Float64 := if std > 0 then (currentMVRV - mean) / std else 0
    some
      { MVRV := currentMVRV
        ZScore := zScore
        Timestamp := dataTime
        Source := "CoinMetrics Community API (" ++ toString mvrvValues.length ++ "天历史)" }

end fetcher

end ieee

namespace strategy

/-- The local `leverageStatus` of `generateReport`. -/
def reportLeverageStatus (indicators : model.MarketIndicators) : String :=
  if indicators.AccountLeverage > MaxLeverage then "❌ 危险"
  else if indicators.AccountLeverage > 1.2 then "⚠️ 警戒"
  else "✅ 安全"

/-- Go `strings.Contains`, as the test suite applies it to the report: the
characters of `substr` occur consecutively in `s`. -/
def strings_Contains (s substr : String) : Prop :=
  substr.data <:+: s.data

/-- The containment test is decidable. -/
instance strings_Contains_decidable (s substr : String) :
    Decidable (strings_Contains s substr) :=
  List.decidableInfix substr.data s.data

/-! ## Auxiliary facts -/

/-- A concatenation whose left part is non-empty is non-empty. -/
theorem append_ne_empty (a b : String) (h : a.length ≠ 0) : a ++ b ≠ "" := by
  intro h2
  have h3 := congrArg String.length h2
  simp at h3
  exact h h3.1

/-- The leverage breaker test fails exactly when the leverage is at most 1.5. -/
theorem not_leverage_breaker {indicators : model.MarketIndicators}
    (hlev : indicators.AccountLeverage ≤ 1.5) :
    ¬ indicators.AccountLeverage > MaxLeverage := by
  unfold MaxLeverage
  exact not_lt.mpr hlev

/-- The top-signal test fails when there is no Pi cross and no bull-top state. -/
theorem not_top_signal {indicators : model.MarketIndicators}
    (hpi : indicators.PiCycleCross = false)
    (hma : indicators.MaMultiplierState ≠ model.MaStateBullTop) :
    ¬ (indicators.PiCycleCross = true ∨
        indicators.MaMultiplierState = model.MaStateBullTop) := by
  simp [hpi, hma]

/-- When no breaker fires, `EvaluateV2` is the three steps followed by the report. -/
theorem EvaluateV2_normal_path (today : String) (indicators : model.MarketIndicators)
    (hlev : indicators.AccountLeverage ≤ 1.5)
    (hpi : indicators.PiCycleCross = false)
    (hma : indicators.MaMultiplierState ≠ model.MaStateBullTop) :
    EvaluateV2 today indicators =
      { ethStep indicators (mvrvStep indicators (btcBaseStep indicators initialSignal)) with
        ReportMarkdown := generateReport today indicators
          (ethStep indicators (mvrvStep indicators (btcBaseStep indicators initialSignal))) } := by
  simp only [EvaluateV2, if_neg (not_leverage_breaker hlev), if_neg (not_top_signal hpi hma)]

/-- Base step, zone below 0.45. -/
theorem btcBaseStep_strong_buy (indicators : model.MarketIndicators) (signal : model.TradeSignal)
    (h : indicators.AHR999 < 0.45) :
    btcBaseStep indicators signal =
      ({ signal with ActionBTC := model.ActionStrongBuy, AmountFactor := 1.5 }, true) := by
  have h1 : indicators.AHR999 < AHR999StrongBuy := by
    unfold AHR999StrongBuy
    exact h
  simp only [btcBaseStep, if_pos h1]

/-- Base step, zone from 0.45 up to 1.20. -/
theorem btcBaseStep_dca_buy (indicators : model.MarketIndicators) (signal : model.TradeSignal)
    (h : 0.45 ≤ indicators.AHR999) (h2 : indicators.AHR999 < 1.20) :
    btcBaseStep indicators signal =
      ({ signal with ActionBTC := model.ActionDCABuy, AmountFactor := 1.0 }, true) := by
  have h1 : ¬ indicators.AHR999 < AHR999StrongBuy := by
    unfold AHR999StrongBuy
    exact not_lt.mpr h
  have h3 : indicators.AHR999 ≥ AHR999StrongBuy ∧ indicators.AHR999 < AHR999DCAUpper := by
    unfold AHR999StrongBuy AHR999DCAUpper
    exact ⟨h, h2⟩
  simp only [btcBaseStep, if_neg h1, if_pos h3]

/-- Base step, zone from 1.20 up to 5.00. -/
theorem btcBaseStep_hold (indicators : model.MarketIndicators) (signal : model.TradeSignal)
    (h : 1.20 ≤ indicators.AHR999) (h2 : indicators.AHR999 < 5.00) :
    btcBaseStep indicators signal =
      ({ signal with ActionBTC := model.ActionHold, AmountFactor := 0 }, false) := by
  have h1 : ¬ indicators.AHR999 < AHR999StrongBuy := by
    unfold AHR999StrongBuy
    apply not_lt.mpr
    linarith
  have h3 : ¬ (indicators.AHR999 ≥ AHR999StrongBuy ∧ indicators.AHR999 < AHR999DCAUpper) := by
    unfold AHR999StrongBuy AHR999DCAUpper
    intro h4
    linarith [h4.2]
  have h5 : indicators.AHR999 ≥ AHR999DCAUpper ∧ indicators.AHR999 < AHR999HoldUpper := by
    unfold AHR999DCAUpper AHR999HoldUpper
    exact ⟨h, h2⟩
  simp only [btcBaseStep, if_neg h1, if_neg h3, if_pos h5]

/-- Base step, zone from 5.00 on. -/
theorem btcBaseStep_sell (indicators : model.MarketIndicators) (signal : model.TradeSignal)
    (h : 5.00 ≤ indicators.AHR999) :
    btcBaseStep indicators signal =
      ({ signal with ActionBTC := model.ActionSell, AmountFactor := 0 }, false) := by
  have h1 : ¬ indicators.AHR999 < AHR999StrongBuy := by
    unfold AHR999StrongBuy
    apply not_lt.mpr
    linarith
  have h3 : ¬ (indicators.AHR999 ≥ AHR999StrongBuy ∧ indicators.AHR999 < AHR999DCAUpper) := by
    unfold AHR999StrongBuy AHR999DCAUpper
    intro h4
    linarith [h4.2]
  have h5 : ¬ (indicators.AHR999 ≥ AHR999DCAUpper ∧ indicators.AHR999 < AHR999HoldUpper) := by
    unfold AHR999DCAUpper AHR999HoldUpper
    intro h4
    linarith [h4.2]
  simp only [btcBaseStep, if_neg h1, if_neg h3, if_neg h5]

/-- The flag returned by the base step is set exactly in the two buy zones. -/
theorem btcBaseStep_flag (indicators : model.MarketIndicators) (signal : model.TradeSignal) :
    (btcBaseStep indicators signal).2 = true ↔ indicators.AHR999 < 1.20 := by
  rcases lt_or_le indicators.AHR999 0.45 with h | h
  · rw [btcBaseStep_strong_buy _ _ h]
    constructor
    · intro _
      linarith
    · intro _
      rfl
  · rcases lt_or_le indicators.AHR999 1.20 with h2 | h2
    · rw [btcBaseStep_dca_buy _ _ h h2]
      exact ⟨fun _ => h2, fun _ => rfl⟩
    · rcases lt_or_le indicators.AHR999 5.00 with h3 | h3
      · rw [btcBaseStep_hold _ _ h2 h3]
        constructor
        · intro h4
          cases h4
        · intro h4
          linarith
      · rw [btcBaseStep_sell _ _ h3]
        constructor
        · intro h4
          cases h4
        · intro h4
          linarith

/-- The MVRV step leaves the state alone unless buying is allowed and MVRV-Z
is above 6.0. -/
theorem mvrvStep_keep (indicators : model.MarketIndicators) (st : model.TradeSignal × Bool)
    (h : st.2 = false ∨ indicators.MVRVZScore ≤ 6.0) :
    mvrvStep indicators st = st := by
  have h1 : ¬ (st.2 = true ∧ indicators.MVRVZScore > MVRVOverheat) := by
    unfold MVRVOverheat
    rintro ⟨h2, h3⟩
    rcases h with h | h
    · rw [h] at h2
      cases h2
    · exact absurd h3 (not_lt.mpr h)
  simp only [mvrvStep, if_neg h1]

/-- The MVRV step overrides a buy when MVRV-Z is above 6.0. -/
theorem mvrvStep_override (indicators : model.MarketIndicators) (st : model.TradeSignal × Bool)
    (h : st.2 = true) (h2 : indicators.MVRVZScore > 6.0) :
    mvrvStep indicators st =
      ({ st.1 with
          ActionBTC := model.ActionHoldCaution
          AmountFactor := 0
          WarningMsg := "⚠️ MVRV-Z Score (" ++ formatFixed 2 indicators.MVRVZScore
            ++ ") 极度过热，暂停买入！" }, false) := by
  have h1 : st.2 = true ∧ indicators.MVRVZScore > MVRVOverheat := by
    unfold MVRVOverheat
    exact ⟨h, h2⟩
  simp only [mvrvStep, if_pos h1]

/-- The ETH step only writes `ActionETH`. -/
theorem ethStep_other_fields (indicators : model.MarketIndicators)
    (st : model.TradeSignal × Bool) :
    (ethStep indicators st).ActionBTC = st.1.ActionBTC ∧
    (ethStep indicators st).AmountFactor = st.1.AmountFactor ∧
    (ethStep indicators st).WarningMsg = st.1.WarningMsg ∧
    (ethStep indicators st).IsHalted = st.1.IsHalted := by
  unfold ethStep
  split_ifs <;> exact ⟨rfl, rfl, rfl, rfl⟩

/-- When no breaker fires, the BTC fields of the result are those left by the
MVRV step. -/
theorem EvaluateV2_normal_fields (today : String) (indicators : model.MarketIndicators)
    (hlev : indicators.AccountLeverage ≤ 1.5)
    (hpi : indicators.PiCycleCross = false)
    (hma : indicators.MaMultiplierState ≠ model.MaStateBullTop) :
    (EvaluateV2 today indicators).ActionBTC =
      (mvrvStep indicators (btcBaseStep indicators initialSignal)).1.ActionBTC ∧
    (EvaluateV2 today indicators).AmountFactor =
      (mvrvStep indicators (btcBaseStep indicators initialSignal)).1.AmountFactor ∧
    (EvaluateV2 today indicators).WarningMsg =
      (mvrvStep indicators (btcBaseStep indicators initialSignal)).1.WarningMsg ∧
    (EvaluateV2 today indicators).IsHalted =
      (mvrvStep indicators (btcBaseStep indicators initialSignal)).1.IsHalted ∧
    (EvaluateV2 today indicators).ActionETH =
      (ethStep indicators (mvrvStep indicators (btcBaseStep indicators initialSignal))).ActionETH := by
  rw [EvaluateV2_normal_path today indicators hlev hpi hma]
  have h := ethStep_other_fields indicators
    (mvrvStep indicators (btcBaseStep indicators initialSignal))
  exact ⟨h.1, h.2.1, h.2.2.1, h.2.2.2, rfl⟩

/-- After the MVRV step the flag is set exactly when AHR999 is below 1.20 and
MVRV-Z is at most 6.0. -/
theorem mvrvStep_flag (indicators : model.MarketIndicators) (signal : model.TradeSignal) :
    (mvrvStep indicators (btcBaseStep indicators signal)).2 = true ↔
      (indicators.AHR999 < 1.20 ∧ indicators.MVRVZScore ≤ 6.0) := by
  rcases le_or_lt indicators.MVRVZScore 6.0 with h | h
  · rw [mvrvStep_keep _ _ (Or.inr h), btcBaseStep_flag]
    exact ⟨fun h2 => ⟨h2, h⟩, fun h2 => h2.1⟩
  · cases hflag : (btcBaseStep indicators signal).2
    · rw [mvrvStep_keep _ _ (Or.inl hflag), hflag]
      constructor
      · intro h2
        cases h2
      · intro h2
        exact absurd h (not_lt.mpr h2.2)
    · rw [mvrvStep_override _ _ hflag h]
      constructor
      · intro h2
        cases h2
      · intro h2
        exact absurd h (not_lt.mpr h2.2)

/-- The action written by the ETH step. -/
theorem ethStep_action (indicators : model.MarketIndicators) (st : model.TradeSignal × Bool) :
    (ethStep indicators st).ActionETH =
      if indicators.EthRegressionState = model.EthRegLower then
        (if st.2 = true then model.ActionETHBuyHeavy else model.ActionETHFollowBTC)
      else if indicators.EthRegressionState = model.EthRegUpper then model.ActionETHSellOrSwap
      else model.ActionETHFollowBTC := by
  unfold ethStep
  split_ifs <;> rfl

/-- Outcome table of the normal path: when no breaker fires the BTC action,
the amount factor and the warning are one of five rows. -/
theorem EvaluateV2_normal_cases (today : String) (indicators : model.MarketIndicators)
    (hlev : indicators.AccountLeverage ≤ 1.5)
    (hpi : indicators.PiCycleCross = false)
    (hma : indicators.MaMultiplierState ≠ model.MaStateBullTop) :
    (EvaluateV2 today indicators).IsHalted = false ∧
    ((indicators.AHR999 < 1.20 ∧ indicators.MVRVZScore > 6.0 ∧
        (EvaluateV2 today indicators).ActionBTC = model.ActionHoldCaution ∧
        (EvaluateV2 today indicators).AmountFactor = 0 ∧
        (EvaluateV2 today indicators).WarningMsg =
          "⚠️ MVRV-Z Score (" ++ formatFixed 2 indicators.MVRVZScore
            ++ ") 极度过热，暂停买入！") ∨
      (indicators.AHR999 < 0.45 ∧ indicators.MVRVZScore ≤ 6.0 ∧
        (EvaluateV2 today indicators).ActionBTC = model.ActionStrongBuy ∧
        (EvaluateV2 today indicators).AmountFactor = 1.5 ∧
        (EvaluateV2 today indicators).WarningMsg = "") ∨
      (0.45 ≤ indicators.AHR999 ∧ indicators.AHR999 < 1.20 ∧ indicators.MVRVZScore ≤ 6.0 ∧
        (EvaluateV2 today indicators).ActionBTC = model.ActionDCABuy ∧
        (EvaluateV2 today indicators).AmountFactor = 1.0 ∧
        (EvaluateV2 today indicators).WarningMsg = "") ∨
      (1.20 ≤ indicators.AHR999 ∧ indicators.AHR999 < 5.00 ∧
        (EvaluateV2 today indicators).ActionBTC = model.ActionHold ∧
        (EvaluateV2 today indicators).AmountFactor = 0 ∧
        (EvaluateV2 today indicators).WarningMsg = "") ∨
      (5.00 ≤ indicators.AHR999 ∧
        (EvaluateV2 today indicators).ActionBTC = model.ActionSell ∧
        (EvaluateV2 today indicators).AmountFactor = 0 ∧
        (EvaluateV2 today indicators).WarningMsg = "")) := by
  obtain ⟨hb, hf, hw, hh, -⟩ := EvaluateV2_normal_fields today indicators hlev hpi hma
  rcases lt_or_le indicators.AHR999 1.20 with hz | hz
  · have hflag := (btcBaseStep_flag indicators initialSignal).mpr hz
    rcases le_or_lt indicators.MVRVZScore 6.0 with hm | hm
    · rw [mvrvStep_keep _ _ (Or.inr hm)] at hb hf hw hh
      rcases lt_or_le indicators.AHR999 0.45 with ha | ha
      · rw [btcBaseStep_strong_buy _ _ ha] at hb hf hw hh
        exact ⟨hh, Or.inr (Or.inl ⟨ha, hm, hb, hf, hw⟩)⟩
      · rw [btcBaseStep_dca_buy _ _ ha hz] at hb hf hw hh
        exact ⟨hh, Or.inr (Or.inr (Or.inl ⟨ha, hz, hm, hb, hf, hw⟩))⟩
    · rw [mvrvStep_override _ _ hflag hm] at hb hf hw hh
      refine ⟨?_, Or.inl ⟨hz, hm, hb, hf, hw⟩⟩
      rw [hh]
      rcases lt_or_le indicators.AHR999 0.45 with ha | ha
      · rw [btcBaseStep_strong_buy _ _ ha]
        rfl
      · rw [btcBaseStep_dca_buy _ _ ha hz]
        rfl
  · have hflag : (btcBaseStep indicators initialSignal).2 = false := by
      cases hfl : (btcBaseStep indicators initialSignal).2
      · rfl
      · have := (btcBaseStep_flag indicators initialSignal).mp hfl
        linarith
    rw [mvrvStep_keep _ _ (Or.inl hflag)] at hb hf hw hh
    rcases lt_or_le indicators.AHR999 5.00 with ha | ha
    · rw [btcBaseStep_hold _ _ hz ha] at hb hf hw hh
      exact ⟨hh, Or.inr (Or.inr (Or.inr (Or.inl ⟨hz, ha, hb, hf, hw⟩)))⟩
    · rw [btcBaseStep_sell _ _ ha] at hb hf hw hh
      exact ⟨hh, Or.inr (Or.inr (Or.inr (Or.inr ⟨ha, hb, hf, hw⟩)))⟩

/-- Outcome of the leverage breaker. -/
theorem EvaluateV2_leverage_path (today : String) (indicators : model.MarketIndicators)
    (h : indicators.AccountLeverage > 1.5) :
    (EvaluateV2 today indicators).ActionBTC = model.ActionHalt ∧
    (EvaluateV2 today indicators).ActionETH = model.ActionHalt ∧
    (EvaluateV2 today indicators).AmountFactor = 0 ∧
    (EvaluateV2 today indicators).IsHalted = true ∧
    (EvaluateV2 today indicators).WarningMsg =
      "⚠️ 杠杆过高(" ++ formatFixed 2 indicators.AccountLeverage ++ "x > "
        ++ formatFixed 1 MaxLeverage ++ "x)！停止买入，请补充保证金！" := by
  have h1 : indicators.AccountLeverage > MaxLeverage := by
    unfold MaxLeverage
    exact h
  simp [EvaluateV2, initialSignal, h1]

/-- Outcome of the top-signal breaker. -/
theorem EvaluateV2_top_path (today : String) (indicators : model.MarketIndicators)
    (hlev : indicators.AccountLeverage ≤ 1.5)
    (htop : indicators.PiCycleCross = true ∨
      indicators.MaMultiplierState = model.MaStateBullTop) :
    (EvaluateV2 today indicators).ActionBTC = model.ActionSellAlert ∧
    (EvaluateV2 today indicators).ActionETH = model.ActionSellAlert ∧
    (EvaluateV2 today indicators).AmountFactor = 0 ∧
    (EvaluateV2 today indicators).IsHalted = true ∧
    (EvaluateV2 today indicators).WarningMsg =
      "🚨 逃顶信号触发！Pi周期死叉或突破两年红线！禁止买入！" := by
  simp [EvaluateV2, initialSignal, not_leverage_breaker hlev, htop]

/-- Every snapshot takes exactly one of the three paths of `EvaluateV2`. -/
theorem path_cases (indicators : model.MarketIndicators) :
    indicators.AccountLeverage > 1.5 ∨
    (indicators.AccountLeverage ≤ 1.5 ∧
      (indicators.PiCycleCross = true ∨
        indicators.MaMultiplierState = model.MaStateBullTop)) ∨
    (indicators.AccountLeverage ≤ 1.5 ∧ indicators.PiCycleCross = false ∧
      indicators.MaMultiplierState ≠ model.MaStateBullTop) := by
  rcases lt_or_le (1.5 : ℚ) indicators.AccountLeverage with h | h
  · exact Or.inl h
  · right
    cases hpi : indicators.PiCycleCross
    · by_cases hma : indicators.MaMultiplierState = model.MaStateBullTop
      · exact Or.inl ⟨h, Or.inr hma⟩
      · exact Or.inr ⟨h, rfl, hma⟩
    · exact Or.inl ⟨h, Or.inl rfl⟩

/-! ## The circuit breakers of `EvaluateV2` -/

/-- C1. Whenever the account leverage exceeds 1.5, `EvaluateV2` answers
HALT for both assets with amount factor 0 and the halted flag set, whatever
the other fields of the snapshot are (top signals included). -/
theorem EvaluateV2_leverage_breaker (today : String) (indicators : model.MarketIndicators)
    (h : indicators.AccountLeverage > 1.5) :
    (EvaluateV2 today indicators).ActionBTC = model.ActionHalt ∧
    (EvaluateV2 today indicators).ActionETH = model.ActionHalt ∧
    (EvaluateV2 today indicators).AmountFactor = 0 ∧
    (EvaluateV2 today indicators).IsHalted = true := by
  have h1 : indicators.AccountLeverage > MaxLeverage := by
    unfold MaxLeverage
    exact h
  simp [EvaluateV2, initialSignal, h1]

/-- Witness for C1: leverage 2.0 on a snapshot that would otherwise be a strong
buy and that also carries both top signals. -/
theorem EvaluateV2_leverage_breaker_witness :
    (2.0 : ℚ) > 1.5 ∧
    (EvaluateV2 "2026-11-01"
      { newTestIndicators with
          AccountLeverage := 2.0, AHR999 := 0.30, PiCycleCross := true,
          MaMultiplierState := model.MaStateBullTop }).ActionBTC = model.ActionHalt ∧
    (EvaluateV2 "2026-11-01"
      { newTestIndicators with
          AccountLeverage := 2.0, AHR999 := 0.30, PiCycleCross := true,
          MaMultiplierState := model.MaStateBullTop }).ActionETH = model.ActionHalt ∧
    (EvaluateV2 "2026-11-01"
      { newTestIndicators with
          AccountLeverage := 2.0, AHR999 := 0.30, PiCycleCross := true,
          MaMultiplierState := model.MaStateBullTop }).AmountFactor = 0 ∧
    (EvaluateV2 "2026-11-01"
      { newTestIndicators with
          AccountLeverage := 2.0, AHR999 := 0.30, PiCycleCross := true,
          MaMultiplierState := model.MaStateBullTop }).IsHalted = true :=
  ⟨by norm_num, EvaluateV2_leverage_breaker _ _ (by norm_num)⟩

/-- C2. With leverage at most 1.5, a Pi-cycle cross or the bull-top state of the
two-year MA multiplier makes `EvaluateV2` answer SELL_ALERT for both assets with
the halted flag set, whatever AHR999, MVRV-Z and the ETH band are. -/
theorem EvaluateV2_top_signal_breaker (today : String) (indicators : model.MarketIndicators)
    (hlev : indicators.AccountLeverage ≤ 1.5)
    (htop : indicators.PiCycleCross = true ∨
      indicators.MaMultiplierState = model.MaStateBullTop) :
    (EvaluateV2 today indicators).ActionBTC = model.ActionSellAlert ∧
    (EvaluateV2 today indicators).ActionETH = model.ActionSellAlert ∧
    (EvaluateV2 today indicators).IsHalted = true := by
  have h1 := not_leverage_breaker hlev
  simp [EvaluateV2, initialSignal, h1, htop]

/-- Witness for C2: the bull-top state at leverage exactly 1.5, in the strong-buy
zone, overheated, ETH on the lower band. -/
theorem EvaluateV2_top_signal_breaker_witness :
    (1.5 : ℚ) ≤ 1.5 ∧
    (EvaluateV2 "2026-11-01"
      { newTestIndicators with
          AccountLeverage := 1.5, AHR999 := 0.30, MVRVZScore := 7.0,
          EthRegressionState := model.EthRegLower,
          MaMultiplierState := model.MaStateBullTop }).ActionBTC = model.ActionSellAlert ∧
    (EvaluateV2 "2026-11-01"
      { newTestIndicators with
          AccountLeverage := 1.5, AHR999 := 0.30, MVRVZScore := 7.0,
          EthRegressionState := model.EthRegLower,
          MaMultiplierState := model.MaStateBullTop }).ActionETH = model.ActionSellAlert ∧
    (EvaluateV2 "2026-11-01"
      { newTestIndicators with
          AccountLeverage := 1.5, AHR999 := 0.30, MVRVZScore := 7.0,
          EthRegressionState := model.EthRegLower,
          MaMultiplierState := model.MaStateBullTop }).IsHalted = true :=
  ⟨le_refl _, EvaluateV2_top_signal_breaker _ _ (le_refl _) (Or.inr rfl)⟩


/-! ## The AHR999 zones and the overheat override -/

/-- C3. When neither breaker fires and the overheat override does not apply
(MVRV-Z at most 6.0, or AHR999 at least 1.20), `EvaluateV2` classifies AHR999 by
half-open zones: below 0.45 STRONG_BUY with factor 1.5; from 0.45 up to but not
including 1.20 DCA_BUY with factor 1.0; from 1.20 up to but not including 5.00
HOLD with factor 0; from 5.00 on SELL with factor 0. The three breakpoints
themselves fall in the upper zone. -/
theorem EvaluateV2_zone_classification (today : String) (indicators : model.MarketIndicators)
    (hlev : indicators.AccountLeverage ≤ 1.5)
    (hpi : indicators.PiCycleCross = false)
    (hma : indicators.MaMultiplierState ≠ model.MaStateBullTop)
    (hov : indicators.MVRVZScore ≤ 6.0 ∨ indicators.AHR999 ≥ 1.20) :
    (indicators.AHR999 < 0.45 →
      (EvaluateV2 today indicators).ActionBTC = model.ActionStrongBuy ∧
      (EvaluateV2 today indicators).AmountFactor = 1.5) ∧
    (0.45 ≤ indicators.AHR999 → indicators.AHR999 < 1.20 →
      (EvaluateV2 today indicators).ActionBTC = model.ActionDCABuy ∧
      (EvaluateV2 today indicators).AmountFactor = 1.0) ∧
    (1.20 ≤ indicators.AHR999 → indicators.AHR999 < 5.00 →
      (EvaluateV2 today indicators).ActionBTC = model.ActionHold ∧
      (EvaluateV2 today indicators).AmountFactor = 0) ∧
    (5.00 ≤ indicators.AHR999 →
      (EvaluateV2 today indicators).ActionBTC = model.ActionSell ∧
      (EvaluateV2 today indicators).AmountFactor = 0) ∧
    (indicators.AHR999 = 0.45 →
      (EvaluateV2 today indicators).ActionBTC = model.ActionDCABuy) ∧
    (indicators.AHR999 = 1.20 →
      (EvaluateV2 today indicators).ActionBTC = model.ActionHold) ∧
    (indicators.AHR999 = 5.00 →
      (EvaluateV2 today indicators).ActionBTC = model.ActionSell) := by
  obtain ⟨hb, hf, -, -, -⟩ := EvaluateV2_normal_fields today indicators hlev hpi hma
  have hkeep : mvrvStep indicators (btcBaseStep indicators initialSignal) =
      btcBaseStep indicators initialSignal := by
    apply mvrvStep_keep
    rcases hov with h | h
    · exact Or.inr h
    · left
      cases hflag : (btcBaseStep indicators initialSignal).2
      · rfl
      · have := (btcBaseStep_flag indicators initialSignal).mp hflag
        linarith
  rw [hkeep] at hb hf
  have strong : indicators.AHR999 < 0.45 →
      (EvaluateV2 today indicators).ActionBTC = model.ActionStrongBuy ∧
      (EvaluateV2 today indicators).AmountFactor = 1.5 := by
    intro h
    rw [hb, hf, btcBaseStep_strong_buy _ _ h]
    exact ⟨rfl, rfl⟩
  have dca : 0.45 ≤ indicators.AHR999 → indicators.AHR999 < 1.20 →
      (EvaluateV2 today indicators).ActionBTC = model.ActionDCABuy ∧
      (EvaluateV2 today indicators).AmountFactor = 1.0 := by
    intro h h2
    rw [hb, hf, btcBaseStep_dca_buy _ _ h h2]
    exact ⟨rfl, rfl⟩
  have hold : 1.20 ≤ indicators.AHR999 → indicators.AHR999 < 5.00 →
      (EvaluateV2 today indicators).ActionBTC = model.ActionHold ∧
      (EvaluateV2 today indicators).AmountFactor = 0 := by
    intro h h2
    rw [hb, hf, btcBaseStep_hold _ _ h h2]
    exact ⟨rfl, rfl⟩
  have sell : 5.00 ≤ indicators.AHR999 →
      (EvaluateV2 today indicators).ActionBTC = model.ActionSell ∧
      (EvaluateV2 today indicators).AmountFactor = 0 := by
    intro h
    rw [hb, hf, btcBaseStep_sell _ _ h]
    exact ⟨rfl, rfl⟩
  refine ⟨strong, dca, hold, sell, ?_, ?_, ?_⟩
  · intro h
    exact (dca (le_of_eq h.symm) (by rw [h]; norm_num)).1
  · intro h
    exact (hold (le_of_eq h.symm) (by rw [h]; norm_num)).1
  · intro h
    exact (sell (le_of_eq h.symm)).1

/-- Witness for C3: the three breakpoints and one interior point of the lowest
zone, on the test snapshot (leverage 1.0, no top signal, MVRV-Z 2.5). -/
theorem EvaluateV2_zone_classification_witness :
    ((EvaluateV2 "2026-11-01" { newTestIndicators with AHR999 := 0.30 }).ActionBTC
        = model.ActionStrongBuy ∧
      (EvaluateV2 "2026-11-01" { newTestIndicators with AHR999 := 0.30 }).AmountFactor = 1.5) ∧
    (EvaluateV2 "2026-11-01" { newTestIndicators with AHR999 := 0.45 }).ActionBTC
        = model.ActionDCABuy ∧
    (EvaluateV2 "2026-11-01" { newTestIndicators with AHR999 := 1.20 }).ActionBTC
        = model.ActionHold ∧
    (EvaluateV2 "2026-11-01" { newTestIndicators with AHR999 := 5.00 }).ActionBTC
        = model.ActionSell :=
  ⟨(EvaluateV2_zone_classification "2026-11-01" { newTestIndicators with AHR999 := 0.30 }
      (by norm_num [newTestIndicators]) rfl (by decide)
      (Or.inl (by norm_num [newTestIndicators]))).1 (by norm_num),
   (EvaluateV2_zone_classification "2026-11-01" { newTestIndicators with AHR999 := 0.45 }
      (by norm_num [newTestIndicators]) rfl (by decide)
      (Or.inl (by norm_num [newTestIndicators]))).2.2.2.2.1 rfl,
   (EvaluateV2_zone_classification "2026-11-01" { newTestIndicators with AHR999 := 1.20 }
      (by norm_num [newTestIndicators]) rfl (by decide)
      (Or.inl (by norm_num [newTestIndicators]))).2.2.2.2.2.1 rfl,
   (EvaluateV2_zone_classification "2026-11-01" { newTestIndicators with AHR999 := 5.00 }
      (by norm_num [newTestIndicators]) rfl (by decide)
      (Or.inl (by norm_num [newTestIndicators]))).2.2.2.2.2.2 rfl⟩

/-- C4. When neither breaker fires, AHR999 is below 1.20 and MVRV-Z is above
6.0, `EvaluateV2` answers HOLD_CAUTION for BTC with amount factor 0 and a
non-empty warning. -/
theorem EvaluateV2_overheat_override (today : String) (indicators : model.MarketIndicators)
    (hlev : indicators.AccountLeverage ≤ 1.5)
    (hpi : indicators.PiCycleCross = false)
    (hma : indicators.MaMultiplierState ≠ model.MaStateBullTop)
    (hzone : indicators.AHR999 < 1.20)
    (hhot : indicators.MVRVZScore > 6.0) :
    (EvaluateV2 today indicators).ActionBTC = model.ActionHoldCaution ∧
    (EvaluateV2 today indicators).AmountFactor = 0 ∧
    (EvaluateV2 today indicators).WarningMsg ≠ "" := by
  obtain ⟨hb, hf, hw, -, -⟩ := EvaluateV2_normal_fields today indicators hlev hpi hma
  have hflag := (btcBaseStep_flag indicators initialSignal).mpr hzone
  rw [mvrvStep_override _ _ hflag hhot] at hb hf hw
  refine ⟨hb, hf, ?_⟩
  rw [hw]
  show "⚠️ MVRV-Z Score (" ++ formatFixed 2 indicators.MVRVZScore
    ++ ") 极度过热，暂停买入！" ≠ ""
  rw [String.append_assoc]
  exact append_ne_empty _ _ (by decide)

/-- Witness for C4: the overheat scenario of the test suite (AHR999 0.70,
MVRV-Z 7.0 at leverage 1.0). -/
theorem EvaluateV2_overheat_override_witness :
    (EvaluateV2 "2026-11-01"
      { newTestIndicators with AHR999 := 0.70, MVRVZScore := 7.0 }).ActionBTC
        = model.ActionHoldCaution ∧
    (EvaluateV2 "2026-11-01"
      { newTestIndicators with AHR999 := 0.70, MVRVZScore := 7.0 }).AmountFactor = 0 ∧
    (EvaluateV2 "2026-11-01"
      { newTestIndicators with AHR999 := 0.70, MVRVZScore := 7.0 }).WarningMsg ≠ "" :=
  EvaluateV2_overheat_override "2026-11-01"
    { newTestIndicators with AHR999 := 0.70, MVRVZScore := 7.0 }
    (by norm_num [newTestIndicators]) rfl (by decide) (by norm_num) (by norm_num)

/-- C5. The overheat override fires only from a buy zone with MVRV-Z strictly
above 6.0: a HOLD_CAUTION answer implies that no breaker fired, AHR999 is below
1.20 and MVRV-Z is above 6.0. Hence with AHR999 at least 1.20 the answer is never
HOLD_CAUTION, and on the zone path it is HOLD or SELL for every MVRV-Z; and with
MVRV-Z exactly 6.0 a buy zone keeps its STRONG_BUY or DCA_BUY action. -/
theorem EvaluateV2_hold_caution_origin (today : String) (indicators : model.MarketIndicators) :
    ((EvaluateV2 today indicators).ActionBTC = model.ActionHoldCaution →
      indicators.AccountLeverage ≤ 1.5 ∧ indicators.PiCycleCross = false ∧
      indicators.MaMultiplierState ≠ model.MaStateBullTop ∧
      indicators.AHR999 < 1.20 ∧ indicators.MVRVZScore > 6.0) ∧
    (indicators.AHR999 ≥ 1.20 →
      (EvaluateV2 today indicators).ActionBTC ≠ model.ActionHoldCaution) ∧
    (indicators.AccountLeverage ≤ 1.5 → indicators.PiCycleCross = false →
      indicators.MaMultiplierState ≠ model.MaStateBullTop → indicators.AHR999 ≥ 1.20 →
      (EvaluateV2 today indicators).ActionBTC = model.ActionHold ∨
      (EvaluateV2 today indicators).ActionBTC = model.ActionSell) ∧
    (indicators.AccountLeverage ≤ 1.5 → indicators.PiCycleCross = false →
      indicators.MaMultiplierState ≠ model.MaStateBullTop → indicators.MVRVZScore = 6.0 →
      (indicators.AHR999 < 0.45 →
        (EvaluateV2 today indicators).ActionBTC = model.ActionStrongBuy) ∧
      (0.45 ≤ indicators.AHR999 → indicators.AHR999 < 1.20 →
        (EvaluateV2 today indicators).ActionBTC = model.ActionDCABuy)) := by
  have origin : (EvaluateV2 today indicators).ActionBTC = model.ActionHoldCaution →
      indicators.AccountLeverage ≤ 1.5 ∧ indicators.PiCycleCross = false ∧
      indicators.MaMultiplierState ≠ model.MaStateBullTop ∧
      indicators.AHR999 < 1.20 ∧ indicators.MVRVZScore > 6.0 := by
    intro hc
    rcases path_cases indicators with h | ⟨hl, ht⟩ | ⟨hl, hpi, hma⟩
    · rw [(EvaluateV2_leverage_path today indicators h).1] at hc
      exact absurd hc (by decide)
    · rw [(EvaluateV2_top_path today indicators hl ht).1] at hc
      exact absurd hc (by decide)
    · rcases (EvaluateV2_normal_cases today indicators hl hpi hma).2 with
        ⟨hz, hm, -, -, -⟩ | ⟨-, -, hb, -, -⟩ | ⟨-, -, -, hb, -, -⟩ | ⟨-, -, hb, -, -⟩ |
        ⟨-, hb, -, -⟩
      · exact ⟨hl, hpi, hma, hz, hm⟩
      · rw [hb] at hc
        exact absurd hc (by decide)
      · rw [hb] at hc
        exact absurd hc (by decide)
      · rw [hb] at hc
        exact absurd hc (by decide)
      · rw [hb] at hc
        exact absurd hc (by decide)
  refine ⟨origin, ?_, ?_, ?_⟩
  · intro hz hc
    have := (origin hc).2.2.2.1
    linarith
  · intro hl hpi hma hz
    rcases (EvaluateV2_normal_cases today indicators hl hpi hma).2 with
      ⟨h, -, -, -, -⟩ | ⟨h, -, -, -, -⟩ | ⟨-, h, -, -, -, -⟩ | ⟨-, -, hb, -, -⟩ |
      ⟨-, hb, -, -⟩
    · linarith
    · linarith
    · linarith
    · exact Or.inl hb
    · exact Or.inr hb
  · intro hl hpi hma hm
    rcases (EvaluateV2_normal_cases today indicators hl hpi hma).2 with
      ⟨-, h, -, -, -⟩ | ⟨h, -, hb, -, -⟩ | ⟨h, h2, -, hb, -, -⟩ | ⟨h, -, -, -, -⟩ |
      ⟨h, -, -, -⟩
    · rw [hm] at h
      exact absurd h (lt_irrefl _)
    · exact ⟨fun _ => hb, fun h3 _ => absurd h (not_lt.mpr h3)⟩
    · exact ⟨fun h3 => absurd h3 (not_lt.mpr h), fun _ _ => hb⟩
    · constructor
      · intro h3
        linarith
      · intro _ h3
        linarith
    · constructor
      · intro h3
        linarith
      · intro _ h3
        linarith

/-- Witness for C5: the overheat scenario is a HOLD_CAUTION answer; AHR999 2.5
with MVRV-Z 7.0 stays HOLD; AHR999 0.30 and 0.70 with MVRV-Z exactly 6.0 stay
STRONG_BUY and DCA_BUY. -/
theorem EvaluateV2_hold_caution_origin_witness :
    (EvaluateV2 "2026-11-01"
      { newTestIndicators with AHR999 := 0.70, MVRVZScore := 7.0 }).ActionBTC
        = model.ActionHoldCaution ∧
    ((0.70 : ℚ) < 1.20 ∧ (7.0 : ℚ) > 6.0) ∧
    (EvaluateV2 "2026-11-01"
      { newTestIndicators with AHR999 := 2.5, MVRVZScore := 7.0 }).ActionBTC
        ≠ model.ActionHoldCaution ∧
    ((EvaluateV2 "2026-11-01"
        { newTestIndicators with AHR999 := 2.5, MVRVZScore := 7.0 }).ActionBTC
          = model.ActionHold ∨
      (EvaluateV2 "2026-11-01"
        { newTestIndicators with AHR999 := 2.5, MVRVZScore := 7.0 }).ActionBTC
          = model.ActionSell) ∧
    (EvaluateV2 "2026-11-01"
      { newTestIndicators with AHR999 := 0.30, MVRVZScore := 6.0 }).ActionBTC
        = model.ActionStrongBuy ∧
    (EvaluateV2 "2026-11-01"
      { newTestIndicators with AHR999 := 0.70, MVRVZScore := 6.0 }).ActionBTC
        = model.ActionDCABuy :=
  have hc : (EvaluateV2 "2026-11-01"
      { newTestIndicators with AHR999 := 0.70, MVRVZScore := 7.0 }).ActionBTC
        = model.ActionHoldCaution := by
    simp [EvaluateV2, initialSignal, btcBaseStep, mvrvStep, ethStep, newTestIndicators,
      MaxLeverage, AHR999StrongBuy, AHR999DCAUpper, MVRVOverheat, model.MaStateNormal,
      model.MaStateBullTop, model.EthRegMiddle, model.EthRegLower, model.EthRegUpper]
    norm_num
  ⟨hc,
   ((EvaluateV2_hold_caution_origin "2026-11-01"
      { newTestIndicators with AHR999 := 0.70, MVRVZScore := 7.0 }).1 hc).2.2.2,
   (EvaluateV2_hold_caution_origin "2026-11-01"
      { newTestIndicators with AHR999 := 2.5, MVRVZScore := 7.0 }).2.1 (by norm_num),
   (EvaluateV2_hold_caution_origin "2026-11-01"
      { newTestIndicators with AHR999 := 2.5, MVRVZScore := 7.0 }).2.2.1
      (by norm_num [newTestIndicators]) rfl (by decide) (by norm_num),
   ((EvaluateV2_hold_caution_origin "2026-11-01"
      { newTestIndicators with AHR999 := 0.30, MVRVZScore := 6.0 }).2.2.2
      (by norm_num [newTestIndicators]) rfl (by decide) (by norm_num)).1 (by norm_num),
   ((EvaluateV2_hold_caution_origin "2026-11-01"
      { newTestIndicators with AHR999 := 0.70, MVRVZScore := 6.0 }).2.2.2
      (by norm_num [newTestIndicators]) rfl (by decide) (by norm_num)).2
      (by norm_num) (by norm_num)⟩

/-! ## The ETH sub-strategy -/

/-- C7. BUY_HEAVY needs both the lower band and a buy: for every snapshot, an
ETH answer BUY_HEAVY implies the lower band and a BTC answer STRONG_BUY or
DCA_BUY; and when the overheat override has produced HOLD_CAUTION, a lower band
yields FOLLOW_BTC. -/
theorem EvaluateV2_buy_heavy_requires (today : String) (indicators : model.MarketIndicators) :
    ((EvaluateV2 today indicators).ActionETH = model.ActionETHBuyHeavy →
      indicators.EthRegressionState = model.EthRegLower ∧
      ((EvaluateV2 today indicators).ActionBTC = model.ActionStrongBuy ∨
        (EvaluateV2 today indicators).ActionBTC = model.ActionDCABuy)) ∧
    ((EvaluateV2 today indicators).ActionBTC = model.ActionHoldCaution →
      indicators.EthRegressionState = model.EthRegLower →
      (EvaluateV2 today indicators).ActionETH = model.ActionETHFollowBTC) := by
  rcases path_cases indicators with h | ⟨hl, ht⟩ | ⟨hl, hpi, hma⟩
  · obtain ⟨hb, he, -, -, -⟩ := EvaluateV2_leverage_path today indicators h
    rw [hb, he]
    exact ⟨fun hc => absurd hc (by decide), fun hc => absurd hc (by decide)⟩
  · obtain ⟨hb, he, -, -, -⟩ := EvaluateV2_top_path today indicators hl ht
    rw [hb, he]
    exact ⟨fun hc => absurd hc (by decide), fun hc => absurd hc (by decide)⟩
  · have he := (EvaluateV2_normal_fields today indicators hl hpi hma).2.2.2.2
    rw [ethStep_action] at he
    have hflag := mvrvStep_flag indicators initialSignal
    have hcases := (EvaluateV2_normal_cases today indicators hl hpi hma).2
    constructor
    · intro hheavy
      rw [he] at hheavy
      by_cases hlow : indicators.EthRegressionState = model.EthRegLower
      · refine ⟨hlow, ?_⟩
        rw [if_pos hlow] at hheavy
        by_cases hfl : (mvrvStep indicators (btcBaseStep indicators initialSignal)).2 = true
        · have hbuy := hflag.mp hfl
          rcases hcases with
            ⟨-, h, -, -, -⟩ | ⟨-, -, hb, -, -⟩ | ⟨-, -, -, hb, -, -⟩ | ⟨h, -, -, -, -⟩ |
            ⟨h, -, -, -⟩
          · exact absurd h (not_lt.mpr hbuy.2)
          · exact Or.inl hb
          · exact Or.inr hb
          · linarith [hbuy.1]
          · linarith [hbuy.1]
        · rw [if_neg hfl] at hheavy
          exact absurd hheavy (by decide)
      · rw [if_neg hlow] at hheavy
        split_ifs at hheavy
        · exact absurd hheavy (by decide)
        · exact absurd hheavy (by decide)
    · intro hc hlow
      rw [he, if_pos hlow]
      have hfl : ¬ (mvrvStep indicators (btcBaseStep indicators initialSignal)).2 = true := by
        intro hfl
        have hbuy := hflag.mp hfl
        rcases hcases with
          ⟨-, h, -, -, -⟩ | ⟨-, -, hb, -, -⟩ | ⟨-, -, -, hb, -, -⟩ | ⟨h, -, -, -, -⟩ |
          ⟨h, -, -, -⟩
        · exact absurd h (not_lt.mpr hbuy.2)
        · rw [hb] at hc
          exact absurd hc (by decide)
        · rw [hb] at hc
          exact absurd hc (by decide)
        · linarith [hbuy.1]
        · linarith [hbuy.1]
      rw [if_neg hfl]

/-- Witness for C7: the bottom-fishing scenario answers BUY_HEAVY on the lower
band with a STRONG_BUY; the overheated lower band answers FOLLOW_BTC. -/
theorem EvaluateV2_buy_heavy_requires_witness :
    (model.EthRegLower = model.EthRegLower ∧
      ((EvaluateV2 "2026-11-01"
          { newTestIndicators with
              AHR999 := 0.30, EthRegressionState := model.EthRegLower }).ActionBTC
            = model.ActionStrongBuy ∨
        (EvaluateV2 "2026-11-01"
          { newTestIndicators with
              AHR999 := 0.30, EthRegressionState := model.EthRegLower }).ActionBTC
            = model.ActionDCABuy)) ∧
    (EvaluateV2 "2026-11-01"
      { newTestIndicators with
          AHR999 := 0.70, MVRVZScore := 7.0,
          EthRegressionState := model.EthRegLower }).ActionETH
        = model.ActionETHFollowBTC :=
  ⟨(EvaluateV2_buy_heavy_requires "2026-11-01"
      { newTestIndicators with AHR999 := 0.30, EthRegressionState := model.EthRegLower }).1
      (by
        simp [EvaluateV2, initialSignal, btcBaseStep, mvrvStep, ethStep, newTestIndicators,
          MaxLeverage, AHR999StrongBuy, AHR999DCAUpper, MVRVOverheat, model.MaStateNormal,
          model.MaStateBullTop, model.EthRegMiddle, model.EthRegLower, model.EthRegUpper]
        norm_num),
   (EvaluateV2_buy_heavy_requires "2026-11-01"
      { newTestIndicators with
          AHR999 := 0.70, MVRVZScore := 7.0, EthRegressionState := model.EthRegLower }).2
      (by
        simp [EvaluateV2, initialSignal, btcBaseStep, mvrvStep, ethStep, newTestIndicators,
          MaxLeverage, AHR999StrongBuy, AHR999DCAUpper, MVRVOverheat, model.MaStateNormal,
          model.MaStateBullTop, model.EthRegMiddle, model.EthRegLower, model.EthRegUpper]
        norm_num)
      rfl⟩

/-! ## Determinism -/

/-- C8. `EvaluateV2` is deterministic on its decision fields: two evaluations
of identical snapshots, made at any two clock readings, agree on the BTC action,
the ETH action, the amount factor, the halted flag and the warning. The engine
takes no other input, so no earlier call can influence a later one. -/
theorem EvaluateV2_decision_deterministic (today₁ today₂ : String)
    (indicators₁ indicators₂ : model.MarketIndicators) (h : indicators₁ = indicators₂) :
    (EvaluateV2 today₁ indicators₁).ActionBTC = (EvaluateV2 today₂ indicators₂).ActionBTC ∧
    (EvaluateV2 today₁ indicators₁).ActionETH = (EvaluateV2 today₂ indicators₂).ActionETH ∧
    (EvaluateV2 today₁ indicators₁).AmountFactor
      = (EvaluateV2 today₂ indicators₂).AmountFactor ∧
    (EvaluateV2 today₁ indicators₁).IsHalted = (EvaluateV2 today₂ indicators₂).IsHalted ∧
    (EvaluateV2 today₁ indicators₁).WarningMsg
      = (EvaluateV2 today₂ indicators₂).WarningMsg := by
  subst h
  rcases path_cases indicators₁ with h | ⟨hl, ht⟩ | ⟨hl, hpi, hma⟩
  · obtain ⟨a1, a2, a3, a4, a5⟩ := EvaluateV2_leverage_path today₁ indicators₁ h
    obtain ⟨b1, b2, b3, b4, b5⟩ := EvaluateV2_leverage_path today₂ indicators₁ h
    exact ⟨a1.trans b1.symm, a2.trans b2.symm, a3.trans b3.symm, a4.trans b4.symm,
      a5.trans b5.symm⟩
  · obtain ⟨a1, a2, a3, a4, a5⟩ := EvaluateV2_top_path today₁ indicators₁ hl ht
    obtain ⟨b1, b2, b3, b4, b5⟩ := EvaluateV2_top_path today₂ indicators₁ hl ht
    exact ⟨a1.trans b1.symm, a2.trans b2.symm, a3.trans b3.symm, a4.trans b4.symm,
      a5.trans b5.symm⟩
  · obtain ⟨a1, a3, a5, a4, a2⟩ := EvaluateV2_normal_fields today₁ indicators₁ hl hpi hma
    obtain ⟨b1, b3, b5, b4, b2⟩ := EvaluateV2_normal_fields today₂ indicators₁ hl hpi hma
    exact ⟨a1.trans b1.symm, a2.trans b2.symm, a3.trans b3.symm, a4.trans b4.symm,
      a5.trans b5.symm⟩

/-- Witness for C8: the test snapshot evaluated on two different days. -/
theorem EvaluateV2_decision_deterministic_witness :
    (EvaluateV2 "2026-11-01" newTestIndicators).ActionBTC
      = (EvaluateV2 "2027-01-31" newTestIndicators).ActionBTC ∧
    (EvaluateV2 "2026-11-01" newTestIndicators).ActionETH
      = (EvaluateV2 "2027-01-31" newTestIndicators).ActionETH ∧
    (EvaluateV2 "2026-11-01" newTestIndicators).AmountFactor
      = (EvaluateV2 "2027-01-31" newTestIndicators).AmountFactor ∧
    (EvaluateV2 "2026-11-01" newTestIndicators).IsHalted
      = (EvaluateV2 "2027-01-31" newTestIndicators).IsHalted ∧
    (EvaluateV2 "2026-11-01" newTestIndicators).WarningMsg
      = (EvaluateV2 "2027-01-31" newTestIndicators).WarningMsg :=
  EvaluateV2_decision_deterministic "2026-11-01" "2027-01-31" newTestIndicators
    newTestIndicators rfl

/-! ## The legacy engine `Evaluate` -/

/-- C10. The legacy engine answers the warning action, with amount factor 0,
exactly when the leverage exceeds 1.5, for every AHR999; at leverage exactly 1.5
no warning is raised and the zone rule applies, `Evaluate 0.60 1.5` being the
DCA action. -/
theorem Evaluate_warning_iff_high_leverage (ahr999 leverage : ℚ) :
    (((Evaluate ahr999 leverage).Action = ActionWarning ∧
        (Evaluate ahr999 leverage).AmountFactor = 0) ↔ leverage > 1.5) ∧
    ((Evaluate ahr999 leverage).Action = ActionWarning ↔ leverage > 1.5) ∧
    (Evaluate ahr999 1.5).Action ≠ ActionWarning ∧
    (Evaluate 0.60 1.5).Action = ActionDCA := by
  have hiff : (Evaluate ahr999 leverage).Action = ActionWarning ↔ leverage > 1.5 := by
    constructor
    · intro h
      by_contra hn
      have h1 : ¬ leverage > ThresholdMaxLeverage := by
        unfold ThresholdMaxLeverage
        exact hn
      simp only [Evaluate, if_neg h1] at h
      split_ifs at h <;>
        simp [ActionWarning, ActionGreedyBuy, ActionDCA, ActionHold, ActionSell] at h
    · intro h
      have h1 : leverage > ThresholdMaxLeverage := by
        unfold ThresholdMaxLeverage
        exact h
      simp only [Evaluate, if_pos h1]
  have hzero : leverage > 1.5 → (Evaluate ahr999 leverage).AmountFactor = 0 := by
    intro h
    have h1 : leverage > ThresholdMaxLeverage := by
      unfold ThresholdMaxLeverage
      exact h
    simp only [Evaluate, if_pos h1]
  refine ⟨⟨fun h => hiff.mp h.1, fun h => ⟨hiff.mpr h, hzero h⟩⟩, hiff, ?_, ?_⟩
  · have h1 : ¬ (1.5 : ℚ) > ThresholdMaxLeverage := by
      unfold ThresholdMaxLeverage
      exact lt_irrefl _
    simp only [Evaluate, if_neg h1]
    split_ifs <;> simp [ActionWarning, ActionGreedyBuy, ActionDCA, ActionHold, ActionSell]
  · simp [Evaluate, ThresholdMaxLeverage, ThresholdBottomFishing, ThresholdDCAUpper]
    norm_num

/-- C11. For every leverage at most 1.5 the legacy engine partitions AHR999
into half-open zones: below 0.45 the greedy buy with factor 1.5; from 0.45 up to
but not including 0.80 the DCA action with factor 1.0; from 0.80 up to but not
including 1.2 hold with factor 0; from 1.2 on sell with factor 0. So 0.45 is
DCA, 0.80 is hold and 1.2 is sell. -/
theorem Evaluate_zone_partition (ahr999 leverage : ℚ) (hlev : leverage ≤ 1.5) :
    (ahr999 < 0.45 →
      (Evaluate ahr999 leverage).Action = ActionGreedyBuy ∧
      (Evaluate ahr999 leverage).AmountFactor = 1.5) ∧
    (0.45 ≤ ahr999 → ahr999 < 0.80 →
      (Evaluate ahr999 leverage).Action = ActionDCA ∧
      (Evaluate ahr999 leverage).AmountFactor = 1.0) ∧
    (0.80 ≤ ahr999 → ahr999 < 1.2 →
      (Evaluate ahr999 leverage).Action = ActionHold ∧
      (Evaluate ahr999 leverage).AmountFactor = 0) ∧
    (1.2 ≤ ahr999 →
      (Evaluate ahr999 leverage).Action = ActionSell ∧
      (Evaluate ahr999 leverage).AmountFactor = 0) ∧
    (Evaluate 0.45 leverage).Action = ActionDCA ∧
    (Evaluate 0.80 leverage).Action = ActionHold ∧
    (Evaluate 1.2 leverage).Action = ActionSell := by
  have h1 : ¬ leverage > ThresholdMaxLeverage := by
    unfold ThresholdMaxLeverage
    exact not_lt.mpr hlev
  have zones : ∀ a : ℚ,
      (a < 0.45 →
        (Evaluate a leverage).Action = ActionGreedyBuy ∧
        (Evaluate a leverage).AmountFactor = 1.5) ∧
      (0.45 ≤ a → a < 0.80 →
        (Evaluate a leverage).Action = ActionDCA ∧
        (Evaluate a leverage).AmountFactor = 1.0) ∧
      (0.80 ≤ a → a < 1.2 →
        (Evaluate a leverage).Action = ActionHold ∧
        (Evaluate a leverage).AmountFactor = 0) ∧
      (1.2 ≤ a →
        (Evaluate a leverage).Action = ActionSell ∧
        (Evaluate a leverage).AmountFactor = 0) := by
    intro a
    refine ⟨?_, ?_, ?_, ?_⟩
    · intro h
      have h2 : a < ThresholdBottomFishing := by
        unfold ThresholdBottomFishing
        exact h
      simp only [Evaluate, if_neg h1, if_pos h2]
      exact ⟨trivial, trivial⟩
    · intro h h'
      have h2 : ¬ a < ThresholdBottomFishing := by
        unfold ThresholdBottomFishing
        exact not_lt.mpr h
      have h3 : a ≥ ThresholdBottomFishing ∧ a < ThresholdDCAUpper := by
        unfold ThresholdBottomFishing ThresholdDCAUpper
        exact ⟨h, h'⟩
      simp only [Evaluate, if_neg h1, if_neg h2, if_pos h3]
      exact ⟨trivial, trivial⟩
    · intro h h'
      have h2 : ¬ a < ThresholdBottomFishing := by
        unfold ThresholdBottomFishing
        apply not_lt.mpr
        linarith
      have h3 : ¬ (a ≥ ThresholdBottomFishing ∧ a < ThresholdDCAUpper) := by
        unfold ThresholdBottomFishing ThresholdDCAUpper
        intro h4
        exact absurd h4.2 (not_lt.mpr h)
      have h5 : a ≥ ThresholdDCAUpper ∧ a < ThresholdHoldUpper := by
        unfold ThresholdDCAUpper ThresholdHoldUpper
        exact ⟨h, h'⟩
      simp only [Evaluate, if_neg h1, if_neg h2, if_neg h3, if_pos h5]
      exact ⟨trivial, trivial⟩
    · intro h
      have h2 : ¬ a < ThresholdBottomFishing := by
        unfold ThresholdBottomFishing
        apply not_lt.mpr
        linarith
      have h3 : ¬ (a ≥ ThresholdBottomFishing ∧ a < ThresholdDCAUpper) := by
        unfold ThresholdBottomFishing ThresholdDCAUpper
        intro h4
        linarith [h4.2]
      have h5 : ¬ (a ≥ ThresholdDCAUpper ∧ a < ThresholdHoldUpper) := by
        unfold ThresholdDCAUpper ThresholdHoldUpper
        intro h4
        exact absurd h4.2 (not_lt.mpr h)
      simp only [Evaluate, if_neg h1, if_neg h2, if_neg h3, if_neg h5]
      exact ⟨trivial, trivial⟩
  refine ⟨(zones ahr999).1, (zones ahr999).2.1, (zones ahr999).2.2.1, (zones ahr999).2.2.2,
    ?_, ?_, ?_⟩
  · exact ((zones 0.45).2.1 (le_refl _) (by norm_num)).1
  · exact ((zones 0.80).2.2.1 (le_refl _) (by norm_num)).1
  · exact ((zones 1.2).2.2.2 (le_refl _)).1

/-- Witness for C11: leverage 1.0 with AHR999 0.30, 0.60, 1.0 and 1.5, the four
zones of the legacy test suite. -/
theorem Evaluate_zone_partition_witness :
    ((Evaluate 0.30 1.0).Action = ActionGreedyBuy ∧ (Evaluate 0.30 1.0).AmountFactor = 1.5) ∧
    ((Evaluate 0.60 1.0).Action = ActionDCA ∧ (Evaluate 0.60 1.0).AmountFactor = 1.0) ∧
    ((Evaluate 1.0 1.0).Action = ActionHold ∧ (Evaluate 1.0 1.0).AmountFactor = 0) ∧
    ((Evaluate 1.5 1.0).Action = ActionSell ∧ (Evaluate 1.5 1.0).AmountFactor = 0) :=
  ⟨(Evaluate_zone_partition 0.30 1.0 (by norm_num)).1 (by norm_num),
   (Evaluate_zone_partition 0.60 1.0 (by norm_num)).2.1 (by norm_num) (by norm_num),
   (Evaluate_zone_partition 1.0 1.0 (by norm_num)).2.2.1 (by norm_num) (by norm_num),
   (Evaluate_zone_partition 1.5 1.0 (by norm_num)).2.2.2.1 (by norm_num)⟩

end strategy

/-! ## The indicator calculators -/

namespace calculator

/-- The loop of `calculateGeometricMean` adds the logarithms of the positive
prices to the accumulator. -/
theorem logSum_foldl {α : Type} [LinearOrderedField α] (Log : α → α) (prices : List α)
    (acc : α) :
    prices.foldl (fun acc price => if price > 0 then acc + Log price else acc) acc =
      acc + ((prices.filter (fun p => p > 0)).map Log).sum := by
  induction prices generalizing acc with
  | nil => simp
  | cons p ps ih =>
    rw [List.foldl_cons, ih]
    by_cases hp : p > 0
    · simp [hp, add_assoc]
    · simp [hp]

/-- The value of `calculateGeometricMean` on a non-empty series. -/
theorem calculateGeometricMean_eq {α : Type} [LinearOrderedField α] (Log Exp : α → α)
    (prices : List α) (h : prices ≠ []) :
    calculateGeometricMean Log Exp prices =
      Exp (((prices.filter (fun p => p > 0)).map Log).sum / (prices.length : α)) := by
  have hlen : ¬ prices.length = 0 := by
    intro h0
    exact h (List.length_eq_zero.mp h0)
  simp only [calculateGeometricMean, if_neg hlen, logSum_foldl, zero_add]

/-- A series of positive prices passes the filter of the loop unchanged. -/
theorem filter_pos_of_all_pos {α : Type} [LinearOrderedField α] (prices : List α)
    (h : ∀ p ∈ prices, 0 < p) : prices.filter (fun p => p > 0) = prices := by
  rw [List.filter_eq_self]
  intro p hp
  simpa using h p hp

/-- The loop of `calculateSMA` and of the mean computes the sum of the list. -/
theorem sum_foldl (prices : List ℚ) (acc : ℚ) :
    prices.foldl (fun acc price => acc + price) acc = acc + prices.sum := by
  induction prices generalizing acc with
  | nil => simp
  | cons p ps ih =>
    rw [List.foldl_cons, ih, List.sum_cons, add_assoc]

/-- The value of `calculateSMA` on a non-empty series. -/
theorem calculateSMA_eq (prices : List ℚ) (h : prices ≠ []) :
    calculateSMA prices = prices.sum / (prices.length : ℚ) := by
  have hlen : ¬ prices.length = 0 := by
    intro h0
    exact h (List.length_eq_zero.mp h0)
  simp only [calculateSMA, if_neg hlen, sum_foldl, zero_add]

/-- The element read at index `len(prices)-1` is the last one. -/
theorem getD_last {α : Type} (prices : List α) (d : α) (h : prices ≠ []) :
    prices.getLast? = some (prices.getD (prices.length - 1) d) := by
  rw [List.getLast?_eq_getElem?, List.getD_eq_getElem?_getD]
  have hlt : prices.length - 1 < prices.length := by
    have := List.length_pos.mpr h
    omega
  rw [List.getElem?_eq_getElem hlt]
  rfl

/-- For positive prices the product is positive and its logarithm is the sum
of the logarithms. -/
theorem log_prod_of_pos (prices : List ℝ) (h : ∀ p ∈ prices, 0 < p) :
    0 < prices.prod ∧ Real.log prices.prod = (prices.map Real.log).sum := by
  induction prices with
  | nil => simp
  | cons p ps ih =>
    have hp : 0 < p := h p (List.mem_cons_self _ _)
    have hps := ih (fun q hq => h q (List.mem_cons_of_mem _ hq))
    rw [List.prod_cons, List.map_cons, List.sum_cons]
    refine ⟨mul_pos hp hps.1, ?_⟩
    rw [Real.log_mul hp.ne' hps.1.ne', hps.2]

/-- The cost basis of a positive price repeated at least once is that price. -/
theorem geometricMean_replicate (P : ℝ) (W : ℕ) (hP : 0 < P) (hW : 1 ≤ W) :
    calculateGeometricMean Real.log Real.exp (List.replicate W P) = P := by
  have hne : List.replicate W P ≠ [] := by
    intro h
    have := congrArg List.length h
    simp at this
    omega
  have hfil : (List.replicate W P).filter (fun p => p > 0) = List.replicate W P := by
    apply filter_pos_of_all_pos
    intro p hp
    rw [(List.mem_replicate.mp hp).2]
    exact hP
  have hW0 : (W : ℝ) ≠ 0 := by
    have : 0 < W := hW
    exact_mod_cast this.ne'
  rw [calculateGeometricMean_eq _ _ _ hne, hfil]
  simp only [List.map_replicate, List.sum_replicate, List.length_replicate, nsmul_eq_mul]
  rw [mul_div_cancel_left₀ _ hW0, Real.exp_log hP]

/-- C12. On the constant series of a price `P > 0` repeated `W ≥ 1` times,
`calculateGeometricMean`, read over the reals, returns `P` exactly. -/
theorem calculateGeometricMean_constant (P : ℝ) (W : ℕ) (hP : 0 < P) (hW : 1 ≤ W) :
    calculateGeometricMean Real.log Real.exp (List.replicate W P) = P :=
  geometricMean_replicate P W hP hW

/-- Witness for C12: the price 95000 repeated 200 times. -/
theorem calculateGeometricMean_constant_witness :
    calculateGeometricMean Real.log Real.exp (List.replicate 200 (95000 : ℝ)) = 95000 :=
  calculateGeometricMean_constant 95000 200 (by norm_num) (by norm_num)

/-- The positive prices of `m` copies of a positive `P` followed by `k` zeros
are the `m` copies of `P`. -/
theorem filter_pos_padded (P : ℝ) (m k : ℕ) (hP : 0 < P) :
    (List.replicate m P ++ List.replicate k (0 : ℝ)).filter (fun p => p > 0)
      = List.replicate m P := by
  rw [List.filter_append]
  have h1 : (List.replicate m P).filter (fun p => p > 0) = List.replicate m P :=
    filter_pos_of_all_pos _ (fun p hp => by rw [(List.mem_replicate.mp hp).2]; exact hP)
  have h2 : (List.replicate k (0 : ℝ)).filter (fun p => p > 0) = [] := by
    rw [List.filter_eq_nil_iff]
    intro p hp
    rw [(List.mem_replicate.mp hp).2]
    simp
  rw [h1, h2, List.append_nil]

/-- C13 (the code at a failing input). On the 200-close series of 199 closes at
4 followed by one close at 0, read over the reals, `calculateGeometricMean`
divides the log-sum of the 199 positive closes by the length 200 and returns
`exp (199 * log 4 / 200)`, which is below 4, whereas the mean over the strictly
positive closes only gives 4, the cost basis of the 199 closes alone: the zero
entry changes the cost basis of the remaining prices. The same happens on the
two-element series `[4, 0]`, where the code returns 2. -/
theorem calculateGeometricMean_counts_skipped_prices :
    calculateGeometricMean Real.log Real.exp (List.replicate 199 (4 : ℝ) ++ [0])
      = Real.exp (199 * Real.log 4 / 200) ∧
    calculateGeometricMean Real.log Real.exp (List.replicate 199 (4 : ℝ) ++ [0]) < 4 ∧
    specGeometricMean Real.log Real.exp (List.replicate 199 (4 : ℝ) ++ [0]) = 4 ∧
    calculateGeometricMean Real.log Real.exp (List.replicate 199 (4 : ℝ)) = 4 ∧
    calculateGeometricMean Real.log Real.exp [(4 : ℝ), 0] = 2 ∧
    specGeometricMean Real.log Real.exp [(4 : ℝ), 0] = 4 := by
  have h4 : (0 : ℝ) < 4 := by norm_num
  have hlog4 : 0 < Real.log 4 := Real.log_pos (by norm_num)
  have hfil := filter_pos_padded 4 199 1 h4
  have hfil2 := filter_pos_padded 4 1 1 h4
  have hne : List.replicate 199 (4 : ℝ) ++ [0] ≠ [] :=
    List.append_ne_nil_of_right_ne_nil _ (List.cons_ne_nil _ _)
  have hcode : calculateGeometricMean Real.log Real.exp (List.replicate 199 (4 : ℝ) ++ [0])
      = Real.exp (199 * Real.log 4 / 200) := by
    rw [calculateGeometricMean_eq _ _ _ hne]
    rw [show ([0] : List ℝ) = List.replicate 1 0 from rfl, hfil]
    simp only [List.map_replicate, List.sum_replicate, List.length_append,
      List.length_replicate, nsmul_eq_mul]
    norm_num
  have hlog : Real.log 4 = 2 * Real.log 2 := by
    rw [show (4 : ℝ) = 2 ^ 2 by norm_num, Real.log_pow]
    norm_num
  refine ⟨hcode, ?_, ?_, geometricMean_replicate 4 199 h4 (by norm_num), ?_, ?_⟩
  · rw [hcode]
    calc Real.exp (199 * Real.log 4 / 200) < Real.exp (Real.log 4) := by
          apply Real.exp_lt_exp.mpr
          linarith
      _ = 4 := Real.exp_log h4
  · unfold specGeometricMean
    rw [show ([0] : List ℝ) = List.replicate 1 0 from rfl, hfil]
    simp only [List.map_replicate, List.sum_replicate, List.length_replicate, nsmul_eq_mul]
    rw [mul_div_cancel_left₀ _ (by norm_num : ((199 : ℕ) : ℝ) ≠ 0), Real.exp_log h4]
  · rw [calculateGeometricMean_eq _ _ _ (by simp)]
    norm_num
    rw [hlog, mul_div_cancel_left₀ _ (by norm_num : (2 : ℝ) ≠ 0), Real.exp_log (by norm_num)]
  · unfold specGeometricMean
    norm_num
    exact Real.exp_log (by norm_num)

/-- C14. `calculateExponentialValue` returns 0 for every coin age at or below
zero, and for every coin age `d ≥ 1`, read over the reals, it returns
`10 ^ (5.84 * log10 d - 17.01)`. -/
theorem calculateExponentialValue_formula (d : Int) :
    (d ≤ 0 → ∀ (Log10 : ℝ → ℝ) (Pow : ℝ → ℝ → ℝ),
      calculateExponentialValue Log10 Pow d = 0) ∧
    (1 ≤ d →
      calculateExponentialValue (Real.logb 10) (fun x y => x ^ y) d =
        (10 : ℝ) ^ ((5.84 : ℝ) * Real.logb 10 (d : ℝ) - 17.01)) := by
  constructor
  · intro h Log10 Pow
    simp only [calculateExponentialValue, if_pos h]
  · intro h
    have h0 : ¬ d ≤ 0 := by omega
    simp only [calculateExponentialValue, if_neg h0, ahr999Coefficient, ahr999Constant]
    rw [sub_eq_add_neg]

/-- Witness for C14: the coin ages 0, -5 and 6000. -/
theorem calculateExponentialValue_formula_witness :
    calculateExponentialValue (Real.logb 10) (fun x y => x ^ y) 0 = (0 : ℝ) ∧
    calculateExponentialValue (Real.logb 10) (fun x y => x ^ y) (-5) = (0 : ℝ) ∧
    calculateExponentialValue (Real.logb 10) (fun x y => x ^ y) 6000 =
      (10 : ℝ) ^ ((5.84 : ℝ) * Real.logb 10 ((6000 : Int) : ℝ) - 17.01) :=
  ⟨(calculateExponentialValue_formula 0).1 (le_refl _) _ _,
   (calculateExponentialValue_formula (-5)).1 (by decide) _ _,
   (calculateExponentialValue_formula 6000).2 (by decide)⟩

/-- C16. Each estimator fails explicitly on a short series: with fewer than 200
usable closes `AHR999Calculator.Calculate` returns an error and no result, with
fewer than 730 `MA730Calculator.Calculate` does, and a failed fetch is passed on
as an error by both. -/
theorem Calculate_fails_on_short_series {α : Type} [LinearOrderedField α]
    (Log Exp Log10 : α → α) (Pow : α → α → α) (closes : List α) (series : List ℚ)
    (sinceGenesis now : Int) (err : String)
    (hA : closes.length < 200) (hM : series.length < 730) :
    AHR999Calculator.Calculate Log Exp Log10 Pow (Except.ok closes) sinceGenesis now =
      Except.error ("K线数据不足，需要200条，实际获取" ++ toString closes.length ++ "条") ∧
    MA730Calculator.Calculate (Except.ok series) now =
      Except.error ("K线数据不足，需要730条，实际获取" ++ toString series.length ++ "条") ∧
    AHR999Calculator.Calculate Log Exp Log10 Pow (Except.error err) sinceGenesis now =
      Except.error ("获取K线数据失败: " ++ err) ∧
    MA730Calculator.Calculate (Except.error err) now =
      Except.error ("获取K线数据失败: " ++ err) := by
  refine ⟨?_, ?_, rfl, rfl⟩
  · simp only [AHR999Calculator.Calculate, if_pos hA]
  · simp only [MA730Calculator.Calculate, if_pos hM]

/-- Witness for C16: 199 closes for the valuation index and 729 for the trend
multiple. -/
theorem Calculate_fails_on_short_series_witness :
    AHR999Calculator.Calculate (fun x : ℚ => x) (fun x => x) (fun x => x) (fun x _ => x)
        (Except.ok (List.replicate 199 (95000 : ℚ))) 0 0 =
      Except.error ("K线数据不足，需要200条，实际获取"
        ++ toString (List.replicate 199 (95000 : ℚ)).length ++ "条") ∧
    MA730Calculator.Calculate (Except.ok (List.replicate 729 (95000 : ℚ))) 0 =
      Except.error ("K线数据不足，需要730条，实际获取"
        ++ toString (List.replicate 729 (95000 : ℚ)).length ++ "条") ∧
    AHR999Calculator.Calculate (fun x : ℚ => x) (fun x => x) (fun x => x) (fun x _ => x)
        (Except.error "timeout") 0 0 =
      Except.error ("获取K线数据失败: " ++ "timeout") ∧
    MA730Calculator.Calculate (Except.error "timeout") 0 =
      Except.error ("获取K线数据失败: " ++ "timeout") :=
  Calculate_fails_on_short_series (fun x : ℚ => x) (fun x => x) (fun x => x) (fun x _ => x)
    (List.replicate 199 (95000 : ℚ)) (List.replicate 729 (95000 : ℚ)) 0 0 "timeout"
    (by rw [List.length_replicate]; norm_num) (by rw [List.length_replicate]; norm_num)

/-- The mean of a series of non-negative closes is non-negative. -/
theorem calculateSMA_nonneg (prices : List ℚ) (h : ∀ p ∈ prices, 0 ≤ p) :
    0 ≤ calculateSMA prices := by
  by_cases hne : prices = []
  · rw [hne]
    simp [calculateSMA]
  · rw [calculateSMA_eq prices hne]
    exact div_nonneg (List.sum_nonneg h) (Nat.cast_nonneg _)

/-- C17 (as stated, refuted). On the constant series of 730 closes at -1 the
current price equals MA730, yet the state is MA730Top, not MA730Normal: -1 is
not below the mean -1 but it is above five times the mean, -5. -/
theorem MA730Calculator_Calculate_negative_mean :
    ∃ r : MA730Result,
      MA730Calculator.Calculate (Except.ok (List.replicate 730 (-1 : ℚ))) 0 = Except.ok r ∧
      r.CurrentPrice = r.MA730 ∧ r.MA730x5 = -5 ∧ r.State = MA730Top ∧
      r.State ≠ MA730Normal := by
  have hne : List.replicate 730 (-1 : ℚ) ≠ [] := by
    intro h
    have := congrArg List.length h
    rw [List.length_replicate] at this
    cases this
  have hsma : calculateSMA (List.replicate 730 (-1 : ℚ)) = -1 := by
    rw [calculateSMA_eq _ hne, List.sum_replicate, List.length_replicate]
    norm_num
  have hcur : (List.replicate 730 (-1 : ℚ)).getD ((List.replicate 730 (-1 : ℚ)).length - 1) 0
      = -1 := by
    have h1 := getD_last (List.replicate 730 (-1 : ℚ)) 0 hne
    rw [List.getLast?_replicate] at h1
    simp only [show ¬ (730 : ℕ) = 0 by norm_num, if_false] at h1
    exact (Option.some.inj h1).symm
  have hlen : ¬ (List.replicate 730 (-1 : ℚ)).length < 730 := by
    rw [List.length_replicate]
    exact lt_irrefl _
  simp only [MA730Calculator.Calculate, if_neg hlen, hsma, hcur]
  refine ⟨_, rfl, rfl, ?_, ?_, ?_⟩
  · norm_num
  · norm_num [MA730Top]
  · norm_num [MA730Top, MA730Normal]

/-- C17 (amended). On a fetched series of at least 730 closes
`MA730Calculator.Calculate` returns the last close as current price, MA730 the
arithmetic mean of the series, MA730x5 five times MA730 and the multiplier
`CurrentPrice / MA730`; the state is MA730Bottom if the price is below MA730
(strict), otherwise MA730Top if the price is above MA730x5 (strict), otherwise
MA730Normal. When MA730 is not negative, as for non-negative closes, a price
above MA730x5 is always MA730Top and the prices `MA730` and `MA730x5` themselves
are both MA730Normal. -/
theorem MA730Calculator_Calculate_result (prices : List ℚ) (now : Int)
    (h : 730 ≤ prices.length) :
    ∃ r : MA730Result,
      MA730Calculator.Calculate (Except.ok prices) now = Except.ok r ∧
      prices.getLast? = some r.CurrentPrice ∧
      r.MA730 = prices.sum / (prices.length : ℚ) ∧
      r.MA730x5 = 5 * r.MA730 ∧
      r.Multiplier = r.CurrentPrice / r.MA730 ∧
      (r.CurrentPrice < r.MA730 → r.State = MA730Bottom) ∧
      (¬ r.CurrentPrice < r.MA730 → r.CurrentPrice > r.MA730x5 → r.State = MA730Top) ∧
      (¬ r.CurrentPrice < r.MA730 → ¬ r.CurrentPrice > r.MA730x5 → r.State = MA730Normal) ∧
      ((∀ p ∈ prices, 0 ≤ p) → 0 ≤ r.MA730) ∧
      (0 ≤ r.MA730 → r.CurrentPrice > r.MA730x5 → r.State = MA730Top) ∧
      (0 ≤ r.MA730 → r.CurrentPrice = r.MA730 → r.State = MA730Normal) ∧
      (0 ≤ r.MA730 → r.CurrentPrice = r.MA730x5 → r.State = MA730Normal) := by
  have hlen : ¬ prices.length < 730 := by omega
  have hne : prices ≠ [] := by
    intro h0
    rw [h0] at h
    simp at h
  simp only [MA730Calculator.Calculate, if_neg hlen]
  refine ⟨_, rfl, getD_last prices 0 hne, calculateSMA_eq prices hne, mul_comm _ _, rfl,
    ?_, ?_, ?_, ?_, ?_, ?_, ?_⟩
  · intro h1
    show (if _ then _ else _) = _
    rw [if_pos h1]
  · intro h1 h2
    show (if _ then _ else _) = _
    rw [if_neg h1, if_pos h2]
  · intro h1 h2
    show (if _ then _ else _) = _
    rw [if_neg h1, if_neg h2]
  · intro hp
    exact calculateSMA_nonneg prices hp
  · intro h0 h2
    have h1 : ¬ prices.getD (prices.length - 1) 0 < calculateSMA prices := by
      apply not_lt.mpr
      have h3 : calculateSMA prices * 5 < prices.getD (prices.length - 1) 0 := h2
      have h4 : 0 ≤ calculateSMA prices := h0
      linarith
    show (if _ then _ else _) = _
    rw [if_neg h1, if_pos h2]
  · intro h0 he
    have h4 : 0 ≤ calculateSMA prices := h0
    have h5 : prices.getD (prices.length - 1) 0 = calculateSMA prices := he
    have h1 : ¬ prices.getD (prices.length - 1) 0 < calculateSMA prices := by
      rw [h5]
      exact lt_irrefl _
    have h2 : ¬ prices.getD (prices.length - 1) 0 > calculateSMA prices * 5 := by
      rw [h5]
      apply not_lt.mpr
      linarith
    show (if _ then _ else _) = _
    rw [if_neg h1, if_neg h2]
  · intro h0 he
    have h4 : 0 ≤ calculateSMA prices := h0
    have h5 : prices.getD (prices.length - 1) 0 = calculateSMA prices * 5 := he
    have h1 : ¬ prices.getD (prices.length - 1) 0 < calculateSMA prices := by
      rw [h5]
      apply not_lt.mpr
      linarith
    have h2 : ¬ prices.getD (prices.length - 1) 0 > calculateSMA prices * 5 := by
      rw [h5]
      exact lt_irrefl _
    show (if _ then _ else _) = _
    rw [if_neg h1, if_neg h2]

/-- Witness for C17 (amended): the constant series of 730 closes at 95000. -/
theorem MA730Calculator_Calculate_result_witness :
    ∃ r : MA730Result,
      MA730Calculator.Calculate (Except.ok (List.replicate 730 (95000 : ℚ))) 0
        = Except.ok r ∧
      r.CurrentPrice = 95000 ∧ r.MA730 = 95000 ∧ r.MA730x5 = 475000 ∧ r.Multiplier = 1 ∧
      r.State = MA730Normal := by
  obtain ⟨r, hr, hlast, hma, hx5, hmul, -, -, -, hnn, -, hnormal, -⟩ :=
    MA730Calculator_Calculate_result (List.replicate 730 (95000 : ℚ)) 0
      (by rw [List.length_replicate])
  have hcur : r.CurrentPrice = 95000 := by
    rw [List.getLast?_replicate] at hlast
    simp only [show ¬ (730 : ℕ) = 0 by norm_num, if_false] at hlast
    exact (Option.some.inj hlast).symm
  have hma2 : r.MA730 = 95000 := by
    rw [hma, List.sum_replicate, List.length_replicate]
    norm_num
  have h0 : 0 ≤ r.MA730 := by
    rw [hma2]
    norm_num
  refine ⟨r, hr, hcur, hma2, ?_, ?_, hnormal h0 (hcur.trans hma2.symm)⟩
  · rw [hx5, hma2]
    norm_num
  · rw [hmul, hcur, hma2]
    norm_num

end calculator

/-! ## The dispersion estimator -/

namespace fetcher

/-- The variance loop of `FetchWithHistory` adds the squared deviations. -/
theorem varianceSum_foldl (mean : ℚ) (xs : List ℚ) (acc : ℚ) :
    xs.foldl (fun acc v => acc + (v - mean) * (v - mean)) acc =
      acc + (xs.map (fun v => (v - mean) ^ 2)).sum := by
  induction xs generalizing acc with
  | nil => simp
  | cons p ps ih =>
    rw [List.foldl_cons, ih, List.map_cons, List.sum_cons]
    ring

/-- Unfolding of one round of the loop of `sqrt`. -/
theorem sqrtLoop_succ (x : ℚ) (n : ℕ) (z : ℚ) :
    sqrtLoop x (n + 1) z =
      if 2 * z = 0 then none else sqrtLoop x n (z - (z * z - x) / (2 * z)) := rfl

/-- One Newton round from a positive iterate, for a positive operand: the
divisor is not zero, the next iterate is positive, its square is at least the
operand, and the excess of the square shrinks to the square of the old excess
over `4 * z * z`. -/
theorem newton_round (x z : ℚ) (hx : 0 < x) (hz : 0 < z) :
    2 * z ≠ 0 ∧ 0 < z - (z * z - x) / (2 * z) ∧
    (z - (z * z - x) / (2 * z)) * (z - (z * z - x) / (2 * z)) - x
      = (z * z - x) ^ 2 / (4 * (z * z)) := by
  have h2z : 2 * z ≠ 0 := by positivity
  have hstep : z - (z * z - x) / (2 * z) = (z * z + x) / (2 * z) := by
    field_simp
    ring
  refine ⟨h2z, ?_, ?_⟩
  · rw [hstep]
    positivity
  · rw [hstep]
    field_simp
    ring

/-- The loop of `sqrt` from a positive iterate whose square is at least the
positive operand: it never divides by zero, and the result is positive, not
above the start, with a square at least the operand and an excess at most the
starting excess over `4 ^ n`. -/
theorem sqrtLoop_spec (x : ℚ) (hx : 0 < x) (n : ℕ) :
    ∀ z : ℚ, 0 < z → x ≤ z * z →
      ∃ r : ℚ, sqrtLoop x n z = some r ∧ 0 < r ∧ r ≤ z ∧ x ≤ r * r ∧
        r * r - x ≤ (z * z - x) / 4 ^ n := by
  induction n with
  | zero =>
    intro z hz hzz
    exact ⟨z, rfl, hz, le_refl _, hzz, by simp⟩
  | succ n ih =>
    intro z hz hzz
    obtain ⟨h2z, hpos, hsq⟩ := newton_round x z hx hz
    have hzz0 : 0 < z * z := mul_pos hz hz
    have he : 0 ≤ z * z - x := by linarith
    have hexc : (z * z - x) ^ 2 / (4 * (z * z)) ≤ (z * z - x) / 4 := by
      rw [div_le_iff₀ (by positivity)]
      have : (z * z - x) * (z * z - x) ≤ (z * z - x) * (z * z) :=
        mul_le_mul_of_nonneg_left (by linarith) he
      calc (z * z - x) ^ 2 = (z * z - x) * (z * z - x) := by ring
        _ ≤ (z * z - x) * (z * z) := this
        _ = (z * z - x) / 4 * (4 * (z * z)) := by ring
    have hnext : x ≤ (z - (z * z - x) / (2 * z)) * (z - (z * z - x) / (2 * z)) := by
      have h0 : 0 ≤ (z * z - x) ^ 2 / (4 * (z * z)) := by positivity
      linarith
    have hle : z - (z * z - x) / (2 * z) ≤ z := by
      have : 0 ≤ (z * z - x) / (2 * z) := div_nonneg he (by positivity)
      linarith
    obtain ⟨r, hr, hr0, hrz, hrx, hrexc⟩ := ih _ hpos hnext
    refine ⟨r, ?_, hr0, le_trans hrz hle, hrx, ?_⟩
    · rw [sqrtLoop_succ, if_neg h2z]
      exact hr
    · have h4 : (0 : ℚ) < 4 ^ n := by positivity
      calc r * r - x
          ≤ ((z - (z * z - x) / (2 * z)) * (z - (z * z - x) / (2 * z)) - x) / 4 ^ n := hrexc
        _ ≤ ((z * z - x) / 4) / 4 ^ n := by
            apply div_le_div_of_nonneg_right _ h4.le
            rw [hsq]
            exact hexc
        _ = (z * z - x) / 4 ^ (n + 1) := by
            rw [pow_succ, div_div, mul_comm (4 ^ n) 4]

/-- The function `sqrt` on a positive operand: after the first round, which
moves `x / 2` to `x / 4 + 1`, the loop is in the regime of `sqrtLoop_spec`. -/
theorem sqrt_pos_spec (x : ℚ) (hx : 0 < x) :
    ∃ r : ℚ, sqrt x = some r ∧ 0 < r ∧ x ≤ r * r ∧
      r * r - x ≤ (x / 4 - 1) ^ 2 / 4 ^ 99 := by
  have hneg : ¬ x < 0 := not_lt.mpr hx.le
  have h2 : ¬ 2 * (x / 2) = 0 := by
    intro h
    have : 2 * (x / 2) = x := by ring
    rw [this] at h
    exact hx.ne' h
  have hfirst : x / 2 - (x / 2 * (x / 2) - x) / (2 * (x / 2)) = x / 4 + 1 := by
    field_simp
    ring
  have hsq : (x / 4 + 1) * (x / 4 + 1) - x = (x / 4 - 1) ^ 2 := by ring
  have hz1 : 0 < x / 4 + 1 := by positivity
  have hzz : x ≤ (x / 4 + 1) * (x / 4 + 1) := by
    have : 0 ≤ (x / 4 - 1) ^ 2 := by positivity
    linarith
  obtain ⟨r, hr, hr0, -, hrx, hrexc⟩ := sqrtLoop_spec x hx 99 (x / 4 + 1) hz1 hzz
  refine ⟨r, ?_, hr0, hrx, ?_⟩
  · simp only [sqrt, if_neg hneg]
    show sqrtLoop x (99 + 1) (x / 2) = some r
    rw [sqrtLoop_succ, if_neg h2, hfirst]
    exact hr
  · rw [hsq] at hrexc
    exact hrexc

/-- The statistics step when the standard deviation it reaches is `std`: the
result carries the first sample and the Z-score computed from `std`. -/
theorem historyStatistics_eq (x0 : ℚ) (rest : List ℚ) (dataTime : Int) (std : ℚ)
    (hstd : (if (x0 :: rest).length > 1 then
        (if specSampleVariance (x0 :: rest) > 0 then sqrt (specSampleVariance (x0 :: rest))
          else some (specSampleVariance (x0 :: rest)))
        else some 0) = some std) :
    historyStatistics (x0 :: rest) dataTime =
      some
        { MVRV := x0
          ZScore := if std > 0 then (x0 - specMean (x0 :: rest)) / std else 0
          Timestamp := dataTime
          Source := "CoinMetrics Community API (" ++ toString (x0 :: rest).length
            ++ "天历史)" } := by
  have hcast : (((x0 :: rest).length - 1 : ℕ) : ℚ) = ((x0 :: rest).length : ℚ) - 1 := by
    simp
  have hmean : (x0 :: rest).foldl (fun acc v => acc + v) 0 / ((x0 :: rest).length : ℚ)
      = specMean (x0 :: rest) := by
    rw [calculator.sum_foldl, zero_add]
    rfl
  have hvar : (x0 :: rest).foldl
      (fun acc v => acc + (v - specMean (x0 :: rest)) * (v - specMean (x0 :: rest))) 0
        / (((x0 :: rest).length - 1 : ℕ) : ℚ) = specSampleVariance (x0 :: rest) := by
    rw [varianceSum_foldl, zero_add, hcast]
    rfl
  unfold historyStatistics
  simp only [hmean, hvar, hstd]

/-- On a sequence whose samples all equal `v` the reference mean is `v` and the
reference variance is 0. -/
theorem spec_stats_constant (v : ℚ) (xs : List ℚ) (hne : xs ≠ [])
    (h : ∀ b ∈ xs, b = v) : specMean xs = v ∧ specSampleVariance xs = 0 := by
  have hrep : xs = List.replicate xs.length v := List.eq_replicate_iff.mpr ⟨rfl, h⟩
  have hlen : (xs.length : ℚ) ≠ 0 := by
    have := List.length_pos.mpr hne
    exact_mod_cast this.ne'
  have hmean : specMean xs = v := by
    unfold specMean
    rw [hrep, List.sum_replicate, List.length_replicate, nsmul_eq_mul,
      mul_div_cancel_left₀ _ hlen]
  refine ⟨hmean, ?_⟩
  unfold specSampleVariance
  rw [hmean]
  have hzero : (xs.map (fun w => (w - v) ^ 2)).sum = 0 := by
    apply List.sum_eq_zero
    intro y hy
    obtain ⟨w, hw, rfl⟩ := List.mem_map.mp hy
    rw [h w hw]
    ring
  rw [hzero, zero_div]

end fetcher

/-! ## Invariants of the signal -/

namespace strategy

/-- A concatenation whose left part is not the empty string is not empty. -/
theorem append_left_ne_empty (a b : String) (h : a ≠ "") : a ++ b ≠ "" := by
  intro h2
  apply h
  have h3 := congrArg String.data h2
  rw [String.data_append] at h3
  have h4 : a.data = [] := (List.append_eq_nil.mp h3).1
  exact String.ext h4

/-- The outcome table of `EvaluateV2` over all three paths: BTC action, amount
factor, halted flag and whether the warning is empty, one of seven rows. -/
theorem EvaluateV2_outcome (today : String) (indicators : model.MarketIndicators) :
    ((EvaluateV2 today indicators).ActionBTC = model.ActionHalt ∧
      (EvaluateV2 today indicators).ActionETH = model.ActionHalt ∧
      (EvaluateV2 today indicators).AmountFactor = 0 ∧
      (EvaluateV2 today indicators).IsHalted = true ∧
      (EvaluateV2 today indicators).WarningMsg ≠ "") ∨
    ((EvaluateV2 today indicators).ActionBTC = model.ActionSellAlert ∧
      (EvaluateV2 today indicators).ActionETH = model.ActionSellAlert ∧
      (EvaluateV2 today indicators).AmountFactor = 0 ∧
      (EvaluateV2 today indicators).IsHalted = true ∧
      (EvaluateV2 today indicators).WarningMsg ≠ "") ∨
    ((EvaluateV2 today indicators).ActionBTC = model.ActionHoldCaution ∧
      (EvaluateV2 today indicators).AmountFactor = 0 ∧
      (EvaluateV2 today indicators).IsHalted = false ∧
      (EvaluateV2 today indicators).WarningMsg ≠ "") ∨
    ((EvaluateV2 today indicators).ActionBTC = model.ActionStrongBuy ∧
      (EvaluateV2 today indicators).AmountFactor = 1.5 ∧
      (EvaluateV2 today indicators).IsHalted = false ∧
      (EvaluateV2 today indicators).WarningMsg = "") ∨
    ((EvaluateV2 today indicators).ActionBTC = model.ActionDCABuy ∧
      (EvaluateV2 today indicators).AmountFactor = 1.0 ∧
      (EvaluateV2 today indicators).IsHalted = false ∧
      (EvaluateV2 today indicators).WarningMsg = "") ∨
    ((EvaluateV2 today indicators).ActionBTC = model.ActionHold ∧
      (EvaluateV2 today indicators).AmountFactor = 0 ∧
      (EvaluateV2 today indicators).IsHalted = false ∧
      (EvaluateV2 today indicators).WarningMsg = "") ∨
    ((EvaluateV2 today indicators).ActionBTC = model.ActionSell ∧
      (EvaluateV2 today indicators).AmountFactor = 0 ∧
      (EvaluateV2 today indicators).IsHalted = false ∧
      (EvaluateV2 today indicators).WarningMsg = "") := by
  rcases path_cases indicators with h | ⟨hl, ht⟩ | ⟨hl, hpi, hma⟩
  · obtain ⟨hb, he, hf, hh, hw⟩ := EvaluateV2_leverage_path today indicators h
    refine Or.inl ⟨hb, he, hf, hh, ?_⟩
    rw [hw]
    apply append_left_ne_empty
    apply append_left_ne_empty
    apply append_left_ne_empty
    exact append_ne_empty _ _ (by decide)
  · obtain ⟨hb, he, hf, hh, hw⟩ := EvaluateV2_top_path today indicators hl ht
    refine Or.inr (Or.inl ⟨hb, he, hf, hh, ?_⟩)
    rw [hw]
    decide
  · obtain ⟨hh, hrows⟩ := EvaluateV2_normal_cases today indicators hl hpi hma
    rcases hrows with ⟨-, -, hb, hf, hw⟩ | ⟨-, -, hb, hf, hw⟩ | ⟨-, -, -, hb, hf, hw⟩ |
      ⟨-, -, hb, hf, hw⟩ | ⟨-, hb, hf, hw⟩
    · refine Or.inr (Or.inr (Or.inl ⟨hb, hf, hh, ?_⟩))
      rw [hw]
      apply append_left_ne_empty
      exact append_ne_empty _ _ (by decide)
    · exact Or.inr (Or.inr (Or.inr (Or.inl ⟨hb, hf, hh, hw⟩)))
    · exact Or.inr (Or.inr (Or.inr (Or.inr (Or.inl ⟨hb, hf, hh, hw⟩))))
    · exact Or.inr (Or.inr (Or.inr (Or.inr (Or.inr (Or.inl ⟨hb, hf, hh, hw⟩)))))
    · exact Or.inr (Or.inr (Or.inr (Or.inr (Or.inr (Or.inr ⟨hb, hf, hh, hw⟩)))))

/-- C25. The amount factor is tied to the BTC action for every snapshot: it is
never negative, it is 1.5 exactly when the action is STRONG_BUY, 1.0 exactly
when the action is DCA_BUY, and 0 for HALT, SELL_ALERT, HOLD, HOLD_CAUTION and
SELL. -/
theorem EvaluateV2_amount_factor_tied (today : String) (indicators : model.MarketIndicators) :
    0 ≤ (EvaluateV2 today indicators).AmountFactor ∧
    ((EvaluateV2 today indicators).AmountFactor = 1.5 ↔
      (EvaluateV2 today indicators).ActionBTC = model.ActionStrongBuy) ∧
    ((EvaluateV2 today indicators).AmountFactor = 1.0 ↔
      (EvaluateV2 today indicators).ActionBTC = model.ActionDCABuy) ∧
    ((EvaluateV2 today indicators).ActionBTC = model.ActionHalt →
      (EvaluateV2 today indicators).AmountFactor = 0) ∧
    ((EvaluateV2 today indicators).ActionBTC = model.ActionSellAlert →
      (EvaluateV2 today indicators).AmountFactor = 0) ∧
    ((EvaluateV2 today indicators).ActionBTC = model.ActionHold →
      (EvaluateV2 today indicators).AmountFactor = 0) ∧
    ((EvaluateV2 today indicators).ActionBTC = model.ActionHoldCaution →
      (EvaluateV2 today indicators).AmountFactor = 0) ∧
    ((EvaluateV2 today indicators).ActionBTC = model.ActionSell →
      (EvaluateV2 today indicators).AmountFactor = 0) := by
  rcases EvaluateV2_outcome today indicators with
    ⟨hb, -, hf, -, -⟩ | ⟨hb, -, hf, -, -⟩ | ⟨hb, hf, -, -⟩ | ⟨hb, hf, -, -⟩ |
    ⟨hb, hf, -, -⟩ | ⟨hb, hf, -, -⟩ | ⟨hb, hf, -, -⟩ <;>
  · rw [hb, hf]
    norm_num [model.ActionHalt, model.ActionSellAlert, model.ActionStrongBuy,
      model.ActionDCABuy, model.ActionHold, model.ActionHoldCaution, model.ActionSell]
    decide

/-- Witness for C25: the four zones of the test snapshot and the overheat
scenario evaluated through the theorem. -/
theorem EvaluateV2_amount_factor_tied_witness :
    (EvaluateV2 "2026-11-01" { newTestIndicators with AccountLeverage := 2.0 }).AmountFactor
      = 0 ∧
    ((EvaluateV2 "2026-11-01" { newTestIndicators with AHR999 := 0.30 }).AmountFactor = 1.5 ↔
      (EvaluateV2 "2026-11-01" { newTestIndicators with AHR999 := 0.30 }).ActionBTC
        = model.ActionStrongBuy) :=
  ⟨(EvaluateV2_amount_factor_tied "2026-11-01"
      { newTestIndicators with AccountLeverage := 2.0 }).2.2.2.1
      (EvaluateV2_leverage_path "2026-11-01"
        { newTestIndicators with AccountLeverage := 2.0 } (by norm_num)).1,
   (EvaluateV2_amount_factor_tied "2026-11-01"
      { newTestIndicators with AHR999 := 0.30 }).2.1⟩

/-- C26. `EvaluateV2` halts exactly when a breaker condition holds: the halted
flag is set if and only if the leverage exceeds 1.5 or the Pi cross is set or
the MA state is the bull top; leverage exactly 1.5 without a top signal does not
halt; the flag is set if and only if the BTC action is HALT or SELL_ALERT, and
then the ETH action equals the BTC action. -/
theorem EvaluateV2_halts_iff_breaker (today : String) (indicators : model.MarketIndicators) :
    ((EvaluateV2 today indicators).IsHalted = true ↔
      (indicators.AccountLeverage > 1.5 ∨ indicators.PiCycleCross = true ∨
        indicators.MaMultiplierState = model.MaStateBullTop)) ∧
    (indicators.AccountLeverage = 1.5 → indicators.PiCycleCross = false →
      indicators.MaMultiplierState ≠ model.MaStateBullTop →
      (EvaluateV2 today indicators).IsHalted = false) ∧
    ((EvaluateV2 today indicators).IsHalted = true ↔
      ((EvaluateV2 today indicators).ActionBTC = model.ActionHalt ∨
        (EvaluateV2 today indicators).ActionBTC = model.ActionSellAlert)) ∧
    ((EvaluateV2 today indicators).IsHalted = true →
      (EvaluateV2 today indicators).ActionETH = (EvaluateV2 today indicators).ActionBTC) := by
  have hiff : (EvaluateV2 today indicators).IsHalted = true ↔
      (indicators.AccountLeverage > 1.5 ∨ indicators.PiCycleCross = true ∨
        indicators.MaMultiplierState = model.MaStateBullTop) := by
    rcases path_cases indicators with h | ⟨hl, ht⟩ | ⟨hl, hpi, hma⟩
    · exact ⟨fun _ => Or.inl h, fun _ => (EvaluateV2_leverage_path today indicators h).2.2.2.1⟩
    · exact ⟨fun _ => Or.inr ht,
        fun _ => (EvaluateV2_top_path today indicators hl ht).2.2.2.1⟩
    · have hh := (EvaluateV2_normal_cases today indicators hl hpi hma).1
      constructor
      · intro h
        rw [hh] at h
        cases h
      · rintro (h | h | h)
        · exact absurd h (not_lt.mpr hl)
        · rw [hpi] at h
          cases h
        · exact absurd h hma
  refine ⟨hiff, ?_, ?_, ?_⟩
  · intro hl hpi hma
    exact (EvaluateV2_normal_cases today indicators (le_of_eq hl) hpi hma).1
  · rcases EvaluateV2_outcome today indicators with
      ⟨hb, -, -, hh, -⟩ | ⟨hb, -, -, hh, -⟩ | ⟨hb, -, hh, -⟩ | ⟨hb, -, hh, -⟩ |
      ⟨hb, -, hh, -⟩ | ⟨hb, -, hh, -⟩ | ⟨hb, -, hh, -⟩ <;>
    · rw [hb, hh]
      norm_num [model.ActionHalt, model.ActionSellAlert, model.ActionStrongBuy,
        model.ActionDCABuy, model.ActionHold, model.ActionHoldCaution, model.ActionSell] <;>
      decide
  · intro h
    rcases EvaluateV2_outcome today indicators with
      ⟨hb, he, -, -, -⟩ | ⟨hb, he, -, -, -⟩ | ⟨-, -, hh, -⟩ | ⟨-, -, hh, -⟩ |
      ⟨-, -, hh, -⟩ | ⟨-, -, hh, -⟩ | ⟨-, -, hh, -⟩
    · rw [hb, he]
    · rw [hb, he]
    all_goals
      rw [hh] at h
      cases h

/-- Witness for C26: leverage exactly 1.5 on the test snapshot does not halt,
and leverage 2.0 halts with equal actions. -/
theorem EvaluateV2_halts_iff_breaker_witness :
    (EvaluateV2 "2026-11-01" { newTestIndicators with AccountLeverage := 1.5 }).IsHalted
      = false ∧
    (EvaluateV2 "2026-11-01" { newTestIndicators with AccountLeverage := 2.0 }).ActionETH
      = (EvaluateV2 "2026-11-01" { newTestIndicators with AccountLeverage := 2.0 }).ActionBTC :=
  ⟨(EvaluateV2_halts_iff_breaker "2026-11-01"
      { newTestIndicators with AccountLeverage := 1.5 }).2.1 rfl rfl (by decide),
   (EvaluateV2_halts_iff_breaker "2026-11-01"
      { newTestIndicators with AccountLeverage := 2.0 }).2.2.2
      ((EvaluateV2_halts_iff_breaker "2026-11-01"
        { newTestIndicators with AccountLeverage := 2.0 }).1.mpr (Or.inl (by norm_num)))⟩

/-- C27. The warning of `EvaluateV2` is non-empty if and only if the signal is
halted or the BTC action is HOLD_CAUTION; in every plain STRONG_BUY, DCA_BUY,
HOLD or SELL outcome the warning is the empty string. -/
theorem EvaluateV2_warning_iff (today : String) (indicators : model.MarketIndicators) :
    ((EvaluateV2 today indicators).WarningMsg ≠ "" ↔
      ((EvaluateV2 today indicators).IsHalted = true ∨
        (EvaluateV2 today indicators).ActionBTC = model.ActionHoldCaution)) ∧
    ((EvaluateV2 today indicators).ActionBTC = model.ActionStrongBuy →
      (EvaluateV2 today indicators).WarningMsg = "") ∧
    ((EvaluateV2 today indicators).ActionBTC = model.ActionDCABuy →
      (EvaluateV2 today indicators).WarningMsg = "") ∧
    ((EvaluateV2 today indicators).ActionBTC = model.ActionHold →
      (EvaluateV2 today indicators).WarningMsg = "") ∧
    ((EvaluateV2 today indicators).ActionBTC = model.ActionSell →
      (EvaluateV2 today indicators).WarningMsg = "") := by
  rcases EvaluateV2_outcome today indicators with
    ⟨hb, -, -, hh, hw⟩ | ⟨hb, -, -, hh, hw⟩ | ⟨hb, -, hh, hw⟩ | ⟨hb, -, hh, hw⟩ |
    ⟨hb, -, hh, hw⟩ | ⟨hb, -, hh, hw⟩ | ⟨hb, -, hh, hw⟩
  · rw [hb, hh]
    refine ⟨⟨fun _ => Or.inl rfl, fun _ => hw⟩, ?_, ?_, ?_, ?_⟩ <;>
      exact fun h => absurd h (by decide)
  · rw [hb, hh]
    refine ⟨⟨fun _ => Or.inl rfl, fun _ => hw⟩, ?_, ?_, ?_, ?_⟩ <;>
      exact fun h => absurd h (by decide)
  · rw [hb, hh]
    refine ⟨⟨fun _ => Or.inr rfl, fun _ => hw⟩, ?_, ?_, ?_, ?_⟩ <;>
      exact fun h => absurd h (by decide)
  all_goals
    rw [hb, hh]
    refine ⟨⟨fun h => absurd hw h, ?_⟩, fun _ => hw, fun _ => hw, fun _ => hw, fun _ => hw⟩
    rintro (h | h)
    · cases h
    · exact absurd h (by decide)

/-- Witness for C27: the overheat scenario carries a warning, the plain DCA
scenario carries none. -/
theorem EvaluateV2_warning_iff_witness :
    (EvaluateV2 "2026-11-01"
      { newTestIndicators with AHR999 := 0.70, MVRVZScore := 7.0 }).WarningMsg ≠ "" ∧
    (EvaluateV2 "2026-11-01" newTestIndicators).WarningMsg = "" :=
  ⟨(EvaluateV2_warning_iff "2026-11-01"
      { newTestIndicators with AHR999 := 0.70, MVRVZScore := 7.0 }).1.mpr
      (Or.inr (by
        simp [EvaluateV2, initialSignal, btcBaseStep, mvrvStep, ethStep, newTestIndicators,
          MaxLeverage, AHR999StrongBuy, AHR999DCAUpper, MVRVOverheat, model.MaStateNormal,
          model.MaStateBullTop, model.EthRegMiddle, model.EthRegLower, model.EthRegUpper]
        norm_num)),
   (EvaluateV2_warning_iff "2026-11-01" newTestIndicators).2.2.1
      (by
        simp [EvaluateV2, initialSignal, btcBaseStep, mvrvStep, ethStep, newTestIndicators,
          MaxLeverage, AHR999StrongBuy, AHR999DCAUpper, MVRVOverheat, model.MaStateNormal,
          model.MaStateBullTop, model.EthRegMiddle, model.EthRegLower, model.EthRegUpper]
        norm_num)⟩

/-! ## The report -/

/-- Containment passes to a concatenation on the right. -/
theorem contains_append_left (a b m : String) (h : strings_Contains a m) :
    strings_Contains (a ++ b) m := by
  unfold strings_Contains at h ⊢
  rw [String.data_append]
  exact h.trans (List.prefix_append a.data b.data).isInfix

/-- Containment passes to a concatenation on the left. -/
theorem contains_append_right (a b m : String) (h : strings_Contains b m) :
    strings_Contains (a ++ b) m := by
  unfold strings_Contains at h ⊢
  rw [String.data_append]
  exact h.trans (List.suffix_append a.data b.data).isInfix

/-- The report of every path of `EvaluateV2` is built by `generateReport`. -/
theorem EvaluateV2_report (today : String) (indicators : model.MarketIndicators) :
    ∃ signal : model.TradeSignal,
      (EvaluateV2 today indicators).ReportMarkdown = generateReport today indicators signal := by
  unfold EvaluateV2
  split_ifs
  · exact ⟨_, rfl⟩
  · exact ⟨_, rfl⟩
  · exact ⟨_, rfl⟩

/-- Every report of `generateReport` is non-empty and contains the nine section
markers. -/
theorem generateReport_markers (today : String) (indicators : model.MarketIndicators)
    (signal : model.TradeSignal) :
    generateReport today indicators signal ≠ "" ∧
    strings_Contains (generateReport today indicators signal) "CryptoSentinel 周报" ∧
    strings_Contains (generateReport today indicators signal) "风控检查" ∧
    strings_Contains (generateReport today indicators signal) "核心指标" ∧
    strings_Contains (generateReport today indicators signal) "执行建议" ∧
    strings_Contains (generateReport today indicators signal) "AHR999" ∧
    strings_Contains (generateReport today indicators signal) "MVRV-Z" ∧
    strings_Contains (generateReport today indicators signal) "ETH位置" ∧
    strings_Contains (generateReport today indicators signal) "BTC 操作" ∧
    strings_Contains (generateReport today indicators signal) "ETH 操作" := by
  have hne : strings_Contains (generateReport today indicators signal) "AHR999" →
      generateReport today indicators signal ≠ "" := by
    intro hc h0
    rw [h0] at hc
    exact absurd (List.eq_nil_of_infix_nil hc) (by decide)
  refine ⟨hne ?_, ?_, ?_, ?_, ?_, ?_, ?_, ?_, ?_, ?_⟩
  all_goals
    unfold generateReport
    repeat
      first
        | exact contains_append_right _ _ _ (by decide)
        | apply contains_append_left
    first
      | done
      | decide

/-- C24. For every snapshot the report returned by `EvaluateV2` is non-empty
on all three return paths and contains the fixed section markers
'CryptoSentinel 周报', '风控检查', '核心指标', '执行建议', 'AHR999', 'MVRV-Z',
'ETH位置', 'BTC 操作' and 'ETH 操作'. -/
theorem EvaluateV2_report_markers (today : String) (indicators : model.MarketIndicators) :
    (EvaluateV2 today indicators).ReportMarkdown ≠ "" ∧
    strings_Contains (EvaluateV2 today indicators).ReportMarkdown "CryptoSentinel 周报" ∧
    strings_Contains (EvaluateV2 today indicators).ReportMarkdown "风控检查" ∧
    strings_Contains (EvaluateV2 today indicators).ReportMarkdown "核心指标" ∧
    strings_Contains (EvaluateV2 today indicators).ReportMarkdown "执行建议" ∧
    strings_Contains (EvaluateV2 today indicators).ReportMarkdown "AHR999" ∧
    strings_Contains (EvaluateV2 today indicators).ReportMarkdown "MVRV-Z" ∧
    strings_Contains (EvaluateV2 today indicators).ReportMarkdown "ETH位置" ∧
    strings_Contains (EvaluateV2 today indicators).ReportMarkdown "BTC 操作" ∧
    strings_Contains (EvaluateV2 today indicators).ReportMarkdown "ETH 操作" := by
  obtain ⟨signal, hrep⟩ := EvaluateV2_report today indicators
  rw [hrep]
  exact generateReport_markers today indicators signal

/-- The report shows the leverage status between "x (" and ")". -/
theorem generateReport_leverage_status (today : String)
    (indicators : model.MarketIndicators) (signal : model.TradeSignal) :
    strings_Contains (generateReport today indicators signal)
      ("x (" ++ reportLeverageStatus indicators ++ ")\n") := by
  unfold generateReport
  iterate 31 apply contains_append_left
  rw [String.append_assoc, String.append_assoc, String.append_assoc "x ("]
  apply contains_append_right
  exact List.infix_refl _

/-- The label of an AHR999 value, zone by zone. -/
theorem getAHR999Desc_zones (a : ℚ) :
    (a < 0.45 → notifier.getAHR999Desc a = "🟢 抄底区") ∧
    (0.45 ≤ a → a < 1.20 → notifier.getAHR999Desc a = "🔵 定投区") ∧
    (1.20 ≤ a → a < 5.00 → notifier.getAHR999Desc a = "🟡 持有区") ∧
    (5.00 ≤ a → notifier.getAHR999Desc a = "🔴 逃顶区") := by
  refine ⟨?_, ?_, ?_, ?_⟩
  · intro h
    simp only [notifier.getAHR999Desc, if_pos h]
  · intro h h2
    simp only [notifier.getAHR999Desc, if_neg (not_lt.mpr h), if_pos h2]
  · intro h h2
    have h1 : ¬ a < 0.45 := by
      apply not_lt.mpr
      linarith
    simp only [notifier.getAHR999Desc, if_neg h1, if_neg (not_lt.mpr h), if_pos h2]
  · intro h
    have h1 : ¬ a < 0.45 := by
      apply not_lt.mpr
      linarith
    have h2 : ¬ a < 1.20 := by
      apply not_lt.mpr
      linarith
    simp only [notifier.getAHR999Desc, if_neg h1, if_neg h2, if_neg (not_lt.mpr h)]

/-- C30. The two renderers agree on every label: the AHR999 description, the
ETH position, the BTC action, the ETH action and the leverage status of
`formatter.go` equal those of `strategy_v2.go` on every input, the leverage
status being the one the report of `generateReport` shows; and the AHR999 label
changes at the breakpoints 0.45, 1.20 and 5.00 of the zone rule of `EvaluateV2`:
each label goes with one base action. -/
theorem renderers_agree :
    (∀ a : ℚ, notifier.getAHR999Desc a = getAHR999Description a) ∧
    (∀ state : String, notifier.getETHPosition state = getEthPositionDescription state) ∧
    (∀ action : String, notifier.getBTCAction action = getBTCActionDescription action) ∧
    (∀ action : String, notifier.getETHAction action = getETHActionDescription action) ∧
    (∀ indicators : model.MarketIndicators,
      notifier.getLeverageStatus indicators.AccountLeverage
        = reportLeverageStatus indicators) ∧
    (∀ (today : String) (indicators : model.MarketIndicators) (signal : model.TradeSignal),
      strings_Contains (generateReport today indicators signal)
        ("x (" ++ notifier.getLeverageStatus indicators.AccountLeverage ++ ")\n")) ∧
    (∀ (indicators : model.MarketIndicators) (signal : model.TradeSignal),
      (indicators.AHR999 < 0.45 ∧
        notifier.getAHR999Desc indicators.AHR999 = "🟢 抄底区" ∧
        (btcBaseStep indicators signal).1.ActionBTC = model.ActionStrongBuy) ∨
      (0.45 ≤ indicators.AHR999 ∧ indicators.AHR999 < 1.20 ∧
        notifier.getAHR999Desc indicators.AHR999 = "🔵 定投区" ∧
        (btcBaseStep indicators signal).1.ActionBTC = model.ActionDCABuy) ∨
      (1.20 ≤ indicators.AHR999 ∧ indicators.AHR999 < 5.00 ∧
        notifier.getAHR999Desc indicators.AHR999 = "🟡 持有区" ∧
        (btcBaseStep indicators signal).1.ActionBTC = model.ActionHold) ∨
      (5.00 ≤ indicators.AHR999 ∧
        notifier.getAHR999Desc indicators.AHR999 = "🔴 逃顶区" ∧
        (btcBaseStep indicators signal).1.ActionBTC = model.ActionSell)) := by
  have hlev : ∀ indicators : model.MarketIndicators,
      notifier.getLeverageStatus indicators.AccountLeverage
        = reportLeverageStatus indicators := fun _ => rfl
  refine ⟨fun _ => rfl, fun _ => rfl, fun _ => rfl, fun _ => rfl, hlev, ?_, ?_⟩
  · intro today indicators signal
    rw [hlev]
    exact generateReport_leverage_status today indicators signal
  · intro indicators signal
    obtain ⟨z1, z2, z3, z4⟩ := getAHR999Desc_zones indicators.AHR999
    rcases lt_or_le indicators.AHR999 0.45 with h | h
    · refine Or.inl ⟨h, z1 h, ?_⟩
      rw [btcBaseStep_strong_buy _ _ h]
    · rcases lt_or_le indicators.AHR999 1.20 with h2 | h2
      · refine Or.inr (Or.inl ⟨h, h2, z2 h h2, ?_⟩)
        rw [btcBaseStep_dca_buy _ _ h h2]
      · rcases lt_or_le indicators.AHR999 5.00 with h3 | h3
        · refine Or.inr (Or.inr (Or.inl ⟨h2, h3, z3 h2 h3, ?_⟩))
          rw [btcBaseStep_hold _ _ h2 h3]
        · refine Or.inr (Or.inr (Or.inr ⟨h3, z4 h3, ?_⟩))
          rw [btcBaseStep_sell _ _ h3]

end strategy

/-! ## The Newton rounds, one by one -/

namespace fetcher

/-- The first round of the iteration can be taken first. -/
theorem sqrtIterate_succ_front (x z0 : ℚ) (n : ℕ) :
    sqrtIterate x z0 (n + 1) =
      if 2 * z0 = 0 then none else sqrtIterate x (z0 - (z0 * z0 - x) / (2 * z0)) n := by
  induction n with
  | zero =>
    simp only [sqrtIterate]
  | succ n ih =>
    rw [sqrtIterate, ih]
    by_cases h : 2 * z0 = 0
    · simp only [if_pos h]
    · simp only [if_neg h]
      rfl

/-- The loop of `sqrt` returns the iterate after its number of rounds. -/
theorem sqrtLoop_eq_iterate (x : ℚ) (n : ℕ) : ∀ z0 : ℚ, sqrtLoop x n z0 = sqrtIterate x z0 n := by
  induction n with
  | zero =>
    intro z0
    rfl
  | succ n ih =>
    intro z0
    rw [sqrtLoop_succ, sqrtIterate_succ_front, ih]

/-- All iterates of `sqrt` on a positive operand: the iterate after `n` rounds
is defined and positive, so the next round does not divide by zero; the iterate
after it is positive with a square at least the operand; and from the first
round on the iterate has a square at least the operand and the next one is not
above it. -/
theorem sqrtIterate_spec (x : ℚ) (hx : 0 < x) (n : ℕ) :
    ∃ z z' : ℚ, sqrtIterate x (x / 2) n = some z ∧ 0 < z ∧ 2 * z ≠ 0 ∧
      sqrtIterate x (x / 2) (n + 1) = some z' ∧ 0 < z' ∧ x ≤ z' * z' ∧
      (1 ≤ n → x ≤ z * z ∧ z' ≤ z) := by
  have step : ∀ z : ℚ, 0 < z →
      2 * z ≠ 0 ∧ 0 < z - (z * z - x) / (2 * z) ∧
      x ≤ (z - (z * z - x) / (2 * z)) * (z - (z * z - x) / (2 * z)) ∧
      (x ≤ z * z → z - (z * z - x) / (2 * z) ≤ z) := by
    intro z hz
    obtain ⟨h2z, hpos, hsq⟩ := newton_round x z hx hz
    refine ⟨h2z, hpos, ?_, ?_⟩
    · have h0 : 0 ≤ (z * z - x) ^ 2 / (4 * (z * z)) := by positivity
      linarith
    · intro hzz
      have : 0 ≤ (z * z - x) / (2 * z) := div_nonneg (by linarith) (by positivity)
      linarith
  induction n with
  | zero =>
    have hz0 : 0 < x / 2 := by positivity
    obtain ⟨h2z, hpos, hsq, -⟩ := step (x / 2) hz0
    refine ⟨x / 2, _, rfl, hz0, h2z, ?_, hpos, hsq, ?_⟩
    · simp only [sqrtIterate, if_neg h2z]
    · intro h
      omega
  | succ n ih =>
    obtain ⟨z, z', hz, -, -, hz', hpos', hsq', hmono⟩ := ih
    obtain ⟨h2z, hpos, hsq, hle⟩ := step z' hpos'
    refine ⟨z', _, hz', hpos', h2z, ?_, hpos, hsq, ?_⟩
    · rw [sqrtIterate, hz']
      simp only [if_neg h2z]
    · intro _
      exact ⟨hsq', hle hsq'⟩

/-- C28. Over exact arithmetic, for every `x > 0` every Newton iterate of
`sqrt x`, started from `x / 2`, is defined and strictly positive, so the
division by `2 * z` of the next round never divides by zero; from the first
round on every iterate has `z * z ≥ x` and the next iterate is not above it; and
`sqrt x` is the iterate after 100 rounds. -/
theorem sqrt_iterates_positive (x : ℚ) (hx : 0 < x) (n : ℕ) :
    sqrt x = sqrtIterate x (x / 2) 100 ∧
    ∃ z z' : ℚ, sqrtIterate x (x / 2) n = some z ∧ 0 < z ∧ 2 * z ≠ 0 ∧
      sqrtIterate x (x / 2) (n + 1) = some z' ∧ 0 < z' ∧ x ≤ z' * z' ∧
      (1 ≤ n → x ≤ z * z ∧ z' ≤ z) := by
  refine ⟨?_, sqrtIterate_spec x hx n⟩
  simp only [sqrt, if_neg (not_lt.mpr hx.le)]
  exact sqrtLoop_eq_iterate x 100 (x / 2)

/-- Witness for C28: the operand 16 at the rounds 0 and 1 (iterates 8 and 5). -/
theorem sqrt_iterates_positive_witness :
    (sqrt 16 = sqrtIterate 16 ((16 : ℚ) / 2) 100 ∧
      ∃ z z' : ℚ, sqrtIterate 16 ((16 : ℚ) / 2) 0 = some z ∧ 0 < z ∧ 2 * z ≠ 0 ∧
        sqrtIterate 16 ((16 : ℚ) / 2) (0 + 1) = some z' ∧ 0 < z' ∧ (16 : ℚ) ≤ z' * z' ∧
        (1 ≤ 0 → (16 : ℚ) ≤ z * z ∧ z' ≤ z)) ∧
    (sqrt 16 = sqrtIterate 16 ((16 : ℚ) / 2) 100 ∧
      ∃ z z' : ℚ, sqrtIterate 16 ((16 : ℚ) / 2) 1 = some z ∧ 0 < z ∧ 2 * z ≠ 0 ∧
        sqrtIterate 16 ((16 : ℚ) / 2) (1 + 1) = some z' ∧ 0 < z' ∧ (16 : ℚ) ≤ z' * z' ∧
        (1 ≤ 1 → (16 : ℚ) ≤ z * z ∧ z' ≤ z)) :=
  ⟨sqrt_iterates_positive 16 (by norm_num) 0, sqrt_iterates_positive 16 (by norm_num) 1⟩

/-- C21. For every negative operand `sqrt` returns 0; the guard answers before
the loop is entered. -/
theorem sqrt_negative (x : ℚ) (hx : x < 0) : sqrt x = some 0 := by
  unfold sqrt
  rw [if_pos hx]

/-- Witness for C21: the operand -4 gives 0, although the loop, had it run
from `-4 / 2`, would have reached the iterate 0 and divided by zero. -/
theorem sqrt_negative_witness :
    sqrt (-4) = some 0 ∧ sqrtLoop (-4) 100 ((-4 : ℚ) / 2) = none := by
  refine ⟨sqrt_negative (-4) (by norm_num), ?_⟩
  show sqrtLoop (-4) (98 + 1 + 1) ((-4 : ℚ) / 2) = none
  have h1 : ¬ (2 : ℚ) * ((-4 : ℚ) / 2) = 0 := by norm_num
  have h2 : (-4 : ℚ) / 2 - ((-4 : ℚ) / 2 * ((-4 : ℚ) / 2) - (-4)) / (2 * ((-4 : ℚ) / 2)) = 0 := by
    norm_num
  rw [sqrtLoop_succ, if_neg h1, h2, sqrtLoop_succ, if_pos (by norm_num)]

/-! ## The two fetch paths -/

/-- The statistics step returns a result on every non-empty sample list: the
square root is only taken of a positive variance. The result carries the first
sample and the history label with the number of samples. -/
theorem historyStatistics_total (x0 : ℚ) (rest : List ℚ) (dataTime : Int) :
    ∃ r : MVRVResult, historyStatistics (x0 :: rest) dataTime = some r ∧ r.MVRV = x0 ∧
      r.Timestamp = dataTime ∧
      r.Source = "CoinMetrics Community API (" ++ toString (x0 :: rest).length ++ "天历史)" := by
  have hstd : ∃ std : ℚ, (if (x0 :: rest).length > 1 then
      (if specSampleVariance (x0 :: rest) > 0 then sqrt (specSampleVariance (x0 :: rest))
        else some (specSampleVariance (x0 :: rest)))
      else some 0) = some std := by
    by_cases h1 : (x0 :: rest).length > 1
    · by_cases h2 : specSampleVariance (x0 :: rest) > 0
      · obtain ⟨r, hr, -, -, -⟩ := sqrt_pos_spec _ h2
        exact ⟨r, by rw [if_pos h1, if_pos h2, hr]⟩
      · exact ⟨_, by rw [if_pos h1, if_neg h2]⟩
    · exact ⟨0, by rw [if_neg h1]⟩
  obtain ⟨std, hs⟩ := hstd
  exact ⟨_, historyStatistics_eq x0 rest dataTime std hs, rfl, rfl, rfl⟩

/-- The history label is the plain provider name followed by the number of
samples in brackets. -/
theorem history_source_split (n : ℕ) :
    "CoinMetrics Community API (" ++ toString n ++ "天历史)" =
      "CoinMetrics Community API" ++ (" (" ++ toString n ++ "天历史)") := by
  have h : "CoinMetrics Community API (" = "CoinMetrics Community API" ++ " (" := by decide
  rw [h, String.append_assoc, String.append_assoc, String.append_assoc]

/-- A result of `Fetch`: the first row parsed, the Z-score comes from the fixed
constants and the Source is the plain provider name. -/
theorem Fetch_ok (ParseFloat : String → Except String ℚ) (ParseTime : String → Int)
    (data : List DataRow) (r : MVRVResult)
    (h : Fetch ParseFloat ParseTime (Except.ok data) = Except.ok r) :
    r.ZScore = (r.MVRV - 1.5) / 1.2 ∧ r.Source = "CoinMetrics Community API" := by
  cases data with
  | nil =>
    simp only [Fetch] at h
    cases h
  | cons first others =>
    cases hp : ParseFloat first.CapMVRVCur with
    | error e =>
      simp only [Fetch, hp] at h
      cases h
    | ok v =>
      simp only [Fetch, hp] at h
      have h2 := Except.ok.inj h
      rw [← h2]
      exact ⟨rfl, rfl⟩

/-- C23 (as stated, refuted). The Source of a `Fetch` result is the plain
provider name "CoinMetrics Community API": it says nothing that the Source of a
history result does not say, being the initial part of every such Source, so it
carries no fallback label. -/
theorem Fetch_source_unlabelled :
    ∃ r : MVRVResult,
      Fetch (fun _ => Except.ok 3) (fun _ => 0) (Except.ok [DataRow.mk "btc" "t0" "3"])
        = Except.ok r ∧
      r.ZScore = (3 - 1.5) / 1.2 ∧
      r.Source = "CoinMetrics Community API" ∧
      ¬ specLabelsFallback r.Source := by
  refine ⟨_, rfl, rfl, rfl, ?_⟩
  intro h
  exact h ⟨1, " (" ++ toString 1 ++ "天历史)", history_source_split 1⟩

/-- C23 (amended). Every result of `Fetch` has `ZScore = (MVRV - 1.5) / 1.2` and
the plain Source "CoinMetrics Community API", without a fallback label; every
result of `FetchWithHistory` has that Source followed by the number of samples
in brackets, so the Sources of the two paths differ. -/
theorem Fetch_source_plain (ParseFloat ParseFloat₂ : String → Except String ℚ)
    (ParseTime ParseTime₂ : String → Int) (data data₂ : List DataRow) (r r₂ : MVRVResult)
    (h : Fetch ParseFloat ParseTime (Except.ok data) = Except.ok r)
    (h₂ : FetchWithHistory ParseFloat₂ ParseTime₂ (Except.ok data₂) = Except.ok (some r₂)) :
    r.ZScore = (r.MVRV - 1.5) / 1.2 ∧
    r.Source = "CoinMetrics Community API" ∧
    ¬ specLabelsFallback r.Source ∧
    (∃ n : ℕ, r₂.Source = r.Source ++ (" (" ++ toString n ++ "天历史)")) ∧
    r₂.Source ≠ r.Source := by
  obtain ⟨hz, hs⟩ := Fetch_ok ParseFloat ParseTime data r h
  have hsrc₂ : ∃ n : ℕ, r₂.Source = r.Source ++ (" (" ++ toString n ++ "天历史)") := by
    cases data₂ with
    | nil =>
      simp only [FetchWithHistory] at h₂
      cases h₂
    | cons first others =>
      cases hv : collectValues ParseFloat₂ (first :: others) with
      | nil =>
        have hlen : (collectValues ParseFloat₂ (first :: others)).length = 0 := by
          rw [hv]
          rfl
        simp only [FetchWithHistory, if_pos hlen] at h₂
        cases h₂
      | cons x0 rest =>
        obtain ⟨r0, hr0, -, -, hsrc⟩ := historyStatistics_total x0 rest (ParseTime₂ first.Time)
        have hlen : ¬ (x0 :: rest).length = 0 := by simp
        simp only [FetchWithHistory, hv, if_neg hlen, hr0] at h₂
        have h3 : r0 = r₂ := Option.some.inj (Except.ok.inj h₂)
        rw [← h3, hsrc, hs]
        exact ⟨_, history_source_split _⟩
  refine ⟨hz, hs, ?_, hsrc₂, ?_⟩
  · rw [hs]
    intro hl
    exact hl ⟨1, " (" ++ toString 1 ++ "天历史)", history_source_split 1⟩
  · obtain ⟨n, hn⟩ := hsrc₂
    intro heq
    have hlen := congrArg String.length (hn.symm.trans heq)
    rw [String.length_append, String.length_append, String.length_append] at hlen
    have h2 : (" (" : String).length = 2 := by decide
    omega

/-- Witness for C23 (amended): one parsable row fed to both paths. -/
theorem Fetch_source_plain_witness :
    ∃ r r₂ : MVRVResult,
      Fetch (fun _ => Except.ok 3) (fun _ => 0) (Except.ok [DataRow.mk "btc" "t0" "3"])
        = Except.ok r ∧
      FetchWithHistory (fun _ => Except.ok 3) (fun _ => 0)
        (Except.ok [DataRow.mk "btc" "t0" "3"]) = Except.ok (some r₂) ∧
      r.ZScore = (r.MVRV - 1.5) / 1.2 ∧
      r.Source = "CoinMetrics Community API" ∧
      ¬ specLabelsFallback r.Source ∧
      (∃ n : ℕ, r₂.Source = r.Source ++ (" (" ++ toString n ++ "天历史)")) ∧
      r₂.Source ≠ r.Source := by
  obtain ⟨r₂, hr₂, -, -, -⟩ := historyStatistics_total 3 [] 0
  have hf : Fetch (fun _ => Except.ok 3) (fun _ => 0) (Except.ok [DataRow.mk "btc" "t0" "3"])
      = Except.ok
        { MVRV := 3, ZScore := (3 - 1.5) / 1.2, Timestamp := 0,
          Source := "CoinMetrics Community API" } := rfl
  have hh : FetchWithHistory (fun _ => Except.ok 3) (fun _ => 0)
      (Except.ok [DataRow.mk "btc" "t0" "3"]) = Except.ok (some r₂) := by
    have hv : collectValues (fun _ => Except.ok 3) [DataRow.mk "btc" "t0" "3"] = [3] := rfl
    have hlen : ¬ ([3] : List ℚ).length = 0 := by simp
    simp only [FetchWithHistory, hv, if_neg hlen, hr₂]
  exact ⟨_, r₂, hf, hh,
    Fetch_source_plain (fun _ => Except.ok 3) (fun _ => Except.ok 3) (fun _ => 0) (fun _ => 0)
      [DataRow.mk "btc" "t0" "3"] [DataRow.mk "btc" "t0" "3"] _ r₂ hf hh⟩

end fetcher

/-! ## The fair-value curve -/

namespace calculator

/-- The value of `calculateExponentialValue` at a positive coin age, over the
reals. -/
theorem exponentialValue_of_pos (d : Int) (hd : 1 ≤ d) :
    calculateExponentialValue (Real.logb 10) (fun x y => x ^ y) d =
      (10 : ℝ) ^ ((5.84 : ℝ) * Real.logb 10 (d : ℝ) - 17.01) := by
  have h0 : ¬ d ≤ 0 := by omega
  simp only [calculateExponentialValue, if_neg h0, ahr999Coefficient, ahr999Constant]
  rw [sub_eq_add_neg]

/-- C29. For every coin age `d ≥ 1`, `calculateExponentialValue d`, read over
the reals, is strictly positive, so the division by it in the AHR999 index is
not a division by zero, and it is strictly increasing in `d`. -/
theorem calculateExponentialValue_pos_increasing (d : Int) (hd : 1 ≤ d) :
    0 < calculateExponentialValue (Real.logb 10) (fun x y => x ^ y) d ∧
    calculateExponentialValue (Real.logb 10) (fun x y => x ^ y) d ≠ (0 : ℝ) ∧
    ∀ d₂ : Int, d < d₂ →
      calculateExponentialValue (Real.logb 10) (fun x y => x ^ y) d <
        calculateExponentialValue (Real.logb 10) (fun x y => x ^ y) d₂ := by
  have hpos : 0 < calculateExponentialValue (Real.logb 10) (fun x y => x ^ y) d := by
    rw [exponentialValue_of_pos d hd]
    exact Real.rpow_pos_of_pos (by norm_num) _
  refine ⟨hpos, hpos.ne', ?_⟩
  intro d₂ hlt
  have hd₂ : 1 ≤ d₂ := by omega
  rw [exponentialValue_of_pos d hd, exponentialValue_of_pos d₂ hd₂]
  rw [Real.rpow_lt_rpow_left_iff (by norm_num : (1 : ℝ) < 10)]
  have hdpos : (0 : ℝ) < (d : ℝ) := by exact_mod_cast (by omega : 0 < d)
  have hcast : (d : ℝ) < (d₂ : ℝ) := by exact_mod_cast hlt
  have hlog : Real.logb 10 (d : ℝ) < Real.logb 10 (d₂ : ℝ) :=
    Real.logb_lt_logb (by norm_num) hdpos hcast
  linarith

/-- Witness for C29: the coin ages 6000 and 6001. -/
theorem calculateExponentialValue_pos_increasing_witness :
    0 < calculateExponentialValue (Real.logb 10) (fun x y => x ^ y) 6000 ∧
    calculateExponentialValue (Real.logb 10) (fun x y => x ^ y) 6000 ≠ (0 : ℝ) ∧
    calculateExponentialValue (Real.logb 10) (fun x y => x ^ y) 6000 <
      calculateExponentialValue (Real.logb 10) (fun x y => x ^ y) 6001 :=
  ⟨(calculateExponentialValue_pos_increasing 6000 (by decide)).1,
   (calculateExponentialValue_pos_increasing 6000 (by decide)).2.1,
   (calculateExponentialValue_pos_increasing 6000 (by decide)).2.2 6001 (by decide)⟩

end calculator

/-! ## Rounding to binary64 -/

/-- The nearest natural number is within one half. -/
theorem roundHalfEven_near (y : ℚ) (hy : 0 ≤ y) : |(roundHalfEven y : ℚ) - y| ≤ 1 / 2 := by
  have hfloor : y.floor = ⌊y⌋ := rfl
  have hfl : 0 ≤ y.floor := by
    rw [hfloor]
    exact Int.floor_nonneg.mpr hy
  have hcast : ((y.floor.toNat : ℕ) : ℚ) = (y.floor : ℚ) := by
    have := Int.toNat_of_nonneg hfl
    exact_mod_cast this
  have h1 : (y.floor : ℚ) ≤ y := by
    rw [hfloor]
    exact Int.floor_le y
  have h2 : y < (y.floor : ℚ) + 1 := by
    rw [hfloor]
    exact Int.lt_floor_add_one y
  unfold roundHalfEven
  simp only
  rw [hcast]
  split_ifs with a b c
  · rw [hcast, abs_le]
    constructor <;> linarith
  · push_cast
    rw [hcast, abs_le]
    constructor <;> linarith
  · rw [hcast, abs_le]
    constructor <;> linarith
  · push_cast
    rw [hcast, abs_le]
    constructor <;> linarith

namespace Float64

/-- The halving loop finds the leading bit when the fuel suffices. -/
theorem log2Loop_spec (fuel : ℕ) : ∀ n : ℕ, n ≤ fuel → 0 < n →
    2 ^ log2Loop fuel n ≤ n ∧ n < 2 ^ (log2Loop fuel n + 1) := by
  induction fuel with
  | zero =>
    intro n h1 h2
    omega
  | succ f ih =>
    intro n h1 h2
    unfold log2Loop
    by_cases hn : n < 2
    · rw [if_pos hn]
      constructor
      · simpa using h2
      · simpa using hn
    · rw [if_neg hn]
      have hle : n / 2 ≤ f := by omega
      have hpos : 0 < n / 2 := by omega
      obtain ⟨a, b⟩ := ih (n / 2) hle hpos
      constructor
      · rw [pow_succ]
        omega
      · rw [pow_succ]
        omega

/-- The leading bit of a positive natural number. -/
theorem log2Nat_spec (n : ℕ) (h : 0 < n) :
    2 ^ log2Nat n ≤ n ∧ n < 2 ^ (log2Nat n + 1) :=
  log2Loop_spec n n (le_refl n) h

/-- The binary exponent brackets a non-zero rational. -/
theorem floorLog2_spec (q : ℚ) (hq : q ≠ 0) :
    (2 : ℚ) ^ floorLog2 q ≤ |q| ∧ |q| < (2 : ℚ) ^ (floorLog2 q + 1) := by
  have hn : 0 < q.num.natAbs := Int.natAbs_pos.mpr (Rat.num_ne_zero.mpr hq)
  have hd : 0 < q.den := q.den_pos
  obtain ⟨n1, n2⟩ := log2Nat_spec q.num.natAbs hn
  obtain ⟨d1, d2⟩ := log2Nat_spec q.den hd
  have hA : (0 : ℚ) < (2 : ℚ) ^ log2Nat q.num.natAbs := by positivity
  have hB : (0 : ℚ) < (2 : ℚ) ^ log2Nat q.den := by positivity
  have n1q : (2 : ℚ) ^ log2Nat q.num.natAbs ≤ (q.num.natAbs : ℚ) := by exact_mod_cast n1
  have n2q : (q.num.natAbs : ℚ) < 2 * (2 : ℚ) ^ log2Nat q.num.natAbs := by
    have : q.num.natAbs < 2 * 2 ^ log2Nat q.num.natAbs := by
      rw [pow_succ] at n2
      omega
    exact_mod_cast this
  have d1q : (2 : ℚ) ^ log2Nat q.den ≤ (q.den : ℚ) := by exact_mod_cast d1
  have d2q : (q.den : ℚ) < 2 * (2 : ℚ) ^ log2Nat q.den := by
    have : q.den < 2 * 2 ^ log2Nat q.den := by
      rw [pow_succ] at d2
      omega
    exact_mod_cast this
  have hdq : (0 : ℚ) < (q.den : ℚ) := by exact_mod_cast hd
  have habs : |q| = (q.num.natAbs : ℚ) / (q.den : ℚ) := by
    conv_lhs => rw [← Rat.num_div_den q]
    rw [abs_div, Nat.cast_natAbs, Int.cast_abs, abs_of_pos hdq]
  have he0 : (2 : ℚ) ^ ((log2Nat q.num.natAbs : Int) - (log2Nat q.den : Int))
      = (2 : ℚ) ^ log2Nat q.num.natAbs / (2 : ℚ) ^ log2Nat q.den := by
    rw [zpow_sub₀ (by norm_num : (2 : ℚ) ≠ 0), zpow_natCast, zpow_natCast]
  unfold floorLog2
  simp only
  split_ifs with hle
  · refine ⟨hle, ?_⟩
    rw [zpow_add_one₀ (by norm_num : (2 : ℚ) ≠ 0), he0, habs, div_lt_iff₀ hdq]
    have : (2 : ℚ) ^ log2Nat q.num.natAbs / (2 : ℚ) ^ log2Nat q.den * 2 * (q.den : ℚ)
        = 2 * (2 : ℚ) ^ log2Nat q.num.natAbs * ((q.den : ℚ) / (2 : ℚ) ^ log2Nat q.den) := by
      field_simp
      ring
    rw [this]
    have h1 : 1 ≤ (q.den : ℚ) / (2 : ℚ) ^ log2Nat q.den := by
      rw [le_div_iff₀ hB]
      linarith
    nlinarith
  · push_neg at hle
    constructor
    · rw [zpow_sub_one₀ (by norm_num : (2 : ℚ) ≠ 0), he0, habs, le_div_iff₀ hdq]
      have : (2 : ℚ) ^ log2Nat q.num.natAbs / (2 : ℚ) ^ log2Nat q.den * 2⁻¹ * (q.den : ℚ)
          = (2 : ℚ) ^ log2Nat q.num.natAbs * ((q.den : ℚ) / (2 * (2 : ℚ) ^ log2Nat q.den)) := by
        field_simp
        ring
      rw [this]
      have h1 : (q.den : ℚ) / (2 * (2 : ℚ) ^ log2Nat q.den) ≤ 1 := by
        rw [div_le_iff₀ (by positivity)]
        linarith
      have h0 : 0 ≤ (q.den : ℚ) / (2 * (2 : ℚ) ^ log2Nat q.den) := by positivity
      nlinarith
    · rw [sub_add_cancel]
      exact hle

/-- The rounding constants are positive, and how they relate to the powers of
two in `round64`. -/
theorem constants_spec :
    0 < unitRoundoff ∧ unitRoundoff < 1 ∧ 0 < minNormal ∧ 0 < finiteBound ∧
    minNormal ≤ finiteBound ∧
    (2 : ℚ) ^ (-1022 : Int) = minNormal ∧
    (2 : ℚ) ^ (1024 : ℕ) = finiteBound + finiteBound ∧
    (∀ e : Int, (2 : ℚ) ^ (e - 52) / 2 = unitRoundoff * (2 : ℚ) ^ e) := by
  unfold unitRoundoff minNormal finiteBound
  refine ⟨by positivity, ?_, by positivity, by positivity, ?_, ?_, ?_, ?_⟩
  · rw [div_lt_one (by positivity)]
    exact one_lt_pow₀ (by norm_num) (by norm_num)
  · rw [div_le_iff₀ (by positivity)]
    have h1 : (1 : ℚ) ≤ 2 ^ 1023 := one_le_pow₀ (by norm_num)
    have h2 : (1 : ℚ) ≤ 2 ^ 1022 := one_le_pow₀ (by norm_num)
    nlinarith
  · rw [zpow_neg, zpow_ofNat, one_div]
  · rw [pow_succ]
    ring
  · intro e
    rw [zpow_sub₀ (by norm_num : (2 : ℚ) ≠ 0)]
    have : (2 : ℚ) ^ (52 : Int) = 2 ^ 52 := by norm_cast
    rw [this]
    ring

/-- The shape of a rounding of a non-zero exact result: a magnitude `r` within
`2 ^ (-53)` of `|q|`, relative to the larger of `|q|` and `2 ^ (-1022)`, decides
between an infinity, a zero and the finite value of that magnitude. -/
theorem round64_cases (q : ℚ) (zs : Bool) (hq0 : q ≠ 0) :
    ∃ r : ℚ, 0 ≤ r ∧ |r - (|q|)| ≤ unitRoundoff * max |q| minNormal ∧
      round64 q zs =
        if (2 : ℚ) ^ (1024 : ℕ) ≤ r then inf (decide (q < 0))
        else if r = 0 then zero (decide (q < 0))
        else finite (if q < 0 then -r else r) := by
  obtain ⟨hu0, hu1, hm0, hF0, hmF, hmin, h1024, hhalfulp⟩ := constants_spec
  have hspec := (floorLog2_spec q hq0).1
  obtain ⟨e, he⟩ : ∃ e : Int, e = max (floorLog2 q) (-1022) := ⟨_, rfl⟩
  obtain ⟨ulp, hulp⟩ : ∃ ulp : ℚ, ulp = (2 : ℚ) ^ (e - 52) := ⟨_, rfl⟩
  obtain ⟨r, hr⟩ : ∃ r : ℚ, r = (roundHalfEven (|q| / ulp) : ℚ) * ulp := ⟨_, rfl⟩
  have hulp_pos : 0 < ulp := by
    rw [hulp]
    positivity
  have hy : 0 ≤ |q| / ulp := div_nonneg (abs_nonneg q) hulp_pos.le
  have hnear := roundHalfEven_near (|q| / ulp) hy
  have hr0 : 0 ≤ r := by
    rw [hr]
    exact mul_nonneg (Nat.cast_nonneg _) hulp_pos.le
  have herr : |r - (|q|)| ≤ ulp / 2 := by
    have : r - |q| = ((roundHalfEven (|q| / ulp) : ℚ) - |q| / ulp) * ulp := by
      rw [hr, sub_mul, div_mul_cancel₀ _ hulp_pos.ne']
    rw [this, abs_mul, abs_of_pos hulp_pos]
    calc |(roundHalfEven (|q| / ulp) : ℚ) - |q| / ulp| * ulp ≤ 1 / 2 * ulp :=
          mul_le_mul_of_nonneg_right hnear hulp_pos.le
      _ = ulp / 2 := by ring
  have h2e : (2 : ℚ) ^ e ≤ max |q| minNormal := by
    rcases le_total (floorLog2 q) (-1022) with h | h
    · have h1 : e = -1022 := by
        rw [he]
        exact max_eq_right h
      rw [h1, hmin]
      exact le_max_right _ _
    · have h1 : e = floorLog2 q := by
        rw [he]
        exact max_eq_left h
      rw [h1]
      exact le_max_of_le_left hspec
  have hhalf : ulp / 2 ≤ unitRoundoff * max |q| minNormal := by
    rw [hulp, hhalfulp]
    exact mul_le_mul_of_nonneg_left h2e hu0.le
  refine ⟨r, hr0, herr.trans hhalf, ?_⟩
  unfold round64
  rw [if_neg hq0]
  simp only
  rw [← he, ← hulp, ← hr]

/-- The value, sign and error of a rounding below the overflow range: the result
is a zero or a finite number, of the sign of the exact result, and within
`2 ^ (-53)` of it relative to the larger of its magnitude and `2 ^ (-1022)`. -/
theorem round64_spec (q : ℚ) (zs : Bool) (hq : |q| < finiteBound) :
    (round64 q zs).isFinite = true ∧
    |(round64 q zs).val - q| ≤ unitRoundoff * max |q| minNormal ∧
    (0 ≤ q → 0 ≤ (round64 q zs).val) ∧ (q ≤ 0 → (round64 q zs).val ≤ 0) := by
  obtain ⟨hu0, hu1, hm0, hF0, hmF, hmin, h1024, hhalfulp⟩ := constants_spec
  by_cases hq0 : q = 0
  · subst hq0
    have hz : round64 0 zs = zero zs := by
      unfold round64
      rw [if_pos rfl]
    rw [hz]
    have hnn : 0 ≤ unitRoundoff * max |(0 : ℚ)| minNormal :=
      mul_nonneg hu0.le (le_max_of_le_right hm0.le)
    cases zs
    · refine ⟨rfl, ?_, fun _ => le_refl _, fun _ => le_refl _⟩
      show |(0 : ℚ) - 0| ≤ _
      rw [sub_zero, abs_zero]
      exact hnn
    · refine ⟨rfl, ?_, fun _ => le_refl _, fun _ => le_refl _⟩
      show |(0 : ℚ) - 0| ≤ _
      rw [sub_zero, abs_zero]
      exact hnn
  · obtain ⟨r, hr0, hbound, hround⟩ := round64_cases q zs hq0
    have hmax : max |q| minNormal ≤ finiteBound := max_le hq.le hmF
    have hno : ¬ (2 : ℚ) ^ (1024 : ℕ) ≤ r := by
      have h1 : r ≤ |q| + unitRoundoff * max |q| minNormal := by
        have := (abs_le.mp hbound).2
        linarith
      have h2 : unitRoundoff * max |q| minNormal ≤ unitRoundoff * finiteBound :=
        mul_le_mul_of_nonneg_left hmax hu0.le
      have h3 : unitRoundoff * finiteBound < finiteBound := by nlinarith
      rw [h1024]
      push_neg
      linarith
    rw [if_neg hno] at hround
    rw [hround]
    by_cases hr00 : r = 0
    · rw [if_pos hr00]
      have hval : (zero (decide (q < 0))).val = 0 := by
        unfold zero
        split_ifs <;> rfl
      have hfin : (zero (decide (q < 0))).isFinite = true := by
        unfold zero
        split_ifs <;> rfl
      rw [hval]
      refine ⟨hfin, ?_, fun _ => le_refl _, fun _ => le_refl _⟩
      rw [hr00, zero_sub, abs_neg, abs_abs] at hbound
      rw [zero_sub, abs_neg]
      exact hbound
    · rw [if_neg hr00]
      refine ⟨rfl, ?_, ?_, ?_⟩
      · show |(if q < 0 then -r else r) - q| ≤ _
        by_cases hneg : q < 0
        · rw [if_pos hneg]
          have : -r - q = -(r - |q|) := by
            rw [abs_of_neg hneg]
            ring
          rw [this, abs_neg]
          exact hbound
        · rw [if_neg hneg]
          push_neg at hneg
          have : r - q = r - |q| := by rw [abs_of_nonneg hneg]
          rw [this]
          exact hbound
      · intro hq1
        show 0 ≤ (if q < 0 then -r else r)
        rw [if_neg (not_lt.mpr hq1)]
        exact hr0
      · intro hq1
        show (if q < 0 then -r else r) ≤ 0
        have : q < 0 := lt_of_le_of_ne hq1 hq0
        rw [if_pos this]
        linarith

/-- A rounding is never not-a-number. -/
theorem round64_ne_nan (q : ℚ) (zs : Bool) : round64 q zs ≠ nan := by
  by_cases hq0 : q = 0
  · subst hq0
    unfold round64
    rw [if_pos rfl]
    cases zs <;> simp [zero]
  · obtain ⟨r, -, -, h⟩ := round64_cases q zs hq0
    rw [h]
    unfold inf zero
    split_ifs <;> simp

/-- An exact result at or above the smallest normal value rounds to the positive
infinity or to a positive finite value. -/
theorem round64_of_normal (q : ℚ) (zs : Bool) (hq : minNormal ≤ q) :
    round64 q zs = posInf ∨ ∃ r : ℚ, 0 < r ∧ round64 q zs = finite r := by
  obtain ⟨hu0, hu1, hm0, hF0, hmF, hmin, h1024, hhalfulp⟩ := constants_spec
  have hqpos : 0 < q := lt_of_lt_of_le hm0 hq
  obtain ⟨r, hr0, hbound, hround⟩ := round64_cases q zs hqpos.ne'
  have hnl : ¬ q < 0 := not_lt.mpr hqpos.le
  rw [abs_of_pos hqpos, max_eq_left hq] at hbound
  have hrpos : 0 < r := by
    have := (abs_le.mp hbound).1
    nlinarith
  rw [hround]
  by_cases hov : (2 : ℚ) ^ (1024 : ℕ) ≤ r
  · left
    rw [if_pos hov]
    simp [inf, hnl]
  · right
    rw [if_neg hov, if_neg hrpos.ne', if_neg hnl]
    exact ⟨r, hrpos, rfl⟩

/-- A zero or a finite number is not not-a-number, and a finite-valued float with
a non-zero value is the finite number of that value. -/
theorem eq_finite_of_val_ne_zero (a : Float64) (ha : a.isFinite = true) (h : a.val ≠ 0) :
    a = finite a.val := by
  cases a <;> simp [isFinite, val] at ha h ⊢

/-- Unary minus on zeros and finite numbers. -/
theorem neg_spec (a : Float64) (ha : a.isFinite = true) :
    (neg a).isFinite = true ∧ (neg a).val = -a.val := by
  cases a with
  | nan => simp [isFinite] at ha
  | posInf => simp [isFinite] at ha
  | negInf => simp [isFinite] at ha
  | negZero => exact ⟨rfl, by simp [neg, val]⟩
  | finite q =>
    have hneg : neg (finite q) = if q = 0 then negZero else finite (-q) := rfl
    rw [hneg]
    by_cases hq : q = 0
    · rw [if_pos hq, hq]
      exact ⟨rfl, by simp [val]⟩
    · rw [if_neg hq]
      exact ⟨rfl, rfl⟩

/-- Float addition of zeros and finite numbers whose exact sum is below the
overflow range. -/
theorem add_spec (a b : Float64) (ha : a.isFinite = true) (hb : b.isFinite = true)
    (h : |a.val + b.val| < finiteBound) :
    (a + b).isFinite = true ∧
    |(a + b).val - (a.val + b.val)| ≤ unitRoundoff * max |a.val + b.val| minNormal := by
  obtain ⟨hu0, -, hm0, -⟩ := constants_spec
  have key : a + b = negZero ∧ a.val + b.val = 0 ∨ a + b = round64 (a.val + b.val) false := by
    cases a <;> cases b <;> simp [isFinite] at ha hb
    · left
      exact ⟨rfl, by simp [val]⟩
    · right
      rfl
    · right
      rfl
    · right
      rfl
  rcases key with ⟨h1, h2⟩ | h1
  · rw [h1, h2]
    refine ⟨rfl, ?_⟩
    show |(0 : ℚ) - 0| ≤ _
    rw [sub_zero, abs_zero]
    exact mul_nonneg hu0.le (le_max_of_le_right hm0.le)
  · rw [h1]
    exact ⟨(round64_spec _ _ h).1, (round64_spec _ _ h).2.1⟩

/-- Float subtraction of zeros and finite numbers whose exact difference is below
the overflow range. -/
theorem sub_spec (a b : Float64) (ha : a.isFinite = true) (hb : b.isFinite = true)
    (h : |a.val - b.val| < finiteBound) :
    (a - b).isFinite = true ∧
    |(a - b).val - (a.val - b.val)| ≤ unitRoundoff * max |a.val - b.val| minNormal := by
  obtain ⟨hn1, hn2⟩ := neg_spec b hb
  have hadd := add_spec a (neg b) ha hn1 (by rw [hn2, ← sub_eq_add_neg]; exact h)
  rw [hn2, ← sub_eq_add_neg] at hadd
  exact hadd

/-- Float multiplication of zeros and finite numbers whose exact product is below
the overflow range. -/
theorem mul_spec (a b : Float64) (ha : a.isFinite = true) (hb : b.isFinite = true)
    (h : |a.val * b.val| < finiteBound) :
    (a * b).isFinite = true ∧
    |(a * b).val - a.val * b.val| ≤ unitRoundoff * max |a.val * b.val| minNormal := by
  have key : a * b = round64 (a.val * b.val) (xor a.signBit b.signBit) := by
    cases a <;> cases b <;> simp [isFinite] at ha hb <;> rfl
  rw [key]
  exact ⟨(round64_spec _ _ h).1, (round64_spec _ _ h).2.1⟩

/-- Float division of zeros and finite numbers by a non-zero finite number, the
exact quotient being below the overflow range. -/
theorem div_spec (a b : Float64) (ha : a.isFinite = true) (hb : b.isFinite = true)
    (hb0 : b.val ≠ 0) (h : |a.val / b.val| < finiteBound) :
    (a / b).isFinite = true ∧
    |(a / b).val - a.val / b.val| ≤ unitRoundoff * max |a.val / b.val| minNormal := by
  have key : a / b = round64 (a.val / b.val) (xor a.signBit b.signBit) := by
    cases a <;> cases b <;> simp [isFinite, val] at ha hb hb0
    · show div negZero (finite _) = _
      simp [div, isInf, isZero, hb0]
    · show div (finite _) (finite _) = _
      simp [div, isInf, isZero, hb0]
  rw [key]
  exact ⟨(round64_spec _ _ h).1, (round64_spec _ _ h).2.1⟩

/-- The two small constants against the range of the Newton iterates. -/
theorem constants_range :
    unitRoundoff = 1 / 2 ^ 53 ∧ unitRoundoff ≤ 1 / 1000 ∧
    minNormal ≤ 1 / 2 ^ 150 * (1 / 2 ^ 150) / 10000 ∧
    (2 : ℚ) ^ 150 * 2 ^ 150 * 2 ^ 150 * 8 ≤ finiteBound := by
  unfold unitRoundoff minNormal finiteBound
  refine ⟨rfl, by norm_num, ?_, ?_⟩
  · have h1 : (1 : ℚ) / 2 ^ 150 * (1 / 2 ^ 150) / 10000 = 1 / (2 ^ 300 * 10000) := by
      rw [show (300 : ℕ) = 150 + 150 from rfl, pow_add]
      field_simp
    rw [h1]
    apply one_div_le_one_div_of_le (by positivity)
    calc (2 : ℚ) ^ 300 * 10000 ≤ 2 ^ 300 * 2 ^ 14 := by
          apply mul_le_mul_of_nonneg_left _ (by positivity)
          norm_num
      _ = 2 ^ 314 := by rw [← pow_add]
      _ ≤ 2 ^ 1022 := pow_le_pow_right₀ (by norm_num) (by norm_num)
  · calc (2 : ℚ) ^ 150 * 2 ^ 150 * 2 ^ 150 * 8 = 2 ^ 453 := by
          rw [show (8 : ℚ) = 2 ^ 3 by norm_num, ← pow_add, ← pow_add, ← pow_add]
      _ ≤ 2 ^ 1023 := pow_le_pow_right₀ (by norm_num) (by norm_num)

/-- The comparison `a < b` of the embedding is the Boolean test `lt`. -/
theorem lt_iff (a b : Float64) : a < b ↔ lt a b = true := Iff.rfl

/-- The comparison `a ≤ b` of the embedding is the Boolean test `le`. -/
theorem le_iff (a b : Float64) : a ≤ b ↔ le a b = true := Iff.rfl

/-- Below a smaller finite bound, below a larger one. -/
theorem lt_finite_mono (a : Float64) (p q : ℚ) (hpq : p ≤ q) (h : a < finite p) :
    a < finite q := by
  rw [lt_iff] at h ⊢
  cases a <;> simp [lt, val] at h ⊢
  · linarith
  · linarith

/-- A value below one finite bound is at or above, or below, any other one:
it is not not-a-number. -/
theorem lt_or_ge_of_lt_finite (a : Float64) (p q : ℚ) (h : a < finite q) :
    a < finite p ∨ finite p ≤ a := by
  rw [lt_iff] at h
  rw [lt_iff, le_iff]
  cases a <;> simp [lt, le, val] at h ⊢
  · exact lt_or_le _ _
  · exact lt_or_le _ _

/-- Away from not-a-number, "not above" and "at most" agree. -/
theorem not_gt_iff_le (a b : Float64) (ha : a ≠ nan) (hb : b ≠ nan) :
    ¬ a > b ↔ a ≤ b := by
  show ¬ b < a ↔ a ≤ b
  rw [lt_iff, le_iff]
  cases a <;> cases b <;> simp [lt, le, val] at ha hb ⊢

/-- Not-a-number is neither above nor at most any value. -/
theorem nan_not_gt_not_le (b : Float64) : ¬ nan > b ∧ ¬ nan ≤ b := by
  constructor
  · show ¬ b < nan
    rw [lt_iff]
    cases b <;> simp [lt]
  · rw [le_iff]
    simp [le]

end Float64

/-! ## The engine on `float64` values and on the `nil` pointer -/

namespace ieee

namespace strategy

/-- The thresholds of the engine as binary64 values. -/
theorem thresholds_eq :
    MaxLeverage = Float64.finite (3 / 2) ∧
    AHR999StrongBuy = Float64.finite (8106479329266893 / 18014398509481984) ∧
    AHR999DCAUpper = Float64.finite (5404319552844595 / 4503599627370496) ∧
    AHR999HoldUpper = Float64.finite 5 ∧
    MVRVOverheat = Float64.finite 6 := by
  decide!

/-- The flag `btcAllowBuy` after the BTC base rule: set exactly below the upper
end of the DCA zone. -/
theorem btcBaseStep_flag_float (indicators : model.MarketIndicators) (signal : model.TradeSignal) :
    (btcBaseStep indicators signal).2 = true ↔ indicators.AHR999 < AHR999DCAUpper := by
  obtain ⟨-, h1, h2, -, -⟩ := thresholds_eq
  unfold btcBaseStep
  constructor
  · intro h
    split_ifs at h with a b
    · rw [h1] at a
      rw [h2]
      exact Float64.lt_finite_mono _ _ _ (by norm_num) a
    · exact b.2
  · intro h
    rw [h2] at h
    rcases Float64.lt_or_ge_of_lt_finite indicators.AHR999
      (8106479329266893 / 18014398509481984) _ h with a | a
    · rw [← h1] at a
      rw [if_pos a]
    · rw [← h1] at a
      rw [← h2] at h
      by_cases a0 : indicators.AHR999 < AHR999StrongBuy
      · rw [if_pos a0]
      · rw [if_neg a0, if_pos ⟨a, h⟩]

/-- The flag `btcAllowBuy` after the MVRV check. -/
theorem mvrvStep_flag_float (indicators : model.MarketIndicators) (signal : model.TradeSignal) :
    (mvrvStep indicators (btcBaseStep indicators signal)).2 = true ↔
      (indicators.AHR999 < AHR999DCAUpper ∧ ¬ indicators.MVRVZScore > MVRVOverheat) := by
  unfold mvrvStep
  by_cases hb : (btcBaseStep indicators signal).2 = true
  · by_cases hm : indicators.MVRVZScore > MVRVOverheat
    · rw [if_pos ⟨hb, hm⟩]
      simp [hm]
    · rw [if_neg (fun h => hm h.2)]
      simp [hb, hm, (btcBaseStep_flag_float indicators signal).mp hb]
  · rw [if_neg (fun h => hb h.1)]
    have : ¬ indicators.AHR999 < AHR999DCAUpper :=
      fun h => hb ((btcBaseStep_flag_float indicators signal).mpr h)
    simp [hb, this]

/-- The ETH action after the ETH rule. -/
theorem ethStep_action_float (indicators : model.MarketIndicators) (st : model.TradeSignal × Bool) :
    (ethStep indicators st).ActionETH =
      if indicators.EthRegressionState = CryptoSentinel.model.EthRegLower then
        (if st.2 = true then CryptoSentinel.model.ActionETHBuyHeavy
          else CryptoSentinel.model.ActionETHFollowBTC)
      else if indicators.EthRegressionState = CryptoSentinel.model.EthRegUpper then
        CryptoSentinel.model.ActionETHSellOrSwap
      else CryptoSentinel.model.ActionETHFollowBTC := by
  unfold ethStep
  split_ifs <;> rfl

/-- The result of `EvaluateV2` on a snapshot on which neither breaker fires. -/
theorem EvaluateV2_normal_path_float (today : String) (indicators : model.MarketIndicators)
    (hlev : ¬ indicators.AccountLeverage > MaxLeverage)
    (hpi : indicators.PiCycleCross = false)
    (hma : indicators.MaMultiplierState ≠ CryptoSentinel.model.MaStateBullTop) :
    EvaluateV2 today (some indicators) =
      Except.ok
        { ethStep indicators (mvrvStep indicators (btcBaseStep indicators initialSignal)) with
          ReportMarkdown := generateReport today indicators
            (ethStep indicators (mvrvStep indicators (btcBaseStep indicators initialSignal))) } := by
  have htop : ¬ (indicators.PiCycleCross = true
      ∨ indicators.MaMultiplierState = CryptoSentinel.model.MaStateBullTop) := by
    rw [hpi]
    simp [hma]
  simp only [EvaluateV2, if_neg hlev, if_neg htop]


/-- The ETH action on a snapshot on which neither breaker fires. -/
theorem EvaluateV2_normal_eth (today : String) (indicators : model.MarketIndicators)
    (hlev : ¬ indicators.AccountLeverage > MaxLeverage)
    (hpi : indicators.PiCycleCross = false)
    (hma : indicators.MaMultiplierState ≠ CryptoSentinel.model.MaStateBullTop) :
    ∃ signal : model.TradeSignal,
      EvaluateV2 today (some indicators) = Except.ok signal ∧
      signal.ActionETH = specEthSubStrategyNotAbove indicators := by
  refine ⟨_, EvaluateV2_normal_path_float today indicators hlev hpi hma, ?_⟩
  show (ethStep indicators (mvrvStep indicators (btcBaseStep indicators initialSignal))).ActionETH
    = _
  rw [ethStep_action_float]
  have hflag := mvrvStep_flag_float indicators initialSignal
  unfold specEthSubStrategyNotAbove
  by_cases hlow : indicators.EthRegressionState = CryptoSentinel.model.EthRegLower
  · by_cases hbuy : indicators.AHR999 < AHR999DCAUpper
        ∧ ¬ indicators.MVRVZScore > MVRVOverheat
    · rw [if_pos hlow, if_pos (hflag.mpr hbuy)]
      exact (if_pos ⟨hlow, hbuy⟩).symm
    · have hup : ¬ indicators.EthRegressionState = CryptoSentinel.model.EthRegUpper := by
        rw [hlow]
        decide
      rw [if_pos hlow, if_neg (fun h => hbuy (hflag.mp h))]
      have hn : ¬ (indicators.EthRegressionState = CryptoSentinel.model.EthRegLower ∧
          (indicators.AHR999 < 1.20 ∧ ¬ indicators.MVRVZScore > 6.0)) := fun h => hbuy h.2
      rw [if_neg hn, if_neg hup]
  · have hn : ¬ (indicators.EthRegressionState = CryptoSentinel.model.EthRegLower ∧
        (indicators.AHR999 < 1.20 ∧ ¬ indicators.MVRVZScore > 6.0)) := fun h => hlow h.1
    rw [if_neg hlow, if_neg hn]

/-- The two reference sub-strategies agree as soon as MVRV-Z is a number. -/
theorem spec_agree_of_number (indicators : model.MarketIndicators)
    (h : indicators.MVRVZScore ≠ Float64.nan) :
    specEthSubStrategyNotAbove indicators = specEthSubStrategy indicators := by
  have h6 : (6.0 : Float64) ≠ Float64.nan := by decide!
  have hiff := Float64.not_gt_iff_le indicators.MVRVZScore 6.0 h h6
  unfold specEthSubStrategyNotAbove specEthSubStrategy
  simp only [hiff]

/-- C6 (as stated, refuted). On the test snapshot with AHR999 0.30, the lower
band and a not-a-number MVRV-Z no breaker fires, the engine answers BUY_HEAVY
(the overheat test `MVRVZScore > 6.0` is false and the buy flag stays set), and
the reference of the claim, which asks for `MVRVZScore <= 6.0`, answers
FOLLOW_BTC. -/
theorem EvaluateV2_eth_nan_not_overheated :
    (¬ nanScoreIndicators.AccountLeverage > MaxLeverage) ∧
    nanScoreIndicators.PiCycleCross = false ∧
    nanScoreIndicators.MaMultiplierState ≠ CryptoSentinel.model.MaStateBullTop ∧
    (∃ signal : model.TradeSignal,
      EvaluateV2 "2026-11-02" (some nanScoreIndicators) = Except.ok signal ∧
      signal.ActionBTC = CryptoSentinel.model.ActionStrongBuy ∧
      signal.ActionETH = CryptoSentinel.model.ActionETHBuyHeavy) ∧
    specEthSubStrategy nanScoreIndicators = CryptoSentinel.model.ActionETHFollowBTC := by
  have hlev : ¬ nanScoreIndicators.AccountLeverage > MaxLeverage := by decide!
  refine ⟨hlev, rfl, by decide,
    ⟨_, EvaluateV2_normal_path_float _ _ hlev rfl (by decide), ?_, ?_⟩, ?_⟩
  · decide!
  · decide!
  · decide!

/-- C6 (amended). When neither breaker fires, the ETH action of `EvaluateV2` is
the reference sub-strategy with "MVRV-Z not above 6.0" for "MVRV-Z at most
6.0": BUY_HEAVY on the lower band while buying is still allowed (AHR999 below
1.20 and MVRV-Z not above 6.0), SELL_OR_SWAP_BTC on the upper band whatever the
BTC zone and MVRV-Z, FOLLOW_BTC in every other case, the middle band and
unrecognised band strings included; and whenever MVRV-Z is a number this is the
reference of the claim as stated. -/
theorem EvaluateV2_eth_refines_not_above (today : String)
    (indicators : model.MarketIndicators)
    (hlev : ¬ indicators.AccountLeverage > MaxLeverage)
    (hpi : indicators.PiCycleCross = false)
    (hma : indicators.MaMultiplierState ≠ CryptoSentinel.model.MaStateBullTop) :
    ∃ signal : model.TradeSignal,
      EvaluateV2 today (some indicators) = Except.ok signal ∧
      signal.ActionETH = specEthSubStrategyNotAbove indicators ∧
      (indicators.MVRVZScore ≠ Float64.nan →
        signal.ActionETH = specEthSubStrategy indicators) ∧
      (indicators.EthRegressionState = CryptoSentinel.model.EthRegUpper →
        signal.ActionETH = CryptoSentinel.model.ActionETHSellOrSwap) ∧
      (indicators.EthRegressionState ≠ CryptoSentinel.model.EthRegLower →
        indicators.EthRegressionState ≠ CryptoSentinel.model.EthRegUpper →
        signal.ActionETH = CryptoSentinel.model.ActionETHFollowBTC) := by
  obtain ⟨signal, hs, he⟩ := EvaluateV2_normal_eth today indicators hlev hpi hma
  refine ⟨signal, hs, he, ?_, ?_, ?_⟩
  · intro hnum
    rw [he, spec_agree_of_number indicators hnum]
  · intro hup
    have hlow : ¬ indicators.EthRegressionState = CryptoSentinel.model.EthRegLower := by
      rw [hup]
      decide
    have hn : ¬ (indicators.EthRegressionState = CryptoSentinel.model.EthRegLower ∧
        (indicators.AHR999 < 1.20 ∧ ¬ indicators.MVRVZScore > 6.0)) := fun h => hlow h.1
    rw [he]
    unfold specEthSubStrategyNotAbove
    rw [if_neg hn, if_pos hup]
  · intro hlow hup
    have hn : ¬ (indicators.EthRegressionState = CryptoSentinel.model.EthRegLower ∧
        (indicators.AHR999 < 1.20 ∧ ¬ indicators.MVRVZScore > 6.0)) := fun h => hlow h.1
    rw [he]
    unfold specEthSubStrategyNotAbove
    rw [if_neg hn, if_neg hup]

/-- Witness for C6 (amended): the snapshot with the not-a-number MVRV-Z, on
which the engine and the amended reference both answer BUY_HEAVY. -/
theorem EvaluateV2_eth_refines_not_above_witness :
    ∃ signal : model.TradeSignal,
      EvaluateV2 "2026-11-02" (some nanScoreIndicators) = Except.ok signal ∧
      signal.ActionETH = specEthSubStrategyNotAbove nanScoreIndicators ∧
      (nanScoreIndicators.MVRVZScore ≠ Float64.nan →
        signal.ActionETH = specEthSubStrategy nanScoreIndicators) ∧
      (nanScoreIndicators.EthRegressionState = CryptoSentinel.model.EthRegUpper →
        signal.ActionETH = CryptoSentinel.model.ActionETHSellOrSwap) ∧
      (nanScoreIndicators.EthRegressionState ≠ CryptoSentinel.model.EthRegLower →
        nanScoreIndicators.EthRegressionState ≠ CryptoSentinel.model.EthRegUpper →
        signal.ActionETH = CryptoSentinel.model.ActionETHFollowBTC) :=
  EvaluateV2_eth_refines_not_above "2026-11-02" nanScoreIndicators (by decide!) rfl
    (by decide)

/-- C9 (as stated, refuted). The `nil` pointer is a value of the input type
`*model.MarketIndicators`, and on it `EvaluateV2` panics at its first field read
instead of returning a signal. -/
theorem EvaluateV2_nil_panics :
    EvaluateV2 "2026-11-02" none = Except.error nilDereference ∧
    ¬ ∃ signal : model.TradeSignal, EvaluateV2 "2026-11-02" none = Except.ok signal := by
  constructor
  · rfl
  · rintro ⟨signal, h⟩
    cases h

/-- C9 (amended). On every snapshot, that is on every pointer other than `nil`,
`EvaluateV2` returns a signal and never fails, whatever the fields hold
(default-filled, negative, infinite or not-a-number), and the signal is well
formed: a BTC action and an ETH action of the model and an amount factor of 0,
1.0 or 1.5. The zero snapshot is a STRONG_BUY, leverage -3 on the test snapshot
an ordinary DCA_BUY, and the snapshot whose numbers are all not-a-number a
SELL that is not halted. -/
theorem EvaluateV2_total_on_snapshots :
    (∀ (today : String) (indicators : model.MarketIndicators),
      ∃ signal : model.TradeSignal,
        EvaluateV2 today (some indicators) = Except.ok signal ∧
        signal.ActionBTC ∈ [CryptoSentinel.model.ActionHalt,
          CryptoSentinel.model.ActionSellAlert, CryptoSentinel.model.ActionStrongBuy,
          CryptoSentinel.model.ActionDCABuy, CryptoSentinel.model.ActionHold,
          CryptoSentinel.model.ActionHoldCaution, CryptoSentinel.model.ActionSell] ∧
        signal.ActionETH ∈ [CryptoSentinel.model.ActionHalt,
          CryptoSentinel.model.ActionSellAlert, CryptoSentinel.model.ActionETHBuyHeavy,
          CryptoSentinel.model.ActionETHSellOrSwap,
          CryptoSentinel.model.ActionETHFollowBTC] ∧
        signal.AmountFactor ∈ [(0 : Float64), 1.0, 1.5]) ∧
    (∃ signal : model.TradeSignal,
      EvaluateV2 "2026-11-02" (some zeroIndicators) = Except.ok signal ∧
      signal.ActionBTC = CryptoSentinel.model.ActionStrongBuy ∧
      signal.ActionETH = CryptoSentinel.model.ActionETHFollowBTC ∧
      signal.AmountFactor = 1.5 ∧ signal.IsHalted = false) ∧
    (∃ signal : model.TradeSignal,
      EvaluateV2 "2026-11-02" (some { newTestIndicators with AccountLeverage := -3 })
        = Except.ok signal ∧
      signal.ActionBTC = CryptoSentinel.model.ActionDCABuy ∧ signal.IsHalted = false) ∧
    (∃ signal : model.TradeSignal,
      EvaluateV2 "2026-11-02" (some nanIndicators) = Except.ok signal ∧
      signal.ActionBTC = CryptoSentinel.model.ActionSell ∧
      signal.ActionETH = CryptoSentinel.model.ActionETHFollowBTC ∧
      signal.IsHalted = false) := by
  refine ⟨?_, ?_, ?_, ?_⟩
  · intro today indicators
    by_cases hlev : indicators.AccountLeverage > MaxLeverage
    · simp only [EvaluateV2, if_pos hlev]
      refine ⟨_, rfl, ?_⟩
      simp [initialSignal]
    · by_cases htop : indicators.PiCycleCross = true
          ∨ indicators.MaMultiplierState = CryptoSentinel.model.MaStateBullTop
      · simp only [EvaluateV2, if_neg hlev, if_pos htop]
        refine ⟨_, rfl, ?_⟩
        simp [initialSignal]
      · simp only [EvaluateV2, if_neg hlev, if_neg htop]
        refine ⟨_, rfl, ?_⟩
        simp only [ethStep, mvrvStep, btcBaseStep, initialSignal]
        split_ifs <;> simp
  · have hlev : ¬ zeroIndicators.AccountLeverage > MaxLeverage := by decide!
    refine ⟨_, EvaluateV2_normal_path_float _ _ hlev rfl (by decide), ?_, ?_, ?_, ?_⟩ <;> decide!
  · have hlev : ¬ ({ newTestIndicators with AccountLeverage := -3 } :
        model.MarketIndicators).AccountLeverage > MaxLeverage := by decide!
    refine ⟨_, EvaluateV2_normal_path_float _ _ hlev rfl (by decide), ?_, ?_⟩ <;> decide!
  · have hlev : ¬ nanIndicators.AccountLeverage > MaxLeverage := by decide!
    refine ⟨_, EvaluateV2_normal_path_float _ _ hlev rfl (by decide), ?_, ?_, ?_⟩ <;> decide!

end strategy

end ieee

/-! ## The index on a series with a zero close -/

namespace calculator

/-- The coin age at three clock readings: the last nanosecond of day 6504, where
the hours round up to a whole day in `float64`, the first nanosecond of day 6505
and a reading inside day 6504. -/
theorem coinAgeDaysOf_values :
    coinAgeDaysOf 562031999999999999 = 6505 ∧
    coinAgeDaysOf 562032000000000000 = 6505 ∧
    coinAgeDaysOf 562031999990000000 = 6504 := by
  decide!

/-- The positive closes of a series that starts with a zero close. -/
theorem filter_pos_zero_cons (P : ℝ) (m : ℕ) (hP : 0 < P) :
    ((0 : ℝ) :: List.replicate m P).filter (fun p => p > 0) = List.replicate m P := by
  have h0 : ¬ ((0 : ℝ) > 0) := lt_irrefl _
  rw [List.filter_cons_of_neg (by simp)]
  exact filter_pos_of_all_pos _ (fun p hp => by rw [List.eq_of_mem_replicate hp]; exact hP)

/-- The fields of the result of `AHR999Calculator.Calculate` on a fetched
series of at least 200 closes. -/
theorem Calculate_fields (prices : List ℝ) (sinceGenesis now : Int)
    (h : 200 ≤ prices.length) :
    ∃ r : AHR999Result ℝ,
      AHR999Calculator.Calculate Real.log Real.exp (Real.logb 10) (fun x y => x ^ y)
        (Except.ok prices) sinceGenesis now = Except.ok r ∧
      prices.getLast? = some r.CurrentPrice ∧
      r.DCA200Cost = calculateGeometricMean Real.log Real.exp prices ∧
      r.CoinAgeDays = coinAgeDaysOf sinceGenesis ∧
      r.ExponentialValue =
        calculateExponentialValue (Real.logb 10) (fun x y => x ^ y)
          (coinAgeDaysOf sinceGenesis) ∧
      r.AHR999 = (r.CurrentPrice / r.DCA200Cost) * (r.CurrentPrice / r.ExponentialValue) := by
  have hlen : ¬ prices.length < 200 := by omega
  have hne : prices ≠ [] := by
    intro h0
    rw [h0] at h
    simp at h
  simp only [AHR999Calculator.Calculate, if_neg hlen]
  exact ⟨_, rfl, getD_last prices 0 hne, rfl, rfl, rfl, rfl⟩

/-- C15 (the code at a failing input). On the fetched series of one close at 0
followed by 199 closes at 4, read over the reals at a clock reading of day 6505,
`AHR999Calculator.Calculate` returns a result whose current price is the last
close 4, but whose 200-day cost is `exp (199 * log 4 / 200)`: below 4, the
geometric mean of the closes once the zero close is left out, and above 0, the
200th root of the product of all closes. The index of the result is therefore
above `(4 / 4) * (4 / ExponentialValue)`, the index of the claim. -/
theorem AHR999Calculator_Calculate_zero_close :
    ∃ r : AHR999Result ℝ,
      AHR999Calculator.Calculate Real.log Real.exp (Real.logb 10) (fun x y => x ^ y)
        (Except.ok ((0 : ℝ) :: List.replicate 199 4)) 562032000000000000 0 = Except.ok r ∧
      ((0 : ℝ) :: List.replicate 199 4).getLast? = some r.CurrentPrice ∧
      r.CurrentPrice = 4 ∧
      r.DCA200Cost = Real.exp (199 * Real.log 4 / 200) ∧
      r.DCA200Cost < 4 ∧ 0 < r.DCA200Cost ∧
      specGeometricMean Real.log Real.exp ((0 : ℝ) :: List.replicate 199 4) = 4 ∧
      ((0 : ℝ) :: List.replicate 199 4).prod ^ ((1 : ℝ) / 200) = 0 ∧
      r.CoinAgeDays = 6505 ∧ 0 < r.ExponentialValue ∧
      r.AHR999 = (r.CurrentPrice / r.DCA200Cost) * (r.CurrentPrice / r.ExponentialValue) ∧
      (4 / 4) * (4 / r.ExponentialValue) < r.AHR999 := by
  have h4 : (0 : ℝ) < 4 := by norm_num
  have hlog4 : 0 < Real.log 4 := Real.log_pos (by norm_num)
  have hlen : ((0 : ℝ) :: List.replicate 199 4).length = 200 := by
    rw [List.length_cons, List.length_replicate]
  have hne : ((0 : ℝ) :: List.replicate 199 4) ≠ [] := List.cons_ne_nil _ _
  have hcost : calculateGeometricMean Real.log Real.exp ((0 : ℝ) :: List.replicate 199 4)
      = Real.exp (199 * Real.log 4 / 200) := by
    rw [calculateGeometricMean_eq _ _ _ hne, filter_pos_zero_cons 4 199 h4, hlen]
    simp only [List.map_replicate, List.sum_replicate, nsmul_eq_mul]
    norm_num
  have hbelow : Real.exp (199 * Real.log 4 / 200) < 4 := by
    calc Real.exp (199 * Real.log 4 / 200) < Real.exp (Real.log 4) := by
          apply Real.exp_lt_exp.mpr
          linarith
      _ = 4 := Real.exp_log h4
  have hage : coinAgeDaysOf 562032000000000000 = 6505 := coinAgeDaysOf_values.2.1
  have hev : 0 < calculateExponentialValue (Real.logb 10) (fun x y => x ^ y)
      (coinAgeDaysOf 562032000000000000) := by
    rw [hage, exponentialValue_of_pos 6505 (by decide)]
    exact Real.rpow_pos_of_pos (by norm_num) _
  have hlast : ((0 : ℝ) :: List.replicate 199 4).getLast? = some 4 := by
    rw [getD_last _ 0 hne, hlen]
    show some (((0 : ℝ) :: List.replicate 199 4).getD (198 + 1) 0) = some 4
    rw [List.getD_cons_succ, List.getD_eq_getElem _ _ (by rw [List.length_replicate]; decide),
      List.getElem_replicate]
  obtain ⟨r, hr, hcur, hdca, hdays, hexp, hidx⟩ :=
    Calculate_fields ((0 : ℝ) :: List.replicate 199 4) 562032000000000000 0
      (by rw [hlen])
  have hprice : r.CurrentPrice = 4 := by
    rw [hlast] at hcur
    exact (Option.some.inj hcur).symm
  rw [hcost] at hdca
  refine ⟨r, hr, hcur, hprice, hdca, ?_, ?_, ?_, ?_, ?_, ?_, hidx, ?_⟩
  · rw [hdca]
    exact hbelow
  · rw [hdca]
    exact Real.exp_pos _
  · unfold specGeometricMean
    rw [filter_pos_zero_cons 4 199 h4]
    simp only [List.map_replicate, List.sum_replicate, List.length_replicate, nsmul_eq_mul]
    rw [mul_div_cancel_left₀ _ (by norm_num : ((199 : ℕ) : ℝ) ≠ 0), Real.exp_log h4]
  · rw [List.prod_cons, zero_mul, Real.zero_rpow (by norm_num)]
  · rw [hdays, hage]
  · rw [hexp]
    exact hev
  · rw [hidx, hprice, hdca]
    have hpos : 0 < 4 / r.ExponentialValue := by
      rw [hexp]
      exact div_pos h4 hev
    apply mul_lt_mul_of_pos_right _ hpos
    rw [div_self (ne_of_gt h4), lt_div_iff₀ (Real.exp_pos _)]
    linarith

end calculator

/-! ## The Newton root and the dispersion estimator in `float64` -/

namespace ieee

namespace fetcher

open Float64

/-- The exact Newton value `n = (z*z + x) / (2*z)` and correction
`h = (z*z - x) / (2*z)` of a positive iterate. -/
theorem newton_exact (x z n h : ℚ) (hz : 0 < z) (hx : 0 < x)
    (hn : n * (2 * z) = z * z + x) (hh : h * (2 * z) = z * z - x) :
    0 < n ∧ z ≤ 2 * n ∧ n + h = z ∧ |h| ≤ n := by
  have hzz : 0 < z * z := mul_pos hz hz
  have h2z : (0 : ℚ) < 2 * z := by linarith
  have hn0 : 0 < n := by
    have : 0 < n * (2 * z) := by rw [hn]; linarith
    exact pos_of_mul_pos_left this h2z.le
  have hzn : z ≤ 2 * n := by
    have : z * (2 * z) ≤ 2 * n * (2 * z) := by nlinarith
    exact le_of_mul_le_mul_right this h2z
  have hnh : n + h = z := by
    have : (n + h) * (2 * z) = z * (2 * z) := by rw [add_mul, hn, hh]; ring
    exact mul_right_cancel₀ h2z.ne' this
  refine ⟨hn0, hzn, hnh, ?_⟩
  rw [abs_le]
  constructor
  · have : 0 ≤ (h + n) * (2 * z) := by rw [add_mul, hn, hh]; linarith
    have := nonneg_of_mul_nonneg_left this h2z
    linarith
  · have : 0 ≤ (n - h) * (2 * z) := by rw [sub_mul, hn, hh]; linarith
    have := nonneg_of_mul_nonneg_left this h2z
    linarith

/-- The computed quotient `g0 = d / b` of a Newton round against the exact
correction `h`: the divisor is positive and the quotient is within
`3.01 * u * n` of `h`. -/
theorem newton_quotient_error (u μ x z a d b g0 n h : ℚ)
    (hu0 : 0 < u) (hu1 : u ≤ 1 / 1000) (hμ0 : 0 ≤ μ)
    (hμz : μ ≤ z / 10000) (hμzz : μ ≤ z * z / 10000) (hz : 0 < z) (hx : 0 < x)
    (hn : n * (2 * z) = z * z + x) (hh : h * (2 * z) = z * z - x) (hg0 : g0 * b = d)
    (h1 : |a - z * z| ≤ u * (|z * z| + μ))
    (h2 : |d - (a - x)| ≤ u * (|a - x| + μ))
    (h3 : |b - 2 * z| ≤ u * (|2 * z| + μ)) :
    0 < b ∧ |g0 - h| ≤ 301 / 100 * (u * n) := by
  obtain ⟨hn0, hzn, hnh, habsh⟩ := newton_exact x z n h hz hx hn hh
  have hzz : 0 < z * z := mul_pos hz hz
  have hp : 0 < z * n := mul_pos hz hn0
  have hq : 0 < u * (z * n) := mul_pos hu0 hp
  have hzz2 : z * z ≤ 2 * (z * n) := by
    have := mul_le_mul_of_nonneg_left hzn hz.le
    linarith
  have hS : z * z + x = 2 * (z * n) := by linarith
  have hμp : μ ≤ z * n / 5000 := by linarith
  have huq : u * (u * (z * n)) ≤ u * (z * n) / 1000 := by
    have := mul_le_mul_of_nonneg_right hu1 hq.le
    linarith
  -- step 1
  rw [abs_of_pos hzz] at h1
  have hA : |a - z * z| ≤ 20002 / 10000 * (u * (z * n)) := by
    have : u * (z * z + μ) ≤ u * (20002 / 10000 * (z * n)) :=
      mul_le_mul_of_nonneg_left (by linarith) hu0.le
    linarith
  -- step 2
  have hax : |a - x| ≤ |a - z * z| + (z * z + x) := by
    have : a - x = (a - z * z) + (z * z - x) := by ring
    rw [this]
    refine (abs_add _ _).trans ?_
    have : |z * z - x| ≤ z * z + x := by
      rw [abs_le]
      constructor <;> linarith
    linarith
  have hdE : |d - (z * z - x)| ≤ 40025 / 10000 * (u * (z * n)) := by
    have e : d - (z * z - x) = (d - (a - x)) + (a - z * z) := by ring
    rw [e]
    refine (abs_add _ _).trans ?_
    have e1 : u * (|a - x| + μ) ≤
        u * (20002 / 10000 * (u * (z * n)) + 2 * (z * n) + z * n / 5000) :=
      mul_le_mul_of_nonneg_left (by linarith) hu0.le
    have e2 : u * (20002 / 10000 * (u * (z * n)) + 2 * (z * n) + z * n / 5000)
        = 20002 / 10000 * (u * (u * (z * n))) + 20002 / 10000 * (u * (z * n)) := by ring
    linarith
  -- step 3
  rw [abs_of_pos (by linarith : (0 : ℚ) < 2 * z)] at h3
  have hB : |b - 2 * z| ≤ 20001 / 10000 * (u * z) := by
    have : u * (2 * z + μ) ≤ u * (20001 / 10000 * z) :=
      mul_le_mul_of_nonneg_left (by linarith) hu0.le
    linarith
  have huz : u * z ≤ z / 1000 := by
    have := mul_le_mul_of_nonneg_right hu1 hz.le
    linarith
  have hb : 1996 / 1000 * z ≤ b := by
    have := (abs_le.mp hB).1
    linarith
  have hb0 : 0 < b := by linarith
  refine ⟨hb0, ?_⟩
  -- step 4
  have hT : |g0 - h| * b ≤ |d - (z * z - x)| + |h| * |b - 2 * z| := by
    have e : (g0 - h) * b = (d - (z * z - x)) + h * (2 * z - b) := by
      rw [sub_mul, hg0, ← hh]
      ring
    have e2 : |g0 - h| * b = |(g0 - h) * b| := by rw [abs_mul, abs_of_pos hb0]
    rw [e2, e]
    refine (abs_add _ _).trans ?_
    rw [abs_mul, abs_sub_comm (2 * z) b]
  have hhB : |h| * |b - 2 * z| ≤ 20001 / 10000 * (u * (z * n)) := by
    have := mul_le_mul habsh hB (abs_nonneg _) hn0.le
    have e : n * (20001 / 10000 * (u * z)) = 20001 / 10000 * (u * (z * n)) := by ring
    linarith
  have hT2 : |g0 - h| * (1996 / 1000 * z) ≤ 60026 / 10000 * (u * (z * n)) := by
    have := mul_le_mul_of_nonneg_left hb (abs_nonneg (g0 - h))
    linarith
  have hT3 : (|g0 - h| * (1996 / 1000)) * z ≤ (60026 / 10000 * (u * n)) * z := by
    have e1 : |g0 - h| * (1996 / 1000 * z) = (|g0 - h| * (1996 / 1000)) * z := by ring
    have e2 : 60026 / 10000 * (u * (z * n)) = (60026 / 10000 * (u * n)) * z := by ring
    linarith
  have hT4 := le_of_mul_le_mul_right hT3 hz
  have hun : 0 < u * n := mul_pos hu0 hn0
  linarith

/-- One Newton round under rounding errors: the computed iterate `z'` is within
`5.1 * u * n` of the exact Newton value `n`. -/
theorem newton_step_error (u μ x z a d b g0 g z' n h : ℚ)
    (hu0 : 0 < u) (hu1 : u ≤ 1 / 1000) (hμ0 : 0 ≤ μ)
    (hμz : μ ≤ z / 10000) (hμzz : μ ≤ z * z / 10000) (hz : 0 < z) (hx : 0 < x)
    (hn : n * (2 * z) = z * z + x) (hh : h * (2 * z) = z * z - x) (hg0 : g0 * b = d)
    (h1 : |a - z * z| ≤ u * (|z * z| + μ))
    (h2 : |d - (a - x)| ≤ u * (|a - x| + μ))
    (h3 : |b - 2 * z| ≤ u * (|2 * z| + μ))
    (h4 : |g - g0| ≤ u * (|g0| + μ))
    (h5 : |z' - (z - g)| ≤ u * (|z - g| + μ)) :
    |z' - n| ≤ 51 / 10 * (u * n) := by
  obtain ⟨hn0, hzn, hnh, habsh⟩ := newton_exact x z n h hz hx hn hh
  obtain ⟨hb0, hT⟩ := newton_quotient_error u μ x z a d b g0 n h hu0 hu1 hμ0 hμz hμzz hz hx
    hn hh hg0 h1 h2 h3
  have hun : 0 < u * n := mul_pos hu0 hn0
  have huun : u * (u * n) ≤ u * n / 1000 := by
    have := mul_le_mul_of_nonneg_right hu1 hun.le
    linarith
  have hμn : u * μ ≤ 2 / 10000 * (u * n) := by
    have : u * μ ≤ u * (2 / 10000 * n) := mul_le_mul_of_nonneg_left (by linarith) hu0.le
    linarith
  have hg0n : |g0| ≤ n + |g0 - h| := by
    have e : g0 = h + (g0 - h) := by ring
    calc |g0| = |h + (g0 - h)| := by rw [← e]
      _ ≤ |h| + |g0 - h| := abs_add _ _
      _ ≤ n + |g0 - h| := by linarith
  have hgh : |g - h| ≤ 4014 / 1000 * (u * n) := by
    have e : g - h = (g - g0) + (g0 - h) := by ring
    rw [e]
    refine (abs_add _ _).trans ?_
    have e1 : u * (|g0| + μ) ≤ u * (n + 301 / 100 * (u * n)) + u * μ := by
      have := mul_le_mul_of_nonneg_left (by linarith : |g0| ≤ n + 301 / 100 * (u * n)) hu0.le
      linarith
    have e2 : u * (n + 301 / 100 * (u * n)) = u * n + 301 / 100 * (u * (u * n)) := by ring
    linarith
  have hzg : |z - g| ≤ n + |g - h| := by
    have e : z - g = n - (g - h) := by
      rw [← hnh]
      ring
    rw [e]
    calc |n - (g - h)| ≤ |n| + |g - h| := abs_sub _ _
      _ = n + |g - h| := by rw [abs_of_pos hn0]
  have e : z' - n = (z' - (z - g)) - (g - h) := by
    rw [← hnh]
    ring
  rw [e]
  refine (abs_sub _ _).trans ?_
  have e1 : u * (|z - g| + μ) ≤ u * (n + 4014 / 1000 * (u * n)) + u * μ := by
    have := mul_le_mul_of_nonneg_left
      (by linarith : |z - g| ≤ n + 4014 / 1000 * (u * n)) hu0.le
    linarith
  have e2 : u * (n + 4014 / 1000 * (u * n)) = u * n + 4014 / 1000 * (u * (u * n)) := by ring
  linarith

/-- The constant 2 of the Newton round is the finite number 2. -/
theorem two_eq : (2 : Float64) = finite 2 := by
  decide!

/-- An error bound relative to the larger of two magnitudes is at most the bound
relative to their sum. -/
theorem max_error_le (u e m μ : ℚ) (hu : 0 ≤ u) (hμ : 0 ≤ μ) (h : e ≤ u * max |m| μ) :
    e ≤ u * (|m| + μ) := by
  refine h.trans (mul_le_mul_of_nonneg_left ?_ hu)
  exact max_le (le_add_of_nonneg_right hμ) (le_add_of_nonneg_left (abs_nonneg m))

/-- One round of the loop of `sqrt` on finite numbers of moderate size: the
result is a positive finite number within `5.1 * 2 ^ (-53)` of the exact Newton
value `(z*z + x) / (2*z)`, relative to that value. -/
theorem sqrtRound_spec (x z : ℚ) (hx1 : 1 / 2 ^ 150 ≤ x) (hx2 : x ≤ 2 ^ 150)
    (hz1 : 1 / 2 ^ 150 ≤ z) (hz2 : z ≤ 2 ^ 150) :
    ∃ z' : ℚ,
      (finite z - (finite z * finite z - finite x) / (2 * finite z) : Float64) = finite z' ∧
      0 < z' ∧
      |z' - (z * z + x) / (2 * z)| ≤ 51 / 10 * (unitRoundoff * ((z * z + x) / (2 * z))) := by
  obtain ⟨hu0, hu1', hm0, hF0, hmF, -, -, -⟩ := constants_spec
  obtain ⟨huval, hu1, hμsmall, hFbig⟩ := constants_range
  have hM : (1 : ℚ) ≤ 2 ^ 150 := one_le_pow₀ (by norm_num)
  have hMi : (0 : ℚ) < 1 / 2 ^ 150 := by positivity
  have hMi1 : (1 : ℚ) / 2 ^ 150 ≤ 1 := by
    rw [div_le_one (by positivity)]
    exact hM
  have hz : 0 < z := lt_of_lt_of_le hMi hz1
  have hx : 0 < x := lt_of_lt_of_le hMi hx1
  have h2z : (0 : ℚ) < 2 * z := by linarith
  have hzz : 0 < z * z := mul_pos hz hz
  have hzzlo : 1 / 2 ^ 150 * (1 / 2 ^ 150) ≤ z * z := mul_le_mul hz1 hz1 hMi.le hz.le
  have hzzhi : z * z ≤ 2 ^ 150 * 2 ^ 150 := mul_le_mul hz2 hz2 hz.le (by positivity)
  have hμz : minNormal ≤ z / 10000 := by
    have : (1 : ℚ) / 2 ^ 150 * (1 / 2 ^ 150) ≤ 1 / 2 ^ 150 * 1 :=
      mul_le_mul_of_nonneg_left hMi1 hMi.le
    linarith
  have hμzz : minNormal ≤ z * z / 10000 := by linarith
  -- the exact Newton value and correction
  obtain ⟨n, hndef⟩ : ∃ n : ℚ, n = (z * z + x) / (2 * z) := ⟨_, rfl⟩
  obtain ⟨h, hhdef⟩ : ∃ h : ℚ, h = (z * z - x) / (2 * z) := ⟨_, rfl⟩
  have hn : n * (2 * z) = z * z + x := by
    rw [hndef, div_mul_cancel₀ _ h2z.ne']
  have hh : h * (2 * z) = z * z - x := by
    rw [hhdef, div_mul_cancel₀ _ h2z.ne']
  obtain ⟨hn0, hzn, hnh, habsh⟩ := newton_exact x z n h hz hx hn hh
  have hnhi : n ≤ 2 ^ 150 * 2 ^ 150 := by
    have h1 : n * (2 * z) ≤ (2 ^ 150 * 2 ^ 150) * (2 * z) := by
      rw [hn]
      have : 2 ^ 150 * 2 ^ 150 * (2 * z) = 2 * (2 ^ 150 * (2 ^ 150 * z)) := by ring
      rw [this]
      have e1 : (1 : ℚ) ≤ 2 ^ 150 * z := by
        have := mul_le_mul_of_nonneg_left hz1 (by positivity : (0 : ℚ) ≤ 2 ^ 150)
        rw [mul_one_div_cancel (by positivity)] at this
        exact this
      have e2 : (2 : ℚ) ^ 150 * 1 ≤ 2 ^ 150 * (2 ^ 150 * z) :=
        mul_le_mul_of_nonneg_left e1 (by positivity)
      have e3 : z * z ≤ 2 ^ 150 * z := mul_le_mul_of_nonneg_right hz2 hz.le
      have e4 : (2 : ℚ) ^ 150 * z ≤ 2 ^ 150 * (2 ^ 150 * z) :=
        mul_le_mul_of_nonneg_left (le_mul_of_one_le_left hz.le hM) (by positivity)
      linarith
    exact le_of_mul_le_mul_right h1 h2z
  have hznhi : z * n ≤ 2 ^ 150 * 2 ^ 150 * 2 ^ 150 := by
    have := mul_le_mul hz2 hnhi hn0.le (by positivity : (0 : ℚ) ≤ 2 ^ 150)
    linarith
  have hM3 : (2 : ℚ) ^ 150 * 2 ^ 150 ≤ 2 ^ 150 * 2 ^ 150 * 2 ^ 150 := by
    have := mul_le_mul_of_nonneg_left hM (by positivity : (0 : ℚ) ≤ 2 ^ 150 * 2 ^ 150)
    linarith
  have hM2 : (2 : ℚ) ^ 150 ≤ 2 ^ 150 * 2 ^ 150 := by
    have := mul_le_mul_of_nonneg_left hM (by positivity : (0 : ℚ) ≤ 2 ^ 150)
    linarith
  have hM3pos : (0 : ℚ) < 2 ^ 150 * 2 ^ 150 * 2 ^ 150 := by positivity
  -- z * z
  have sA := mul_spec (finite z) (finite z) rfl rfl (by
    show |z * z| < finiteBound
    rw [abs_of_pos hzz]
    linarith)
  obtain ⟨fA, eA⟩ := sA
  have eA' : |(finite z * finite z).val - z * z| ≤ unitRoundoff * (|z * z| + minNormal) :=
    max_error_le _ _ _ _ hu0.le hm0.le eA
  obtain ⟨a, ha⟩ : ∃ a : ℚ, a = (finite z * finite z).val := ⟨_, rfl⟩
  rw [← ha] at eA'
  -- z * z - x
  have hp : 0 < z * n := mul_pos hz hn0
  have hS : z * z + x = 2 * (z * n) := by linarith
  have hax : |a - x| ≤ 3 * (z * n) := by
    have e : a - x = (a - z * z) + (z * z - x) := by ring
    rw [e]
    refine (abs_add _ _).trans ?_
    have e1 : |z * z - x| ≤ z * z + x := by
      rw [abs_le]
      constructor <;> linarith
    rw [abs_of_pos hzz] at eA'
    have e2 : unitRoundoff * (z * z + minNormal) ≤ 1 / 1000 * (z * z + minNormal) :=
      mul_le_mul_of_nonneg_right hu1 (by linarith)
    linarith
  have sD := sub_spec (finite z * finite z) (finite x) fA rfl (by
    show |(finite z * finite z).val - x| < finiteBound
    rw [← ha]
    linarith)
  obtain ⟨fD, eD⟩ := sD
  have eD' := max_error_le _ _ _ _ hu0.le hm0.le eD
  obtain ⟨d, hd⟩ : ∃ d : ℚ, d = (finite z * finite z - finite x).val := ⟨_, rfl⟩
  rw [← ha] at eD'
  rw [← hd] at eD'
  have eD'' : |d - (a - x)| ≤ unitRoundoff * (|a - x| + minNormal) := eD'
  -- 2 * z
  have sB := mul_spec (finite 2) (finite z) rfl rfl (by
    show |2 * z| < finiteBound
    rw [abs_of_pos h2z]
    linarith)
  obtain ⟨fB, eB⟩ := sB
  have eB' : |(finite 2 * finite z).val - 2 * z| ≤ unitRoundoff * (|2 * z| + minNormal) :=
    max_error_le _ _ _ _ hu0.le hm0.le eB
  obtain ⟨b, hb⟩ : ∃ b : ℚ, b = (finite 2 * finite z).val := ⟨_, rfl⟩
  rw [← hb] at eB'
  -- the quotient
  obtain ⟨hb0, hT⟩ := newton_quotient_error unitRoundoff minNormal x z a d b (d / b) n h
    hu0 hu1 hm0.le hμz hμzz hz hx hn hh (by
      have hbpos : 0 < b := by
        rw [abs_of_pos h2z] at eB'
        have e2 : unitRoundoff * (2 * z + minNormal) ≤ 1 / 1000 * (2 * z + minNormal) :=
          mul_le_mul_of_nonneg_right hu1 (by linarith)
        have := (abs_le.mp eB').1
        linarith
      exact div_mul_cancel₀ _ hbpos.ne') eA' eD'' eB'
  have hun : 0 < unitRoundoff * n := mul_pos hu0 hn0
  have hunn : unitRoundoff * n ≤ n / 1000 := by
    have := mul_le_mul_of_nonneg_right hu1 hn0.le
    linarith
  have hg0 : |d / b| ≤ 2 * n := by
    have e : d / b = h + (d / b - h) := by ring
    rw [e]
    refine (abs_add _ _).trans ?_
    linarith
  have sG := div_spec (finite z * finite z - finite x) (finite 2 * finite z) fD fB
    (by rw [← hb]; exact hb0.ne') (by
      rw [← hd, ← hb]
      linarith)
  obtain ⟨fG, eG⟩ := sG
  have eG' := max_error_le _ _ _ _ hu0.le hm0.le eG
  rw [← hd, ← hb] at eG'
  obtain ⟨g, hg⟩ : ∃ g : ℚ,
      g = ((finite z * finite z - finite x) / (finite 2 * finite z)).val := ⟨_, rfl⟩
  rw [← hg] at eG'
  -- z - g
  have hgbound : |g| ≤ 3 * n := by
    have e : g = (g - d / b) + d / b := by ring
    rw [e]
    refine (abs_add _ _).trans ?_
    have e2 : unitRoundoff * (|d / b| + minNormal) ≤ 1 / 1000 * (|d / b| + minNormal) :=
      mul_le_mul_of_nonneg_right hu1 (by linarith [abs_nonneg (d / b)])
    linarith
  have hzg : |z - g| ≤ 5 * n := by
    refine (abs_sub _ _).trans ?_
    rw [abs_of_pos hz]
    linarith
  have sZ := sub_spec (finite z) ((finite z * finite z - finite x) / (finite 2 * finite z))
    rfl fG (by
      show |z - ((finite z * finite z - finite x) / (finite 2 * finite z)).val| < finiteBound
      rw [← hg]
      linarith)
  obtain ⟨fZ, eZ⟩ := sZ
  have eZ' := max_error_le _ _ _ _ hu0.le hm0.le eZ
  obtain ⟨z', hz'⟩ : ∃ z' : ℚ,
      z' = (finite z - (finite z * finite z - finite x) / (finite 2 * finite z)).val :=
    ⟨_, rfl⟩
  rw [← hg] at eZ'
  rw [← hz'] at eZ'
  have eZ'' : |z' - (z - g)| ≤ unitRoundoff * (|z - g| + minNormal) := eZ'
  have hfinal := newton_step_error unitRoundoff minNormal x z a d b (d / b) g z' n h
    hu0 hu1 hm0.le hμz hμzz hz hx hn hh (div_mul_cancel₀ _ hb0.ne') eA' eD'' eB' eG' eZ''
  have hz'pos : 0 < z' := by
    have := (abs_le.mp hfinal).1
    linarith
  rw [hndef] at hfinal
  refine ⟨z', ?_, hz'pos, hfinal⟩
  rw [two_eq]
  have := eq_finite_of_val_ne_zero _ fZ (by rw [← hz']; exact hz'pos.ne')
  rw [this, ← hz']

/-- The squared excess of a Newton round under a relative error `κ`: when
`z*z` lies between `x * (1 - 2κ)` and `x * (1 + W)`, the square of a value
within `κ * n` of the Newton value `n` lies between `x * (1 - 2κ)` and
`x * (1 + ρ * W + γ)`. -/
theorem newton_contract (κ ρ γ W x z n z' : ℚ) (hκ0 : 0 ≤ κ) (hκ1 : κ ≤ 1 / 4)
    (c1 : (1 + κ) ^ 2 ≤ 4 * ρ) (c2 : (1 + κ) ^ 2 * (1 + 2 * κ ^ 2) ≤ 1 + γ)
    (hW : 0 ≤ W) (hx : 0 < x) (hz : 0 < z)
    (hn : n * (2 * z) = z * z + x)
    (hlo : x * (1 - 2 * κ) ≤ z * z) (hhi : z * z ≤ x * (1 + W))
    (herr : |z' - n| ≤ κ * n) :
    0 < z' ∧ x * (1 - 2 * κ) ≤ z' * z' ∧ z' * z' ≤ x * (1 + ρ * W + γ) := by
  have hzz : 0 < z * z := mul_pos hz hz
  have h2z : (0 : ℚ) < 2 * z := by linarith
  have hn0 : 0 < n := by
    have : 0 < n * (2 * z) := by rw [hn]; linarith
    exact pos_of_mul_pos_left this h2z.le
  -- n * n ≥ x
  have hsq : (n * n) * (4 * (z * z)) = (z * z + x) ^ 2 := by
    have : (n * n) * (4 * (z * z)) = (n * (2 * z)) ^ 2 := by ring
    rw [this, hn]
  have hnx : x ≤ n * n := by
    have e : x * (4 * (z * z)) ≤ (n * n) * (4 * (z * z)) := by
      rw [hsq]
      nlinarith [sq_nonneg (z * z - x)]
    exact le_of_mul_le_mul_right e (by linarith)
  -- n * n ≤ x * (1 + W / 4 + 2 κ²)
  have hE : (z * z - x) ^ 2 ≤ (z * z) * (x * W) + 8 * κ ^ 2 * ((z * z) * x) := by
    have hterm : 0 ≤ 8 * κ ^ 2 * ((z * z) * x) := by positivity
    have hterm2 : 0 ≤ (z * z) * (x * W) := by positivity
    rcases le_total 0 (z * z - x) with hpos | hneg
    · have e1 : z * z - x ≤ x * W := by linarith
      have e2 : z * z - x ≤ z * z := by linarith
      have := mul_le_mul e2 e1 hpos hzz.le
      rw [sq]
      linarith
    · have e1 : x - z * z ≤ 2 * κ * x := by linarith
      have e0 : 0 ≤ x - z * z := by linarith
      have e2 := mul_le_mul e1 e1 e0 (by positivity)
      have e3 : x ≤ 2 * (z * z) := by nlinarith
      have e4 : 2 * κ * x * (2 * κ * x) ≤ 8 * κ ^ 2 * ((z * z) * x) := by
        have : x * x ≤ 2 * (z * z) * x := mul_le_mul_of_nonneg_right e3 hx.le
        have hk : 0 ≤ 4 * κ ^ 2 := by positivity
        have := mul_le_mul_of_nonneg_left this hk
        linarith
      have e5 : (z * z - x) ^ 2 = (x - z * z) * (x - z * z) := by ring
      rw [e5]
      linarith
  have hnup : n * n ≤ x * (1 + W / 4 + 2 * κ ^ 2) := by
    have e : (n * n) * (4 * (z * z)) ≤ (x * (1 + W / 4 + 2 * κ ^ 2)) * (4 * (z * z)) := by
      rw [hsq]
      have : (z * z + x) ^ 2 = (z * z - x) ^ 2 + 4 * ((z * z) * x) := by ring
      rw [this]
      linarith
    exact le_of_mul_le_mul_right e (by linarith)
  -- z'
  have h1 := (abs_le.mp herr).1
  have h2 := (abs_le.mp herr).2
  have hz'lo : (1 - κ) * n ≤ z' := by linarith
  have hz'hi : z' ≤ (1 + κ) * n := by linarith
  have hk1 : 0 < 1 - κ := by linarith
  have hz'pos : 0 < z' := lt_of_lt_of_le (mul_pos hk1 hn0) hz'lo
  refine ⟨hz'pos, ?_, ?_⟩
  · have e1 : ((1 - κ) * n) * ((1 - κ) * n) ≤ z' * z' :=
      mul_le_mul hz'lo hz'lo (mul_pos hk1 hn0).le hz'pos.le
    have e2 : (1 - 2 * κ) * x ≤ (1 - κ) ^ 2 * (n * n) := by
      have : (1 - 2 * κ) ≤ (1 - κ) ^ 2 := by nlinarith [sq_nonneg κ]
      have h3 : (1 - κ) ^ 2 * x ≤ (1 - κ) ^ 2 * (n * n) :=
        mul_le_mul_of_nonneg_left hnx (by positivity)
      have h4 : (1 - 2 * κ) * x ≤ (1 - κ) ^ 2 * x := mul_le_mul_of_nonneg_right this hx.le
      linarith
    have e3 : ((1 - κ) * n) * ((1 - κ) * n) = (1 - κ) ^ 2 * (n * n) := by ring
    linarith
  · have e1 : z' * z' ≤ ((1 + κ) * n) * ((1 + κ) * n) :=
      mul_le_mul hz'hi hz'hi hz'pos.le (by positivity)
    have e3 : ((1 + κ) * n) * ((1 + κ) * n) = (1 + κ) ^ 2 * (n * n) := by ring
    have e4 : (1 + κ) ^ 2 * (n * n) ≤ (1 + κ) ^ 2 * (x * (1 + W / 4 + 2 * κ ^ 2)) :=
      mul_le_mul_of_nonneg_left hnup (by positivity)
    have e5 : (1 + κ) ^ 2 * (x * (1 + W / 4 + 2 * κ ^ 2))
        = x * ((1 + κ) ^ 2 * (1 + 2 * κ ^ 2)) + x * W * ((1 + κ) ^ 2 / 4) := by ring
    have e6 : x * ((1 + κ) ^ 2 * (1 + 2 * κ ^ 2)) ≤ x * (1 + γ) :=
      mul_le_mul_of_nonneg_left c2 hx.le
    have e7 : x * W * ((1 + κ) ^ 2 / 4) ≤ x * W * ρ :=
      mul_le_mul_of_nonneg_left (by linarith) (by positivity)
    have e8 : x * (1 + ρ * W + γ) = x * (1 + γ) + x * W * ρ := by ring
    linarith

/-- The numeric side conditions of the contraction for the error `5.1 * 2 ^ (-53)`
of a round, the rate `1/4 + 2 ^ (-40)` and the floor `14 * 2 ^ (-53)`. -/
theorem contraction_constants :
    (0 : ℚ) ≤ 51 / 10 * unitRoundoff ∧ 51 / 10 * unitRoundoff ≤ 1 / 1000 ∧
    (1 + 51 / 10 * unitRoundoff) ^ 2 ≤ 4 * (1 / 4 + 1 / 2 ^ 40) ∧
    (1 + 51 / 10 * unitRoundoff) ^ 2 * (1 + 2 * (51 / 10 * unitRoundoff) ^ 2)
      ≤ 1 + (1 - (1 / 4 + 1 / 2 ^ 40)) * (14 * unitRoundoff) ∧
    (2 : ℚ) ^ 143 * (1 / 4 + 1 / 2 ^ 40) ^ 99 + 14 * unitRoundoff ≤ 1 / 2 ^ 49 ∧
    2 * (51 / 10 * unitRoundoff) ≤ 1 / 2 ^ 49 := by
  unfold unitRoundoff
  norm_num

/-- The constant 0 is the positive zero. -/
theorem zero_eq : (0 : Float64) = finite 0 := by
  decide!

/-- The unfolding of one round of the loop of `sqrt`. -/
theorem sqrtLoop_succ_float (x : Float64) (m : ℕ) (z : Float64) :
    sqrtLoop x (m + 1) z = sqrtLoop x m (z - (z * z - x) / (2 * z)) := rfl

/-- The rounds of `sqrt` keep the iterate near the root: from a positive `z`
whose square lies between `x * (1 - 10.2 * 2 ^ (-53))` and
`x * (1 + 2 ^ 143 * ρ ^ k + 14 * 2 ^ (-53))`, with `ρ = 1/4 + 2 ^ (-40)`, `m`
rounds lead to a positive finite value with the same bounds at `k + m`. -/
theorem sqrtLoop_invariant (x : ℚ) (hx1 : 1 / 2 ^ 140 ≤ x) (hx2 : x ≤ 2 ^ 140) (m : ℕ) :
    ∀ (k : ℕ) (z : ℚ), 0 < z →
      x * (1 - 2 * (51 / 10 * unitRoundoff)) ≤ z * z →
      z * z ≤ x * (1 + (2 ^ 143 * (1 / 4 + 1 / 2 ^ 40) ^ k + 14 * unitRoundoff)) →
      ∃ r : ℚ, sqrtLoop (finite x) m (finite z) = finite r ∧ 0 < r ∧
        x * (1 - 2 * (51 / 10 * unitRoundoff)) ≤ r * r ∧
        r * r ≤ x * (1 + (2 ^ 143 * (1 / 4 + 1 / 2 ^ 40) ^ (k + m) + 14 * unitRoundoff)) := by
  obtain ⟨hκ0, hκ1, c1, c2, -, -⟩ := contraction_constants
  obtain ⟨hu0, -, -, -, -, -, -, -⟩ := constants_spec
  have hxpos : 0 < x := lt_of_lt_of_le (by positivity) hx1
  induction m with
  | zero =>
    intro k z hz hlo hhi
    exact ⟨z, rfl, hz, hlo, hhi⟩
  | succ m ih =>
    intro k z hz hlo hhi
    have hρ0 : (0 : ℚ) ≤ 1 / 4 + 1 / 2 ^ 40 := by positivity
    have hρ1 : (1 : ℚ) / 4 + 1 / 2 ^ 40 ≤ 1 := by norm_num
    have hρk : ((1 : ℚ) / 4 + 1 / 2 ^ 40) ^ k ≤ 1 := pow_le_one₀ hρ0 hρ1
    have hρk0 : (0 : ℚ) ≤ (1 / 4 + 1 / 2 ^ 40) ^ k := pow_nonneg hρ0 k
    have hW : (0 : ℚ) ≤ 2 ^ 143 * (1 / 4 + 1 / 2 ^ 40) ^ k + 14 * unitRoundoff := by
      have := mul_nonneg (by positivity : (0 : ℚ) ≤ 2 ^ 143) hρk0
      linarith
    have hWle : (2 : ℚ) ^ 143 * (1 / 4 + 1 / 2 ^ 40) ^ k + 14 * unitRoundoff
        ≤ 2 ^ 143 + 1 := by
      have : (2 : ℚ) ^ 143 * (1 / 4 + 1 / 2 ^ 40) ^ k ≤ 2 ^ 143 * 1 :=
        mul_le_mul_of_nonneg_left hρk (by positivity)
      linarith
    -- the range of z
    have hzz_lo : 1 / 2 ^ 140 * (998 / 1000) ≤ z * z := by
      have : x * (998 / 1000) ≤ x * (1 - 2 * (51 / 10 * unitRoundoff)) :=
        mul_le_mul_of_nonneg_left (by linarith) hxpos.le
      have h2 : 1 / 2 ^ 140 * (998 / 1000) ≤ x * (998 / 1000) :=
        mul_le_mul_of_nonneg_right hx1 (by norm_num)
      linarith
    have hzz_hi : z * z ≤ 2 ^ 140 * (2 ^ 143 + 2) := by
      have h1 : x * (1 + (2 ^ 143 * (1 / 4 + 1 / 2 ^ 40) ^ k + 14 * unitRoundoff))
          ≤ x * (2 ^ 143 + 2) := mul_le_mul_of_nonneg_left (by linarith) hxpos.le
      have h2 : x * (2 ^ 143 + 2) ≤ 2 ^ 140 * (2 ^ 143 + 2) :=
        mul_le_mul_of_nonneg_right hx2 (by positivity)
      linarith
    have hz1 : 1 / 2 ^ 150 ≤ z := by
      by_contra hc
      push_neg at hc
      have : z * z < 1 / 2 ^ 150 * (1 / 2 ^ 150) :=
        mul_lt_mul'' hc hc hz.le hz.le
      have hnum : (1 : ℚ) / 2 ^ 150 * (1 / 2 ^ 150) ≤ 1 / 2 ^ 140 * (998 / 1000) := by
        norm_num
      linarith
    have hz2 : z ≤ 2 ^ 150 := by
      by_contra hc
      push_neg at hc
      have : (2 : ℚ) ^ 150 * 2 ^ 150 < z * z :=
        mul_lt_mul'' hc hc (by positivity) (by positivity)
      have hnum : (2 : ℚ) ^ 140 * (2 ^ 143 + 2) ≤ 2 ^ 150 * 2 ^ 150 := by norm_num
      linarith
    have hx1' : 1 / 2 ^ 150 ≤ x := by
      have : (1 : ℚ) / 2 ^ 150 ≤ 1 / 2 ^ 140 := by norm_num
      linarith
    have hx2' : x ≤ 2 ^ 150 := by
      have : (2 : ℚ) ^ 140 ≤ 2 ^ 150 := by norm_num
      linarith
    obtain ⟨z', hstep, hz'pos, herr⟩ := sqrtRound_spec x z hx1' hx2' hz1 hz2
    have h2z : (0 : ℚ) < 2 * z := by linarith
    have herr' : |z' - (z * z + x) / (2 * z)|
        ≤ 51 / 10 * unitRoundoff * ((z * z + x) / (2 * z)) := by
      rw [mul_assoc]
      exact herr
    obtain ⟨-, hlo', hhi'⟩ := newton_contract (51 / 10 * unitRoundoff) (1 / 4 + 1 / 2 ^ 40)
      ((1 - (1 / 4 + 1 / 2 ^ 40)) * (14 * unitRoundoff))
      (2 ^ 143 * (1 / 4 + 1 / 2 ^ 40) ^ k + 14 * unitRoundoff) x z ((z * z + x) / (2 * z)) z'
      hκ0 (by linarith) c1 c2 hW hxpos hz (div_mul_cancel₀ _ h2z.ne') hlo hhi herr'
    have hhi'' : z' * z'
        ≤ x * (1 + (2 ^ 143 * (1 / 4 + 1 / 2 ^ 40) ^ (k + 1) + 14 * unitRoundoff)) := by
      have e : (1 : ℚ) + (1 / 4 + 1 / 2 ^ 40) * (2 ^ 143 * (1 / 4 + 1 / 2 ^ 40) ^ k
          + 14 * unitRoundoff) + (1 - (1 / 4 + 1 / 2 ^ 40)) * (14 * unitRoundoff)
          = 1 + (2 ^ 143 * (1 / 4 + 1 / 2 ^ 40) ^ (k + 1) + 14 * unitRoundoff) := by
        rw [pow_succ]
        ring
      rw [← e]
      exact hhi'
    obtain ⟨r, hr, hrpos, hrlo, hrhi⟩ := ih (k + 1) z' hz'pos hlo' hhi''
    refine ⟨r, ?_, hrpos, hrlo, ?_⟩
    · rw [sqrtLoop_succ_float, hstep, hr]
    · have e : k + (m + 1) = k + 1 + m := by omega
      rw [e]
      exact hrhi

/-- The first Newton round, from a start near `x / 2`: the computed iterate is
positive and its square lies between `x * (1 - 2κ)` and `x * (1 + 2 ^ 143)`. -/
theorem newton_first (κ x z n z' : ℚ) (hκ1 : κ ≤ 1 / 1000)
    (hx1 : 1 / 2 ^ 140 ≤ x) (hx2 : x ≤ 2 ^ 140)
    (hzlo : 49 / 100 * x ≤ z) (hzhi : z ≤ 51 / 100 * x)
    (hn : n * (2 * z) = z * z + x) (herr : |z' - n| ≤ κ * n) :
    0 < z' ∧ x * (1 - 2 * κ) ≤ z' * z' ∧ z' * z' ≤ x * (1 + (2 ^ 143 + 0)) := by
  have hx : 0 < x := lt_of_lt_of_le (by positivity) hx1
  have hz : 0 < z := by linarith
  have hzz : 0 < z * z := mul_pos hz hz
  have h2z : (0 : ℚ) < 2 * z := by linarith
  have hn0 : 0 < n := by
    have : 0 < n * (2 * z) := by rw [hn]; linarith
    exact pos_of_mul_pos_left this h2z.le
  have hsq : (n * n) * (4 * (z * z)) = (z * z + x) ^ 2 := by
    have : (n * n) * (4 * (z * z)) = (n * (2 * z)) ^ 2 := by ring
    rw [this, hn]
  have hnx : x ≤ n * n := by
    have e : x * (4 * (z * z)) ≤ (n * n) * (4 * (z * z)) := by
      rw [hsq]
      nlinarith [sq_nonneg (z * z - x)]
    exact le_of_mul_le_mul_right e (by linarith)
  have hnup : n ≤ 255 / 1000 * x + 103 / 100 := by
    have e : n * (2 * z) ≤ (255 / 1000 * x + 103 / 100) * (2 * z) := by
      rw [hn]
      have e1 : z * z ≤ 51 / 100 * x * z := mul_le_mul_of_nonneg_right hzhi hz.le
      have e2 : (255 / 1000 * x + 103 / 100) * (2 * z)
          = 51 / 100 * x * z + 206 / 100 * z := by ring
      rw [e2]
      linarith
    exact le_of_mul_le_mul_right e h2z
  have h1 := (abs_le.mp herr).1
  have h2 := (abs_le.mp herr).2
  have hz'lo : (1 - κ) * n ≤ z' := by linarith
  have hk1 : 0 < 1 - κ := by linarith
  have hz'pos : 0 < z' := lt_of_lt_of_le (mul_pos hk1 hn0) hz'lo
  have hκn : κ * n ≤ 1 / 1000 * n := mul_le_mul_of_nonneg_right hκ1 hn0.le
  have hz'hi : z' ≤ 256 / 1000 * x + 104 / 100 := by linarith
  refine ⟨hz'pos, ?_, ?_⟩
  · have e1 : ((1 - κ) * n) * ((1 - κ) * n) ≤ z' * z' :=
      mul_le_mul hz'lo hz'lo (mul_pos hk1 hn0).le hz'pos.le
    have e2 : (1 - 2 * κ) * x ≤ (1 - κ) ^ 2 * (n * n) := by
      have : (1 - 2 * κ) ≤ (1 - κ) ^ 2 := by nlinarith [sq_nonneg κ]
      have h3 : (1 - κ) ^ 2 * x ≤ (1 - κ) ^ 2 * (n * n) :=
        mul_le_mul_of_nonneg_left hnx (sq_nonneg _)
      have h4 : (1 - 2 * κ) * x ≤ (1 - κ) ^ 2 * x := mul_le_mul_of_nonneg_right this hx.le
      linarith
    have e3 : ((1 - κ) * n) * ((1 - κ) * n) = (1 - κ) ^ 2 * (n * n) := by ring
    linarith
  · have e1 : z' * z' ≤ (256 / 1000 * x + 104 / 100) * (256 / 1000 * x + 104 / 100) :=
      mul_le_mul hz'hi hz'hi hz'pos.le (by linarith)
    have e2 : x * x ≤ 2 ^ 140 * x := mul_le_mul_of_nonneg_right hx2 hx.le
    have e3 : (1 : ℚ) ≤ 2 ^ 140 * x := by
      have := mul_le_mul_of_nonneg_left hx1 (by positivity : (0 : ℚ) ≤ 2 ^ 140)
      rw [mul_one_div_cancel (by positivity)] at this
      exact this
    have e4 : (256 / 1000 * x + 104 / 100) * (256 / 1000 * x + 104 / 100)
        = 65536 / 1000000 * (x * x) + 53248 / 100000 * x + 10816 / 10000 := by ring
    have e5 : x * (1 + (2 ^ 143 + 0)) = x + 8 * (2 ^ 140 * x) := by ring
    linarith

/-- The rounds of `sqrt` on a finite operand of moderate size: after every number
of rounds the iterate is a positive finite number, and from the first round on
its square lies between `x * (1 - 10.2 * 2 ^ (-53))` and
`x * (1 + 2 ^ 143 * (1/4 + 2 ^ (-40)) ^ (m - 1) + 14 * 2 ^ (-53))`. -/
theorem sqrtLoop_iterates (x : ℚ) (hx1 : 1 / 2 ^ 140 ≤ x) (hx2 : x ≤ 2 ^ 140) (m : ℕ) :
    ∃ r : ℚ, sqrtLoop (finite x) m (finite x / 2) = finite r ∧ 0 < r ∧
      (1 ≤ m →
        x * (1 - 2 * (51 / 10 * unitRoundoff)) ≤ r * r ∧
        r * r ≤ x * (1 + (2 ^ 143 * (1 / 4 + 1 / 2 ^ 40) ^ (m - 1) + 14 * unitRoundoff))) := by
  obtain ⟨hκ0, hκ1, -, -, -, -⟩ := contraction_constants
  obtain ⟨hu0, -, hm0, -, -, -, -, -⟩ := constants_spec
  obtain ⟨-, hu1, hμsmall, hFbig⟩ := constants_range
  have hxpos : 0 < x := lt_of_lt_of_le (by positivity) hx1
  -- the start x / 2
  have hM : (1 : ℚ) ≤ 2 ^ 150 := one_le_pow₀ (by norm_num)
  have hFx : x / 2 < finiteBound := by
    have h1 : (2 : ℚ) ^ 140 ≤ 2 ^ 150 := by norm_num
    have h2 : (2 : ℚ) ^ 150 * 1 ≤ 2 ^ 150 * 2 ^ 150 :=
      mul_le_mul_of_nonneg_left hM (by positivity)
    have h3 : (2 : ℚ) ^ 150 * 2 ^ 150 * 1 ≤ 2 ^ 150 * 2 ^ 150 * 2 ^ 150 :=
      mul_le_mul_of_nonneg_left hM (by positivity)
    linarith
  have s0 := div_spec (finite x) (finite 2) rfl rfl (by
    show (2 : ℚ) ≠ 0
    norm_num) (by
    show |x / 2| < finiteBound
    rw [abs_of_pos (by linarith)]
    exact hFx)
  obtain ⟨f0, e0⟩ := s0
  have e0' : |(finite x / finite 2).val - x / 2| ≤ unitRoundoff * (|x / 2| + minNormal) :=
    max_error_le _ _ _ _ hu0.le hm0.le e0
  obtain ⟨z0, hz0⟩ : ∃ z0 : ℚ, z0 = (finite x / finite 2).val := ⟨_, rfl⟩
  rw [← hz0, abs_of_pos (by linarith : 0 < x / 2)] at e0'
  have hμx : minNormal ≤ x / 2 := by
    have h1 : (1 : ℚ) / 2 ^ 150 * (1 / 2 ^ 150) / 10000 ≤ 1 / 2 ^ 140 / 2 := by norm_num
    linarith
  have herr0 : unitRoundoff * (x / 2 + minNormal) ≤ 1 / 1000 * (x / 2 + minNormal) :=
    mul_le_mul_of_nonneg_right hu1 (by linarith)
  have hz0lo : 49 / 100 * x ≤ z0 := by
    have := (abs_le.mp e0').1
    linarith
  have hz0hi : z0 ≤ 51 / 100 * x := by
    have := (abs_le.mp e0').2
    linarith
  have hz0pos : 0 < z0 := by linarith
  have hstart : (finite x / 2 : Float64) = finite z0 := by
    rw [two_eq]
    have := eq_finite_of_val_ne_zero _ f0 (by rw [← hz0]; exact hz0pos.ne')
    rw [this, ← hz0]
  rw [hstart]
  cases m with
  | zero =>
    refine ⟨z0, rfl, hz0pos, ?_⟩
    intro h
    omega
  | succ m =>
    -- the first round
    have hx1' : 1 / 2 ^ 150 ≤ x := by
      have : (1 : ℚ) / 2 ^ 150 ≤ 1 / 2 ^ 140 := by norm_num
      linarith
    have hx2' : x ≤ 2 ^ 150 := by
      have : (2 : ℚ) ^ 140 ≤ 2 ^ 150 := by norm_num
      linarith
    have hz1 : 1 / 2 ^ 150 ≤ z0 := by
      have h1 : (1 : ℚ) / 2 ^ 150 ≤ 49 / 100 * (1 / 2 ^ 140) := by norm_num
      have h2 : 49 / 100 * (1 / 2 ^ 140) ≤ 49 / 100 * x :=
        mul_le_mul_of_nonneg_left hx1 (by norm_num)
      linarith
    have hz2 : z0 ≤ 2 ^ 150 := by
      have h1 : 51 / 100 * x ≤ 51 / 100 * 2 ^ 140 :=
        mul_le_mul_of_nonneg_left hx2 (by norm_num)
      have h2 : (51 : ℚ) / 100 * 2 ^ 140 ≤ 2 ^ 150 := by norm_num
      linarith
    obtain ⟨z1, hstep, hz1pos, herr⟩ := sqrtRound_spec x z0 hx1' hx2' hz1 hz2
    have h2z : (0 : ℚ) < 2 * z0 := by linarith
    have herr' : |z1 - (z0 * z0 + x) / (2 * z0)|
        ≤ 51 / 10 * unitRoundoff * ((z0 * z0 + x) / (2 * z0)) := by
      rw [mul_assoc]
      exact herr
    obtain ⟨-, hlo1, hhi1⟩ := newton_first (51 / 10 * unitRoundoff) x z0
      ((z0 * z0 + x) / (2 * z0)) z1 hκ1 hx1 hx2 hz0lo hz0hi
      (div_mul_cancel₀ _ h2z.ne') herr'
    have hhi1' : z1 * z1
        ≤ x * (1 + (2 ^ 143 * (1 / 4 + 1 / 2 ^ 40) ^ 0 + 14 * unitRoundoff)) := by
      have : x * (1 + (2 ^ 143 + 0))
          ≤ x * (1 + (2 ^ 143 * (1 / 4 + 1 / 2 ^ 40) ^ 0 + 14 * unitRoundoff)) := by
        apply mul_le_mul_of_nonneg_left _ hxpos.le
        rw [pow_zero]
        linarith
      linarith
    obtain ⟨r, hr, hrpos, hrlo, hrhi⟩ := sqrtLoop_invariant x hx1 hx2 m 0 z1 hz1pos hlo1 hhi1'
    refine ⟨r, ?_, hrpos, ?_⟩
    · rw [sqrtLoop_succ_float, hstep, hr]
    · intro _
      refine ⟨hrlo, ?_⟩
      have e : m + 1 - 1 = 0 + m := by omega
      rw [e]
      exact hrhi

/-- The Newton `sqrt` on a finite operand of moderate size returns a positive
finite number whose square is within `x / 2 ^ 49` of `x`. -/
theorem sqrt_spec (x : ℚ) (hx1 : 1 / 2 ^ 140 ≤ x) (hx2 : x ≤ 2 ^ 140) :
    ∃ r : ℚ, sqrt (finite x) = finite r ∧ 0 < r ∧ |r * r - x| ≤ x / 2 ^ 49 := by
  obtain ⟨-, -, -, -, c5, c6⟩ := contraction_constants
  have hxpos : 0 < x := lt_of_lt_of_le (by positivity) hx1
  obtain ⟨r, hr, hrpos, hb⟩ := sqrtLoop_iterates x hx1 hx2 100
  obtain ⟨hlo, hhi⟩ := hb (by norm_num)
  refine ⟨r, ?_, hrpos, ?_⟩
  · have hnl : ¬ (finite x < (0 : Float64)) := by
      rw [zero_eq]
      show ¬ (lt (finite x) (finite 0) = true)
      simp [lt, val, hxpos.le]
    unfold sqrt
    rw [if_neg hnl, hr]
  · rw [abs_le]
    have e1 : x * (2 * (51 / 10 * unitRoundoff)) ≤ x * (1 / 2 ^ 49) :=
      mul_le_mul_of_nonneg_left c6 hxpos.le
    have e2 : x * (2 ^ 143 * (1 / 4 + 1 / 2 ^ 40) ^ (100 - 1) + 14 * unitRoundoff)
        ≤ x * (1 / 2 ^ 49) := mul_le_mul_of_nonneg_left c5 hxpos.le
    have e3 : x / 2 ^ 49 = x * (1 / 2 ^ 49) := by ring
    rw [e3]
    constructor
    · linarith
    · linarith

/-- A finite number minus itself is the positive zero. -/
theorem sub_self_finite (v : ℚ) : (finite v - finite v : Float64) = finite 0 := by
  show add (finite v) (neg (finite v)) = finite 0
  have hneg : neg (finite v) = if v = 0 then negZero else finite (-v) := rfl
  rw [hneg]
  by_cases hv : v = 0
  · rw [if_pos hv, hv]
    decide!
  · rw [if_neg hv]
    show round64 (v + -v) false = finite 0
    rw [add_neg_cancel]
    decide!

/-- The sum of squared deviations of samples that all equal the mean is the
positive zero. -/
theorem varianceSum_equal (v : ℚ) (xs : List Float64) (h : ∀ a ∈ xs, a = finite v) :
    xs.foldl (fun acc a => acc + (a - finite v) * (a - finite v)) (finite 0) = finite 0 := by
  induction xs with
  | nil => rfl
  | cons a rest ih =>
    rw [List.foldl_cons, h a (List.mem_cons_self _ _), sub_self_finite]
    have : (finite 0 + finite 0 * finite 0 : Float64) = finite 0 := by decide!
    rw [this]
    exact ih (fun b hb => h b (List.mem_cons_of_mem _ hb))

/-- The positive zero over the `float64` of a positive integer is the positive
zero. -/
theorem zero_div_ofInt (n : Int) (hn : 1 ≤ n) : (finite 0 / ofInt n : Float64) = finite 0 := by
  obtain ⟨-, -, hm0, -, -, hmin, -, -⟩ := constants_spec
  have hq : minNormal ≤ (n : ℚ) := by
    have h1 : (1 : ℚ) ≤ (n : ℚ) := by exact_mod_cast hn
    have h2 : minNormal ≤ 1 := by
      rw [← hmin]
      exact zpow_le_one_of_nonpos₀ (by norm_num) (by norm_num)
    linarith
  unfold ofInt
  rcases round64_of_normal (n : ℚ) false hq with h | ⟨r, hr, h⟩
  · rw [h]
    decide!
  · rw [h]
    show div (finite 0) (finite r) = finite 0
    have hr0 : ¬ r = 0 := hr.ne'
    have hrn : ¬ r < 0 := not_lt.mpr hr.le
    simp [div, isInf, isZero, hr0, val, signBit, hrn, round64, zero]

/-- The positive zero is not above zero. -/
theorem zero_not_gt : ¬ ((0 : Float64) > 0) := by
  decide!

/-- The statistics step returns the Z-score 0 as soon as the computed standard
deviation is not above zero. -/
theorem historyStatistics_of_std (x0 : Float64) (rest : List Float64) (dataTime : Int)
    (h : ¬ historyStd (x0 :: rest) > 0) :
    ∃ r : MVRVResult, historyStatistics (x0 :: rest) dataTime = some r ∧ r.ZScore = 0 := by
  simp only [historyStatistics, if_neg h]
  exact ⟨_, rfl, rfl⟩

/-- The computed standard deviation of a single sample is the constant 0. -/
theorem historyStd_single (a : Float64) : historyStd [a] = 0 := by
  simp [historyStd]

/-- The computed standard deviation of equal finite samples whose computed mean is
their common value is the positive zero. -/
theorem historyStd_equal (v : ℚ) (xs : List Float64) (hlen : 2 ≤ xs.length)
    (h : ∀ a ∈ xs, a = finite v) (hmean : historyMean xs = finite v) :
    historyStd xs = 0 := by
  have h1 : xs.length > 1 := by omega
  have hcast : (1 : Int) ≤ (xs.length : Int) - 1 := by omega
  have hvar : xs.foldl (fun acc a => acc + (a - finite v) * (a - finite v)) (0 : Float64)
      = finite 0 := by
    rw [zero_eq]
    exact varianceSum_equal v xs h
  have hdiv : (finite 0 / ofInt ((xs.length : Int) - 1) : Float64) = 0 := by
    rw [zero_div_ofInt _ hcast, zero_eq]
  simp only [historyStd, hmean, hvar, if_pos h1, hdiv, if_neg zero_not_gt]

/-- C18 (as stated, refuted). The three samples 0.1, 0.1, 0.1 are all equal, yet
their computed mean is not 0.1 (the sum of three 0.1 rounds up), the sum of
squared deviations is above zero, and the statistics step returns the Z-score
-7354347395230781 / 2 ^ 53, about -0.8165, not 0. -/
theorem historyStatistics_equal_samples_nonzero :
    (∀ a ∈ ([0.1, 0.1, 0.1] : List Float64), ∀ b ∈ ([0.1, 0.1, 0.1] : List Float64), a = b) ∧
    historyMean [0.1, 0.1, 0.1] ≠ 0.1 ∧
    historyStatistics [0.1, 0.1, 0.1] 0 =
      some
        { MVRV := 0.1
          ZScore := finite (-7354347395230781 / 9007199254740992)
          Timestamp := 0
          Source := "CoinMetrics Community API (3天历史)" } ∧
    finite (-7354347395230781 / 9007199254740992) ≠ 0 := by
  decide!

/-- C18 (amended). Degenerate-sample policy of the statistics step of
`FetchWithHistory`: for every sample sequence of length 1, and for every
sequence of length at least 2 whose samples all equal one finite value that is
also their computed mean, the computed standard deviation is 0 and the step
returns a result with Z-score 0. -/
theorem historyStatistics_degenerate_computed (xs : List Float64) (dataTime : Int)
    (h : xs.length = 1 ∨
      (2 ≤ xs.length ∧ ∃ v : ℚ, (∀ a ∈ xs, a = finite v) ∧ historyMean xs = finite v)) :
    historyStd xs = 0 ∧
    ∃ r : MVRVResult, historyStatistics xs dataTime = some r ∧ r.ZScore = 0 := by
  have hstd : historyStd xs = 0 := by
    rcases h with h | ⟨hlen, v, hall, hmean⟩
    · obtain ⟨a, rfl⟩ := List.length_eq_one.mp h
      exact historyStd_single a
    · exact historyStd_equal v xs hlen hall hmean
  refine ⟨hstd, ?_⟩
  cases xs with
  | nil =>
    rcases h with h | ⟨h, -⟩
    · cases h
    · simp at h
  | cons x0 rest =>
    apply historyStatistics_of_std
    rw [hstd]
    exact zero_not_gt

/-- Witness for C18 (amended): a single sample, and three samples 2.5, whose sum
7.5 and mean 2.5 are computed exactly. -/
theorem historyStatistics_degenerate_computed_witness :
    (historyStd [2.5] = 0 ∧
      ∃ r : MVRVResult, historyStatistics [2.5] 0 = some r ∧ r.ZScore = 0) ∧
    (historyStd [2.5, 2.5, 2.5] = 0 ∧
      ∃ r : MVRVResult, historyStatistics [2.5, 2.5, 2.5] 0 = some r ∧ r.ZScore = 0) :=
  ⟨historyStatistics_degenerate_computed [2.5] 0 (Or.inl rfl),
   historyStatistics_degenerate_computed [2.5, 2.5, 2.5] 0
    (Or.inr ⟨by decide, 5 / 2, by decide!, by decide!⟩)⟩

/-- C20 (as stated, refuted). At the operand 0, which is not below zero, the loop
of `sqrt` starts from `0 / 2 = 0`; the first round divides `0 * 0 - 0` by
`2 * 0 = 0`, which is not-a-number, and so is the result. The same result comes
out at the smallest positive operand (5e-324, whose half rounds to 0) and at
1e200 (where `z * z` overflows). -/
theorem sqrt_zero_not_a_number :
    ¬ ((0 : Float64) < 0) ∧
    (2 * ((0 : Float64) / 2) : Float64) = 0 ∧
    ((0 : Float64) * 0 - 0) / (2 * ((0 : Float64) / 2)) = nan ∧
    sqrt 0 = nan ∧
    sqrt 5e-324 = nan ∧
    sqrt 1e200 = nan := by
  decide!

/-- C20 (amended). For every finite operand `x` with `2 ^ (-140) ≤ x ≤ 2 ^ 140`
the Newton `sqrt` completes its rounds without dividing by zero, the iterate
being a positive finite number after every number of rounds, and returns a
positive finite `r` with `|r * r - x| ≤ x / 2 ^ 49`. -/
theorem sqrt_tolerates_moderate (x : ℚ) (hx1 : 1 / 2 ^ 140 ≤ x) (hx2 : x ≤ 2 ^ 140) :
    (∀ m : ℕ, ∃ z : ℚ, 0 < z ∧ sqrtLoop (finite x) m (finite x / 2) = finite z) ∧
    ∃ r : ℚ, sqrt (finite x) = finite r ∧ 0 < r ∧ |r * r - x| ≤ x / 2 ^ 49 := by
  refine ⟨?_, sqrt_spec x hx1 hx2⟩
  intro m
  obtain ⟨z, hz, hpos, -⟩ := sqrtLoop_iterates x hx1 hx2 m
  exact ⟨z, hpos, hz⟩

/-- Witness for C20 (amended): the operand 2. -/
theorem sqrt_tolerates_moderate_witness :
    (∀ m : ℕ, ∃ z : ℚ, 0 < z ∧ sqrtLoop (finite 2) m (finite 2 / 2) = finite z) ∧
    ∃ r : ℚ, sqrt (finite 2) = finite r ∧ 0 < r ∧ |r * r - 2| ≤ 2 / 2 ^ 49 :=
  sqrt_tolerates_moderate 2 (by norm_num) (by norm_num)

end fetcher

end ieee

end CryptoSentinel
